import Mathlib

/-!
Verification of the scrapscript language kernel (scrapscript.py): data model,
binary-operator table, structural pattern matcher, evaluator, serializer /
deserializer, Pratt parser, and union-find type unification.  Each Python
function is translated into an executable Lean definition; exceptions become
`Except` errors, mutation of the union-find forest becomes explicit state
passing, and unbounded recursion is expressed with explicit fuel.

Modelling conventions, fixed once here:
* Python `int` is `Int` (arbitrary precision in both).
* Python `float` is carried as its 64-bit IEEE-754 bit pattern (a `Nat`
  below `2 ^ 64`).  The serializer moves exactly these bits
  (`struct.pack("<d", ...)`), so this is lossless.  Host IEEE arithmetic on
  the patterns is not reproduced bit-for-bit: the few places that combine two
  float values delegate to clearly named abstraction functions; no theorem
  below depends on those result values, only on which constructor (Int vs
  Float) the code produces and on its zero-divisor checks, which are decidable
  on the bit pattern.
* Python `dict[str, ...]` is an insertion-ordered association list with the
  CPython update semantics (assignment to an existing key overwrites in
  place, a new key is appended).
* Python `set[str]` is a `Finset String` (Python set iteration order is
  unspecified; it is only observable in one record-spread corner noted there).
-/

namespace Scrapscript

/-- The closed enumeration of binary operators (`class BinopKind`). -/
inductive BinopKind where
  | add
  | sub
  | mul
  | div
  | floorDiv
  | exp
  | mod
  | equal
  | notEqual
  | less
  | greater
  | lessEqual
  | greaterEqual
  | boolAnd
  | boolOr
  | stringConcat
  | listCons
  | listAppend
  | rightEval
  | hasType
  | pipe
  | reversePipe
  deriving DecidableEq, Repr

/-- `BinopKind.from_str`: the textual form of each operator.  The Python dict
lookup raises `KeyError` on a string outside the table; that is `none` here. -/
def fromStr (x : String) : Option BinopKind :=
  if x = "+" then some .add
  else if x = "-" then some .sub
  else if x = "*" then some .mul
  else if x = "/" then some .div
  else if x = "//" then some .floorDiv
  else if x = "^" then some .exp
  else if x = "%" then some .mod
  else if x = "==" then some .equal
  else if x = "/=" then some .notEqual
  else if x = "<" then some .less
  else if x = ">" then some .greater
  else if x = "<=" then some .lessEqual
  else if x = ">=" then some .greaterEqual
  else if x = "&&" then some .boolAnd
  else if x = "||" then some .boolOr
  else if x = "++" then some .stringConcat
  else if x = ">+" then some .listCons
  else if x = "+<" then some .listAppend
  else if x = "!" then some .rightEval
  else if x = ":" then some .hasType
  else if x = "|>" then some .pipe
  else if x = "<|" then some .reversePipe
  else none

/-- `BinopKind.to_str`: the reverse table.  The Python dict in the source has
no entry for `FLOOR_DIV`, so `to_str(BinopKind.FLOOR_DIV)` raises `KeyError`;
that missing entry is `none` here. -/
def toStr : BinopKind → Option String
  | .add => some "+"
  | .sub => some "-"
  | .mul => some "*"
  | .div => some "/"
  | .floorDiv => none
  | .exp => some "^"
  | .mod => some "%"
  | .equal => some "=="
  | .notEqual => some "/="
  | .less => some "<"
  | .greater => some ">"
  | .lessEqual => some "<="
  | .greaterEqual => some ">="
  | .boolAnd => some "&&"
  | .boolOr => some "||"
  | .stringConcat => some "++"
  | .listCons => some ">+"
  | .listAppend => some "+<"
  | .rightEval => some "!"
  | .hasType => some ":"
  | .pipe => some "|>"
  | .reversePipe => some "<|"

/-- The operator strings of the enumeration, as listed in the spec. -/
def opStrings : List String :=
  ["+", "-", "*", "/", "//", "^", "%", "==", "/=", "<", ">", "<=", ">=",
   "&&", "||", "++", ">+", "+<", "!", ":", "|>", "<|"]

/-- The expression tree (`class Object` and its dataclass subclasses).  Python
`MatchCase` is itself an `Object` subclass; `MatchFunction.cases` holds
`MatchCase` nodes.  `NativeFunction` carries a host callback that a tree model
cannot hold; only its name is kept (no claim applies a native function).
`Float` carries the IEEE-754 bit pattern of the Python float. -/
inductive Object where
  | int (value : Int)
  | float (bits : Nat)
  | string (value : String)
  | bytes (value : List Nat)
  | var (name : String)
  | hole
  | spread (name : Option String)
  | variant (tag : String) (value : Object)
  | binop (op : BinopKind) (left right : Object)
  | list (items : List Object)
  | record (data : List (String × Object))
  | assign (name : String) (value : Object)
  | function (arg : Object) (body : Object)
  | matchCase (pattern body : Object)
  | matchFunction (cases : List Object)
  | apply (func arg : Object)
  | whereExp (body binding : Object)
  | assertExp (value cond : Object)
  | access (obj at_ : Object)
  | closure (env : List (String × Object)) (func : Object)
  | nativeFunction (name : String)
  | envObject (env : List (String × Object))

/-- An environment (`Env = Mapping[str, Object]`): an insertion-ordered
association list with CPython dict semantics. -/
abbrev EnvL := List (String × Object)

/-- CPython dict assignment `d[k] = v`: overwrite in place if the key exists,
otherwise append. -/
def dictInsert {α : Type} (d : List (String × α)) (k : String) (v : α) :
    List (String × α) :=
  match d with
  | [] => [(k, v)]
  | (k', v') :: rest =>
      if k' = k then (k, v) :: rest else (k', v') :: dictInsert rest k v

/-- CPython `d.update(other)` / `{**d, **other}`: entries of `other` assigned
into `d` in order. -/
def dictUpdate {α : Type} (d other : List (String × α)) : List (String × α) :=
  other.foldl (fun acc kv => dictInsert acc kv.1 kv.2) d

/-- CPython `d.get(k)`: value at the key, if present. -/
def dictGet {α : Type} (d : List (String × α)) (k : String) : Option α :=
  match d with
  | [] => none
  | (k', v) :: rest => if k' = k then some v else dictGet rest k

/-- CPython `k in d`. -/
def dictHasKey {α : Type} (d : List (String × α)) (k : String) : Bool :=
  (dictGet d k).isSome

/-- The exceptions `match` can raise: `MatchError` for a Float pattern and
`NotImplementedError` for a pattern kind outside the supported set. -/
inductive MatchExc where
  | matchError
  | notImplemented
  deriving DecidableEq, Repr

/-- Is this node a `Spread`?  (`isinstance(x, Spread)`.) -/
def Object.isSpread : Object → Bool
  | .spread _ => true
  | _ => false

mutual

/-- `match(obj, pattern)`: structural pattern match producing bindings
(`some env`), a non-match (`none`), or an exception.  Follows the source
case by case; the trailing Python `raise NotImplementedError` is the final
catch-all. -/
def matchPat (obj pattern : Object) : Except MatchExc (Option EnvL) :=
  match pattern with
  | .hole => .ok (match obj with | .hole => some [] | _ => none)
  | .int pv => .ok (match obj with
      | .int ov => if ov = pv then some [] else none
      | _ => none)
  | .float _ => .error .matchError
  | .string pv => .ok (match obj with
      | .string ov => if ov = pv then some [] else none
      | _ => none)
  | .var name => .ok (some [(name, obj)])
  | .variant ptag pv =>
      (match obj with
      | .variant otag ov =>
          if otag = ptag then matchPat ov pv else .ok none
      | _ => .ok none)
  | .record pdata =>
      (match obj with
      | .record odata => matchRecordItems odata pdata [] []
      | _ => .ok none)
  | .list pitems =>
      (match obj with
      | .list oitems => matchListItems oitems pitems []
      | _ => .ok none)
  | _ => .error .notImplemented

/-- The record loop of `match`: walk the pattern entries (in insertion order)
against the record `odata`, accumulating bindings in `acc` and the seen keys
in `seen`.  A `Spread` entry stops the walk and disables the exact-size check;
a named spread binds a record of the unseen keys (CPython builds it by
iterating a `set`, whose order is unspecified; the model keeps the object's
insertion order, which is equal as a Python dict). -/
def matchRecordItems (odata : List (String × Object))
    (pdata : List (String × Object)) (seen : List String) (acc : EnvL) :
    Except MatchExc (Option EnvL) :=
  match pdata with
  | [] =>
      -- end of loop, no spread: `len(pattern.data) != len(obj.data)` check,
      -- with the already-walked pattern entries counted through `seen`
      if seen.length ≠ odata.length then .ok none else .ok (some acc)
  | (key, pitem) :: prest =>
      if pitem.isSpread then
        .ok (some (match pitem with
          | .spread (some n) =>
              dictUpdate acc
                [(n, .record (odata.filter (fun kv => kv.1 ∉ seen)))]
          | _ => acc))
      else
        match dictGet odata key with
        | none => .ok none
        | some oitem =>
            match matchPat oitem pitem with
            | .error e => .error e
            | .ok none => .ok none
            | .ok (some part) =>
                matchRecordItems odata prest (seen ++ [key]) (dictUpdate acc part)

/-- The list loop of `match`: element by element; a `Spread` pattern item
stops the walk (a named spread binds the remaining value items); without a
spread both lists must be exhausted together. -/
def matchListItems (oitems : List Object) (pitems : List Object) (acc : EnvL) :
    Except MatchExc (Option EnvL) :=
  match pitems with
  | [] =>
      (match oitems with
      | [] => .ok (some acc)
      | _ :: _ => .ok none)
  | pitem :: prest =>
      if pitem.isSpread then
        .ok (some (match pitem with
          | .spread (some n) => dictUpdate acc [(n, .list oitems)]
          | _ => acc))
      else
        match oitems with
        | [] => .ok none
        | oitem :: orest =>
            match matchPat oitem pitem with
            | .error e => .error e
            | .ok none => .ok none
            | .ok (some part) => matchListItems orest prest (dictUpdate acc part)

end

mutual

/-- Patterns on which the matcher is total: built only from the constructor
kinds `match` supports, with no `Float` anywhere (spread entries are allowed
in lists and records). -/
def goodPat : Object → Bool
  | .hole => true
  | .int _ => true
  | .string _ => true
  | .var _ => true
  | .variant _ v => goodPat v
  | .record data => goodPatEntries data
  | .list items => goodPatItems items
  | _ => false

def goodPatEntries : List (String × Object) → Bool
  | [] => true
  | (_, v) :: rest => (v.isSpread || goodPat v) && goodPatEntries rest

def goodPatItems : List Object → Bool
  | [] => true
  | it :: rest => (it.isSpread || goodPat it) && goodPatItems rest

end

/-- Unfolding equation for the list loop at an empty pattern list. -/
theorem matchListItems_nil (oitems : List Object) (acc : EnvL) :
    matchListItems oitems [] acc =
      (match oitems with
      | [] => .ok (some acc)
      | _ :: _ => .ok none) := by
  rw [matchListItems.eq_def]

/-- Unfolding equation for the list loop at a pattern item. -/
theorem matchListItems_cons (oitems : List Object) (pitem : Object)
    (prest : List Object) (acc : EnvL) :
    matchListItems oitems (pitem :: prest) acc =
      (if pitem.isSpread then
        .ok (some (match pitem with
          | .spread (some n) => dictUpdate acc [(n, .list oitems)]
          | _ => acc))
      else
        match oitems with
        | [] => .ok none
        | oitem :: orest =>
            match matchPat oitem pitem with
            | .error e => .error e
            | .ok none => .ok none
            | .ok (some part) => matchListItems orest prest (dictUpdate acc part)) := by
  rw [matchListItems.eq_def]

/-- Unfolding equation for the record loop at an exhausted pattern. -/
theorem matchRecordItems_nil (odata : List (String × Object)) (seen : List String)
    (acc : EnvL) :
    matchRecordItems odata [] seen acc =
      (if seen.length ≠ odata.length then .ok none else .ok (some acc)) := by
  rw [matchRecordItems.eq_def]

/-- Unfolding equation for the record loop at a pattern entry. -/
theorem matchRecordItems_cons (odata : List (String × Object)) (key : String)
    (pitem : Object) (prest : List (String × Object)) (seen : List String)
    (acc : EnvL) :
    matchRecordItems odata ((key, pitem) :: prest) seen acc =
      (if pitem.isSpread then
        .ok (some (match pitem with
          | .spread (some n) =>
              dictUpdate acc
                [(n, .record (odata.filter (fun kv => kv.1 ∉ seen)))]
          | _ => acc))
      else
        match dictGet odata key with
        | none => .ok none
        | some oitem =>
            match matchPat oitem pitem with
            | .error e => .error e
            | .ok none => .ok none
            | .ok (some part) =>
                matchRecordItems odata prest (seen ++ [key]) (dictUpdate acc part)) := by
  rw [matchRecordItems.eq_def]

mutual

/-- On supported float-free patterns the matcher returns a result (bindings or
`None`) and never raises. -/
theorem matchPat_total : ∀ (obj pattern : Object), goodPat pattern = true →
    ∃ r, matchPat obj pattern = .ok r
  | obj, .hole, _ => by simp only [matchPat.eq_def]; exact ⟨_, rfl⟩
  | obj, .int pv, _ => by simp only [matchPat.eq_def]; exact ⟨_, rfl⟩
  | obj, .string pv, _ => by simp only [matchPat.eq_def]; exact ⟨_, rfl⟩
  | obj, .var name, _ => by simp only [matchPat.eq_def]; exact ⟨_, rfl⟩
  | obj, .float b, h => by rw [goodPat.eq_def] at h; simp at h
  | obj, .variant ptag pv, h => by
      cases obj with
      | variant otag ov =>
          have hstep : matchPat (.variant otag ov) (.variant ptag pv) =
              if otag = ptag then matchPat ov pv else .ok none := by
            rw [matchPat.eq_def]
          rw [hstep]
          by_cases he : otag = ptag
          · rw [if_pos he]
            exact matchPat_total ov pv (by rw [goodPat.eq_def] at h; exact h)
          · rw [if_neg he]; exact ⟨_, rfl⟩
      | _ => exact ⟨_, by rw [matchPat.eq_def]⟩
  | obj, .record pdata, h => by
      simp only [matchPat.eq_def]
      cases obj with
      | record odata =>
          exact matchRecordItems_total odata pdata [] []
            (by rw [goodPat.eq_def] at h; exact h)
      | _ => exact ⟨_, rfl⟩
  | obj, .list pitems, h => by
      simp only [matchPat.eq_def]
      cases obj with
      | list oitems =>
          exact matchListItems_total oitems pitems []
            (by rw [goodPat.eq_def] at h; exact h)
      | _ => exact ⟨_, rfl⟩
  | obj, .bytes v, h => by rw [goodPat.eq_def] at h; simp at h
  | obj, .spread n, h => by rw [goodPat.eq_def] at h; simp at h
  | obj, .binop op l r, h => by rw [goodPat.eq_def] at h; simp at h
  | obj, .assign n v, h => by rw [goodPat.eq_def] at h; simp at h
  | obj, .function a b, h => by rw [goodPat.eq_def] at h; simp at h
  | obj, .matchCase p b, h => by rw [goodPat.eq_def] at h; simp at h
  | obj, .matchFunction cs, h => by rw [goodPat.eq_def] at h; simp at h
  | obj, .apply f a, h => by rw [goodPat.eq_def] at h; simp at h
  | obj, .whereExp b bi, h => by rw [goodPat.eq_def] at h; simp at h
  | obj, .assertExp v c, h => by rw [goodPat.eq_def] at h; simp at h
  | obj, .access o a, h => by rw [goodPat.eq_def] at h; simp at h
  | obj, .closure e f, h => by rw [goodPat.eq_def] at h; simp at h
  | obj, .nativeFunction n, h => by rw [goodPat.eq_def] at h; simp at h
  | obj, .envObject e, h => by rw [goodPat.eq_def] at h; simp at h

/-- The record loop of `match` is total on supported float-free entries. -/
theorem matchRecordItems_total : ∀ (odata pdata seen acc),
    goodPatEntries pdata = true →
    ∃ r, matchRecordItems odata pdata seen acc = .ok r
  | odata, [], seen, acc, _ => by
      rw [matchRecordItems_nil]
      by_cases hl : seen.length ≠ odata.length
      · rw [if_pos hl]; exact ⟨_, rfl⟩
      · rw [if_neg hl]; exact ⟨_, rfl⟩
  | odata, (key, pitem) :: prest, seen, acc, h => by
      rw [goodPatEntries.eq_def] at h
      simp only [Bool.and_eq_true, Bool.or_eq_true] at h
      rw [matchRecordItems_cons]
      by_cases hs : pitem.isSpread
      · rw [if_pos hs]; exact ⟨_, rfl⟩
      · rw [if_neg hs]
        cases hg : dictGet odata key with
        | none => exact ⟨_, rfl⟩
        | some oitem =>
            dsimp only
            have hgood : goodPat pitem = true := by
              rcases h.1 with h' | h'
              · exact absurd h' hs
              · exact h'
            obtain ⟨r, hr⟩ := matchPat_total oitem pitem hgood
            rw [hr]
            cases r with
            | none => exact ⟨_, rfl⟩
            | some part =>
                exact matchRecordItems_total odata prest (seen ++ [key])
                  (dictUpdate acc part) h.2

/-- The list loop of `match` is total on supported float-free items. -/
theorem matchListItems_total : ∀ (oitems pitems acc), goodPatItems pitems = true →
    ∃ r, matchListItems oitems pitems acc = .ok r
  | oitems, [], acc, _ => by
      rw [matchListItems_nil]
      cases oitems with
      | nil => exact ⟨_, rfl⟩
      | cons o os => exact ⟨_, rfl⟩
  | oitems, pitem :: prest, acc, h => by
      rw [goodPatItems.eq_def] at h
      simp only [Bool.and_eq_true, Bool.or_eq_true] at h
      rw [matchListItems_cons]
      by_cases hs : pitem.isSpread
      · rw [if_pos hs]; exact ⟨_, rfl⟩
      · rw [if_neg hs]
        cases oitems with
        | nil => exact ⟨_, rfl⟩
        | cons oitem orest =>
            dsimp only
            have hgood : goodPat pitem = true := by
              rcases h.1 with h' | h'
              · exact absurd h' hs
              · exact h'
            obtain ⟨r, hr⟩ := matchPat_total oitem pitem hgood
            rw [hr]
            cases r with
            | none => exact ⟨_, rfl⟩
            | some part =>
                exact matchListItems_total orest prest (dictUpdate acc part) h.2

end

/-- Every `goodPatItems` obligation unfolds to a per-item disjunction. -/
theorem goodPatItems_of_forall (pitems : List Object)
    (h : ∀ p ∈ pitems, p.isSpread = true ∨ goodPat p = true) :
    goodPatItems pitems = true := by
  induction pitems with
  | nil => rw [goodPatItems.eq_def]
  | cons p ps ih =>
      rw [goodPatItems.eq_def]
      simp only [Bool.and_eq_true, Bool.or_eq_true]
      exact ⟨h p (List.mem_cons_self _ _),
        ih (fun q hq => h q (List.mem_cons_of_mem _ hq))⟩

/-- Spread-free list matching, loop form: the loop yields bindings exactly
when the element patterns match the value elements pointwise (`Forall₂`
forces equal lengths). -/
theorem matchListItems_some_iff (pitems : List Object) :
    ∀ (oitems : List Object) (acc : EnvL),
    (∀ p ∈ pitems, p.isSpread = false) →
    ((∃ env, matchListItems oitems pitems acc = .ok (some env)) ↔
      List.Forall₂ (fun o p => ∃ e, matchPat o p = .ok (some e)) oitems pitems) := by
  induction pitems with
  | nil =>
      intro oitems acc _
      rw [matchListItems_nil]
      cases oitems with
      | nil =>
          constructor
          · intro _; exact List.Forall₂.nil
          · intro _; exact ⟨acc, rfl⟩
      | cons o os =>
          constructor
          · rintro ⟨env, henv⟩; simp at henv
          · intro hf; exact absurd (List.Forall₂.length_eq hf) (by simp)
  | cons pitem prest ih =>
      intro oitems acc hns
      have hnsp : pitem.isSpread = false := hns pitem (List.mem_cons_self _ _)
      rw [matchListItems_cons, hnsp]
      simp only [Bool.false_eq_true, if_false]
      cases oitems with
      | nil =>
          constructor
          · rintro ⟨env, henv⟩; simp at henv
          · intro hf; exact absurd (List.Forall₂.length_eq hf) (by simp)
      | cons oitem orest =>
          dsimp only
          cases hmp : matchPat oitem pitem with
          | error e =>
              constructor
              · rintro ⟨env, henv⟩; simp at henv
              · intro hf
                rcases (List.forall₂_cons.mp hf).1 with ⟨e', he'⟩
                rw [hmp] at he'; cases he'
          | ok r =>
              cases r with
              | none =>
                  constructor
                  · rintro ⟨env, henv⟩; simp at henv
                  · intro hf
                    rcases (List.forall₂_cons.mp hf).1 with ⟨e', he'⟩
                    rw [hmp] at he'; cases he'
              | some part =>
                  rw [ih orest (dictUpdate acc part)
                    (fun q hq => hns q (List.mem_cons_of_mem _ hq))]
                  rw [List.forall₂_cons]
                  constructor
                  · intro hf; exact ⟨⟨part, hmp⟩, hf⟩
                  · rintro ⟨_, hf⟩; exact hf

/-- C2 (corrected): as stated, `match` can raise more than the Float
`MatchError`: a pattern of an unsupported kind (here `Bytes`) raises
`NotImplementedError`. -/
theorem match_bytes_pattern_raises_c2 :
    matchPat (.int 1) (.bytes []) = .error .notImplemented := by
  simp [matchPat]

/-- C2 (amended): over patterns built from the supported kinds (Hole, Int,
String, Var, Variant, Record, List, with spread entries) and containing no
Float, `match` is total — it returns bindings or `None` and never raises;
a Float pattern raises `MatchError` regardless of the value. -/
theorem match_total_c2 :
    (∀ obj pattern, goodPat pattern = true → ∃ r, matchPat obj pattern = .ok r) ∧
    (∀ (obj : Object) (bits : Nat),
      matchPat obj (.float bits) = .error .matchError) :=
  ⟨matchPat_total, fun _ _ => by simp only [matchPat.eq_def]⟩

theorem match_total_c2_witness :
    (∃ r, matchPat (.int 5) (.var "x") = .ok r) ∧
      matchPat (.int 5) (.float 7) = .error .matchError :=
  ⟨match_total_c2.1 (.int 5) (.var "x") (by rw [goodPat.eq_def]),
   match_total_c2.2 (.int 5) 7⟩

/-- C8 (corrected): with a Float element pattern the match raises instead of
returning `None`, so "otherwise returns None" does not hold as stated. -/
theorem match_list_float_elem_raises_c8 :
    matchPat (.list [.int 1]) (.list [.float 0]) = .error .matchError := by
  simp [matchPat, matchListItems, Object.isSpread]

/-- C8 (amended): for list patterns with no top-level `Spread`, `match`
returns bindings iff the lengths agree and every element pattern yields
bindings on the corresponding element; when that fails and all element
patterns are supported and float-free, it returns `None` (a Float element
would instead raise, as the counterexample shows). -/
theorem match_list_no_spread_c8 : ∀ (oitems pitems : List Object),
    (∀ p ∈ pitems, p.isSpread = false) →
    ((∃ env, matchPat (.list oitems) (.list pitems) = .ok (some env)) ↔
      (oitems.length = pitems.length ∧
        List.Forall₂ (fun o p => ∃ e, matchPat o p = .ok (some e))
          oitems pitems)) ∧
    ((∀ p ∈ pitems, goodPat p = true) →
      ¬ List.Forall₂ (fun o p => ∃ e, matchPat o p = .ok (some e))
          oitems pitems →
      matchPat (.list oitems) (.list pitems) = .ok none) := by
  intro oitems pitems hns
  have hstep : matchPat (.list oitems) (.list pitems) =
      matchListItems oitems pitems [] := by
    simp only [matchPat.eq_def]
  constructor
  · rw [hstep, matchListItems_some_iff pitems oitems [] hns]
    constructor
    · intro hf; exact ⟨List.Forall₂.length_eq hf, hf⟩
    · rintro ⟨_, hf⟩; exact hf
  · intro hgood hnf
    have htot := matchListItems_total oitems pitems []
      (goodPatItems_of_forall pitems (fun p hp => Or.inr (hgood p hp)))
    rcases htot with ⟨r, hr⟩
    cases r with
    | none => rw [hstep]; exact hr
    | some env =>
        exact absurd ((matchListItems_some_iff pitems oitems [] hns).mp
          ⟨env, hr⟩) hnf

theorem match_list_no_spread_c8_witness :
    ∃ env, matchPat (.list [.int 1]) (.list [.var "x"]) = .ok (some env) :=
  (match_list_no_spread_c8 [.int 1] [.var "x"]
      (by intro p hp; simp at hp; subst hp; rfl)).1.mpr
    ⟨rfl, List.Forall₂.cons ⟨[("x", .int 1)], by simp only [matchPat.eq_def]⟩
      List.Forall₂.nil⟩

/-- Is this the special-form callee `$$quote`?
(`isinstance(exp.func, Var) and exp.func.name == "$$quote"`.) -/
def isQuote : Object → Bool
  | .var n => n == "$$quote"
  | _ => false

/-- `TRUE`: the boolean-true encoding `#true ()`. -/
def TRUE : Object := .variant "true" .hole

/-- `FALSE`: the boolean-false encoding `#false ()`. -/
def FALSE : Object := .variant "false" .hole

/-- `make_bool`. -/
def makeBool (x : Bool) : Object := if x then TRUE else FALSE

mutual

/-- Python `==` on expression values (the dataclass-generated structural
equality).  Different classes never compare equal (dataclass `__eq__` checks
the class), so `Int 1 == Float 1.0` is `False` in the source as well.
Caveats of the bit-pattern float model: Python compares float *values*
(`nan != nan`, `-0.0 == 0.0`) where this model compares the bit patterns;
`NativeFunction` equality also compares the host callback, which the model
drops.  No theorem below depends on either corner. -/
def pyEqObj : Object → Object → Bool
  | .int a, .int b => a == b
  | .float a, .float b => a == b
  | .string a, .string b => a == b
  | .bytes a, .bytes b => a == b
  | .var a, .var b => a == b
  | .hole, .hole => true
  | .spread a, .spread b => a == b
  | .variant t1 v1, .variant t2 v2 => t1 == t2 && pyEqObj v1 v2
  | .binop o1 l1 r1, .binop o2 l2 r2 =>
      o1 == o2 && pyEqObj l1 l2 && pyEqObj r1 r2
  | .list a, .list b => pyEqItems a b
  | .record a, .record b => a.length == b.length && pyEqEntriesSub a b
  | .assign n1 v1, .assign n2 v2 => n1 == n2 && pyEqObj v1 v2
  | .function a1 b1, .function a2 b2 => pyEqObj a1 a2 && pyEqObj b1 b2
  | .matchCase p1 b1, .matchCase p2 b2 => pyEqObj p1 p2 && pyEqObj b1 b2
  | .matchFunction c1, .matchFunction c2 => pyEqItems c1 c2
  | .apply f1 a1, .apply f2 a2 => pyEqObj f1 f2 && pyEqObj a1 a2
  | .whereExp b1 x1, .whereExp b2 x2 => pyEqObj b1 b2 && pyEqObj x1 x2
  | .assertExp v1 c1, .assertExp v2 c2 => pyEqObj v1 v2 && pyEqObj c1 c2
  | .access o1 a1, .access o2 a2 => pyEqObj o1 o2 && pyEqObj a1 a2
  | .closure e1 f1, .closure e2 f2 =>
      e1.length == e2.length && pyEqEntriesSub e1 e2 && pyEqObj f1 f2
  | .nativeFunction n1, .nativeFunction n2 => n1 == n2
  | .envObject e1, .envObject e2 => e1.length == e2.length && pyEqEntriesSub e1 e2
  | _, _ => false

/-- Python list `==`: pointwise. -/
def pyEqItems : List Object → List Object → Bool
  | [], [] => true
  | a :: as_, b :: bs => pyEqObj a b && pyEqItems as_ bs
  | _, _ => false

/-- One direction of Python dict `==` (order-insensitive): every entry of the
first dict is present with an equal value in the second.  Combined with equal
entry counts this is dict equality, since Python dict keys are unique. -/
def pyEqEntriesSub : List (String × Object) → List (String × Object) → Bool
  | [], _ => true
  | (k, v) :: rest, d2 =>
      (match dictGet d2 k with
       | some v2 => pyEqObj v v2
       | none => false) && pyEqEntriesSub rest d2

end

/-- The typed errors of §7, plus the host exceptions the evaluator can
surface (`ZeroDivisionError` from CPython arithmetic, `AssertionError` from
`assert` statements, `AttributeError` from attribute access on the wrong
class) and `outOfFuel` for the explicit recursion bound of the model. -/
inductive EvalExc where
  | nameError
  | typeError
  | valueError
  | assertionError
  | matchErr
  | runtimeError
  | notImplemented
  | zeroDivision
  | attributeError
  | nativeCall
  | outOfFuel
  deriving DecidableEq, Repr

/-- A Python number: the result of `unpack_number`. -/
inductive PyNum where
  | i (n : Int)
  | f (bits : Nat)
  deriving DecidableEq, Repr

/-- `unpack_number`: an Int or Float value, else `TypeError`. -/
def unpackNumber : Object → Except EvalExc PyNum
  | .int n => .ok (.i n)
  | .float bits => .ok (.f bits)
  | _ => .error .typeError

/-- `wrap_inferred_number_type`: ints to `Int`, floats to `Float`. -/
def wrapNum : PyNum → Object
  | .i n => .int n
  | .f bits => .float bits

/-- Modelled from the spec: arithmetic on Int/Float follows the host's
IEEE-754 double semantics (CPython float operations, outside this
repository).  The result bit pattern of a float-producing operation is
abstracted to a fixed value; every theorem below depends only on the
constructor (Int vs Float) of the result, never on these bits. -/
def abstractFloatBits (op : BinopKind) (x y : PyNum) : Nat :=
  match op, x, y with
  | _, _, _ => 0

/-- Modelled from the spec: comparison of floats follows host IEEE-754
semantics; the outcome is abstracted (no claim concerns float
comparisons). -/
def abstractFloatCmp (op : BinopKind) (x y : PyNum) : Bool :=
  match op, x, y with
  | _, _, _ => false

/-- Is this bit pattern an IEEE-754 zero (`+0.0` or `-0.0`)?  CPython raises
`ZeroDivisionError` for `/`, `//` and `%` exactly when the divisor equals
zero, which on bit patterns means all bits but the sign are clear. -/
def isZeroBits (bits : Nat) : Bool :=
  bits % 2 ^ 64 == 0 || bits % 2 ^ 64 == 2 ^ 63

/-- Is this number Python-zero (for the divisor checks)? -/
def PyNum.isZero : PyNum → Bool
  | .i n => n == 0
  | .f bits => isZeroBits bits

/-- The arithmetic dispatch of the `BINOP_HANDLERS` lambdas for `+ - * / //
^ %` after both operands are unpacked: CPython's numeric tower.  Both ints
stay exact integer arithmetic (`//` is floor division, `%` floor modulus,
`**` with a negative exponent produces a float); any float operand produces a
float; `/` always produces a float; a zero divisor raises
`ZeroDivisionError`.  One documented abstraction: the `**` branch with a
float operand always yields a (bit-abstracted) float, whereas CPython raises
`ZeroDivisionError` for a zero base with a negative finite exponent and
returns a complex (which `wrap_inferred_number_type` then rejects) for a
negative base with a fractional exponent; no theorem below depends on the
float-`**` branch. -/
def pyArith (op : BinopKind) (x y : PyNum) : Except EvalExc PyNum :=
  match op with
  | .add =>
      match x, y with
      | .i a, .i b => .ok (.i (a + b))
      | _, _ => .ok (.f (abstractFloatBits .add x y))
  | .sub =>
      match x, y with
      | .i a, .i b => .ok (.i (a - b))
      | _, _ => .ok (.f (abstractFloatBits .sub x y))
  | .mul =>
      match x, y with
      | .i a, .i b => .ok (.i (a * b))
      | _, _ => .ok (.f (abstractFloatBits .mul x y))
  | .div =>
      if y.isZero then .error .zeroDivision
      else .ok (.f (abstractFloatBits .div x y))
  | .floorDiv =>
      if y.isZero then .error .zeroDivision
      else
        match x, y with
        | .i a, .i b => .ok (.i (Int.fdiv a b))
        | _, _ => .ok (.f (abstractFloatBits .floorDiv x y))
  | .mod =>
      if y.isZero then .error .zeroDivision
      else
        match x, y with
        | .i a, .i b => .ok (.i (Int.fmod a b))
        | _, _ => .ok (.f (abstractFloatBits .mod x y))
  | .exp =>
      match x, y with
      | .i a, .i b =>
          if 0 ≤ b then .ok (.i (a ^ b.toNat))
          else if a == 0 then .error .zeroDivision
          else .ok (.f (abstractFloatBits .exp x y))
      | _, _ => .ok (.f (abstractFloatBits .exp x y))
  | _ => .error .notImplemented

/-- The comparison dispatch for `< > <= >=`: exact on two ints, abstracted
when a float is involved (CPython compares the exact values). -/
def pyCompare (op : BinopKind) (x y : PyNum) : Bool :=
  match x, y with
  | .i a, .i b =>
      match op with
      | .less => a < b
      | .greater => b < a
      | .lessEqual => a ≤ b
      | .greaterEqual => b ≤ a
      | _ => false
  | _, _ => abstractFloatCmp op x y

mutual

/-- `free_in(exp)`: the set of names free in an expression.  Python `assert`
failures (a `Function` whose arg is not a `Var`, a `Where` whose binding is
not an `Assign`) and the trailing `NotImplementedError` (`Assert`,
`EnvObject`, and `MatchCase`-free kinds are all handled; `Assert` and
`EnvObject` are not) are errors. -/
def freeIn : Object → Except EvalExc (Finset String)
  | .int _ => .ok ∅
  | .float _ => .ok ∅
  | .string _ => .ok ∅
  | .bytes _ => .ok ∅
  | .hole => .ok ∅
  | .nativeFunction _ => .ok ∅
  | .variant _ v => freeIn v
  | .var n => .ok {n}
  | .spread (some n) => .ok {n}
  | .spread none => .ok ∅
  | .binop _ l r => do
      let fl ← freeIn l
      let fr ← freeIn r
      .ok (fl ∪ fr)
  | .list items => freeInItems items
  | .record data => freeInValues data
  | .function arg body =>
      match arg with
      | .var n => do
          let fb ← freeIn body
          .ok (fb \ {n})
      | _ => .error .assertionError
  | .matchFunction cases => freeInItems cases
  | .matchCase p b => do
      let fb ← freeIn b
      let fp ← freeIn p
      .ok (fb \ fp)
  | .apply f a => do
      let ff ← freeIn f
      let fa ← freeIn a
      .ok (ff ∪ fa)
  | .access o a => do
      let fo ← freeIn o
      let fa ← freeIn a
      .ok (fo ∪ fa)
  | .whereExp body binding =>
      match binding with
      | .assign n v => do
          let fb ← freeIn body
          let fv ← freeIn (.assign n v)
          .ok ((fb \ {n}) ∪ fv)
      | _ => .error .assertionError
  | .assign _ v => freeIn v
  | .closure _ f => freeIn f
  | .assertExp _ _ => .error .notImplemented
  | .envObject _ => .error .notImplemented

def freeInItems : List Object → Except EvalExc (Finset String)
  | [] => .ok ∅
  | it :: rest => do
      let fi ← freeIn it
      let fr ← freeInItems rest
      .ok (fi ∪ fr)

def freeInValues : List (String × Object) → Except EvalExc (Finset String)
  | [] => .ok ∅
  | (_, v) :: rest => do
      let fv ← freeIn v
      let fr ← freeInValues rest
      .ok (fv ∪ fr)

end

/-- `improve_closure(closure)`: keep only the environment entries whose keys
are free in the closure's function (closure minimization).  The dict
comprehension preserves insertion order, as `List.filter` does. -/
def improveClosure (cenv : EnvL) (func : Object) : Except EvalExc Object := do
  let freevars ← freeIn func
  .ok (.closure (cenv.filter (fun kv => decide (kv.1 ∈ freevars))) func)

mutual

/-- `eval_exp(env, exp)`: the tree-walking evaluator, with an explicit fuel
bound for the unbounded recursion through closure bodies.  One divergence
forced by the pure tree model: the letrec step of `Assign` mutates the
closure's own environment to hold the closure itself, a cyclic object; here
the self-binding holds one unfolding of that cycle (the closure as it was
before the mutation).  Applying a `NativeFunction` invokes a host callback
the tree model cannot hold; it is mapped to the distinguished error
`nativeCall` (no claim applies a native function). -/
def eval : Nat → EnvL → Object → Except EvalExc Object
  | 0, _, _ => .error .outOfFuel
  | fuel + 1, env, exp =>
      match exp with
      | .int _ => .ok exp
      | .float _ => .ok exp
      | .string _ => .ok exp
      | .bytes _ => .ok exp
      | .hole => .ok exp
      | .closure _ _ => .ok exp
      | .nativeFunction _ => .ok exp
      | .variant tag v => do
          let v' ← eval fuel env v
          .ok (.variant tag v')
      | .var name =>
          match dictGet env name with
          | none => .error .nameError
          | some value => .ok value
      | .binop op l r => evalBinop fuel env op l r
      | .list items => do
          let vs ← evalItems fuel env items
          .ok (.list vs)
      | .record data => do
          let vs ← evalEntries fuel env data
          .ok (.record vs)
      | .assign name value => do
          let v ← eval fuel env value
          match v with
          | .closure cenv f => do
              let v' ← improveClosure (dictInsert cenv name (.closure cenv f)) f
              .ok (.envObject (dictInsert env name v'))
          | _ => .ok (.envObject (dictInsert env name v))
      | .whereExp body binding =>
          match binding with
          | .assign n bv => do
              let res ← eval fuel env (.assign n bv)
              match res with
              | .envObject resEnv => eval fuel (dictUpdate env resEnv) body
              | _ => .error .assertionError
          | _ => .error .assertionError
      | .assertExp value cond => do
          let c ← eval fuel env cond
          if pyEqObj c TRUE then eval fuel env value
          else .error .assertionError
      | .function arg body =>
          match arg with
          | .var _ => improveClosure env (.function arg body)
          | _ => .error .runtimeError
      | .matchFunction cases => improveClosure env (.matchFunction cases)
      | .apply func arg =>
          if isQuote func then .ok arg
          else do
            let callee ← eval fuel env func
            let argv ← eval fuel env arg
            match callee with
            | .nativeFunction _ => .error .nativeCall
            | .closure cenv cfunc =>
                match cfunc with
                | .function (.var argname) body =>
                    eval fuel (dictInsert cenv argname argv) body
                | .function _ _ => .error .assertionError
                | .matchFunction cases => evalMatchCases fuel cenv cases argv
                | _ => .error .typeError
            | _ => .error .typeError
      | .access obj at_ => do
          let o ← eval fuel env obj
          match o with
          | .record data =>
              match at_ with
              | .var n =>
                  match dictGet data n with
                  | some v => .ok v
                  | none => .error .nameError
              | _ => .error .typeError
          | .list items => do
              let av ← eval fuel env at_
              match av with
              | .int i =>
                  if i < 0 ∨ items.length ≤ i then .error .valueError
                  else .ok (items.getD i.toNat .hole)
              | _ => .error .typeError
          | _ => .error .typeError
      | .spread _ => .error .runtimeError
      | .matchCase _ _ => .error .notImplemented
      | .envObject _ => .error .notImplemented
termination_by fuel _ _ => (fuel, 0, 0)

/-- The `BINOP_HANDLERS` dispatch.  `HASTYPE`, `PIPE` and `REVERSE_PIPE` have
no handler, so `eval_exp` raises `NotImplementedError` on them; `RIGHT_EVAL`'s
handler evaluates only its right operand. -/
def evalBinop (fuel : Nat) (env : EnvL) (op : BinopKind) (l r : Object) :
    Except EvalExc Object :=
  match op with
  | .add => evalArith fuel env .add l r
  | .sub => evalArith fuel env .sub l r
  | .mul => evalArith fuel env .mul l r
  | .div => evalArith fuel env .div l r
  | .floorDiv => evalArith fuel env .floorDiv l r
  | .exp => evalArith fuel env .exp l r
  | .mod => evalArith fuel env .mod l r
  | .equal => do
      let a ← eval fuel env l
      let b ← eval fuel env r
      .ok (makeBool (pyEqObj a b))
  | .notEqual => do
      let a ← eval fuel env l
      let b ← eval fuel env r
      .ok (makeBool (!pyEqObj a b))
  | .less => evalCompare fuel env .less l r
  | .greater => evalCompare fuel env .greater l r
  | .lessEqual => evalCompare fuel env .lessEqual l r
  | .greaterEqual => evalCompare fuel env .greaterEqual l r
  | .boolAnd => do
      let a ← evalBool fuel env l
      if a then do
        let b ← evalBool fuel env r
        .ok (makeBool b)
      else .ok (makeBool false)
  | .boolOr => do
      let a ← evalBool fuel env l
      if a then .ok (makeBool true)
      else do
        let b ← evalBool fuel env r
        .ok (makeBool b)
  | .stringConcat => do
      let a ← evalStr fuel env l
      let b ← evalStr fuel env r
      .ok (.string (a ++ b))
  | .listCons => do
      let a ← eval fuel env l
      let bs ← evalList fuel env r
      .ok (.list (a :: bs))
  | .listAppend => do
      let as_ ← evalList fuel env l
      let b ← eval fuel env r
      .ok (.list (as_ ++ [b]))
  | .rightEval => eval fuel env r
  | .hasType => .error .notImplemented
  | .pipe => .error .notImplemented
  | .reversePipe => .error .notImplemented
termination_by (fuel, 3, 0)

/-- `eval_number` on both operands followed by the numeric-tower
arithmetic. -/
def evalArith (fuel : Nat) (env : EnvL) (op : BinopKind) (l r : Object) :
    Except EvalExc Object := do
  let a ← evalNumber fuel env l
  let b ← evalNumber fuel env r
  match pyArith op a b with
  | .ok num => .ok (wrapNum num)
  | .error e => .error e
termination_by (fuel, 2, 0)

/-- `eval_number` on both operands followed by a comparison. -/
def evalCompare (fuel : Nat) (env : EnvL) (op : BinopKind) (l r : Object) :
    Except EvalExc Object := do
  let a ← evalNumber fuel env l
  let b ← evalNumber fuel env r
  .ok (makeBool (pyCompare op a b))
termination_by (fuel, 2, 0)

/-- `eval_number`: evaluate and `unpack_number` (TypeError unless Int or
Float). -/
def evalNumber (fuel : Nat) (env : EnvL) (exp : Object) :
    Except EvalExc PyNum := do
  let v ← eval fuel env exp
  unpackNumber v
termination_by (fuel, 1, 0)

/-- `eval_bool`: evaluate and require `#true ()` or `#false ()`. -/
def evalBool (fuel : Nat) (env : EnvL) (exp : Object) :
    Except EvalExc Bool := do
  let v ← eval fuel env exp
  match v with
  | .variant tag _ =>
      if tag = "true" then .ok true
      else if tag = "false" then .ok false
      else .error .typeError
  | _ => .error .typeError
termination_by (fuel, 1, 0)

/-- `eval_str`: evaluate and require a String. -/
def evalStr (fuel : Nat) (env : EnvL) (exp : Object) :
    Except EvalExc String := do
  let v ← eval fuel env exp
  match v with
  | .string s => .ok s
  | _ => .error .typeError
termination_by (fuel, 1, 0)

/-- `eval_list`: evaluate and require a List. -/
def evalList (fuel : Nat) (env : EnvL) (exp : Object) :
    Except EvalExc (List Object) := do
  let v ← eval fuel env exp
  match v with
  | .list items => .ok items
  | _ => .error .typeError
termination_by (fuel, 1, 0)

/-- Evaluate list elements in order. -/
def evalItems (fuel : Nat) (env : EnvL) : List Object →
    Except EvalExc (List Object)
  | [] => .ok []
  | it :: rest => do
      let v ← eval fuel env it
      let vs ← evalItems fuel env rest
      .ok (v :: vs)
termination_by items => (fuel, 1, sizeOf items)

/-- Evaluate record entries in insertion order. -/
def evalEntries (fuel : Nat) (env : EnvL) : List (String × Object) →
    Except EvalExc (List (String × Object))
  | [] => .ok []
  | (k, v) :: rest => do
      let v' ← eval fuel env v
      let vs ← evalEntries fuel env rest
      .ok ((k, v') :: vs)
termination_by data => (fuel, 1, sizeOf data)

/-- Try the cases of a `MatchFunction` in order; the first match's bindings
extend the closure environment for its body; exhaustion is `MatchError`.
`MatchFunction.cases` holds `MatchCase` nodes by construction; any other node
would make Python fail attribute lookup. -/
def evalMatchCases (fuel : Nat) (cenv : EnvL) (cases : List Object)
    (argv : Object) : Except EvalExc Object :=
  match cases with
  | [] => .error .matchErr
  | c :: rest =>
      match c with
      | .matchCase pattern body =>
          match matchPat argv pattern with
          | .error .matchError => .error .matchErr
          | .error .notImplemented => .error .notImplemented
          | .ok none => evalMatchCases fuel cenv rest argv
          | .ok (some m) => eval fuel (dictUpdate cenv m) body
      | _ => .error .attributeError
termination_by (fuel, 1, sizeOf cases)

end

/-- One step of `eval` on a `Function`: a `Var` argument builds a minimized
closure, anything else is a `RuntimeError`. -/
theorem eval_function_step (fuel : Nat) (env : EnvL) (arg body : Object) :
    eval (fuel + 1) env (.function arg body) =
      (match arg with
      | .var _ => improveClosure env (.function arg body)
      | _ => .error .runtimeError) := by
  rw [eval.eq_def]

/-- One step of `eval` on a `MatchFunction`: a minimized closure. -/
theorem eval_matchFunction_step (fuel : Nat) (env : EnvL)
    (cases : List Object) :
    eval (fuel + 1) env (.matchFunction cases) =
      improveClosure env (.matchFunction cases) := by
  rw [eval.eq_def]

/-- One step of `eval` on an `Assign`. -/
theorem eval_assign_step (fuel : Nat) (env : EnvL) (name : String)
    (value : Object) :
    eval (fuel + 1) env (.assign name value) =
      (do
        let v ← eval fuel env value
        match v with
        | .closure cenv f => do
            let v' ← improveClosure (dictInsert cenv name (.closure cenv f)) f
            .ok (.envObject (dictInsert env name v'))
        | _ => .ok (.envObject (dictInsert env name v))) := by
  rw [eval.eq_def]

/-- One step of `eval` on an `Access`. -/
theorem eval_access_step (fuel : Nat) (env : EnvL) (obj at_ : Object) :
    eval (fuel + 1) env (.access obj at_) =
      (do
        let o ← eval fuel env obj
        match o with
        | .record data =>
            match at_ with
            | .var n =>
                match dictGet data n with
                | some v => .ok v
                | none => .error .nameError
            | _ => .error .typeError
        | .list items => do
            let av ← eval fuel env at_
            match av with
            | .int i =>
                if i < 0 ∨ items.length ≤ i then .error .valueError
                else .ok (items.getD i.toNat .hole)
            | _ => .error .typeError
        | _ => .error .typeError) := by
  rw [eval.eq_def]

/-- C10: a list access evaluates the index, requires an `Int`, raises
`ValueError` exactly when the index is negative or at least the length
(negative indexes are never end-relative), and otherwise returns the element
at that offset. -/
theorem list_access_bounds_c10 (fuel : Nat) (env : EnvL) (obj at_ : Object)
    (items : List Object) (i : Int)
    (hobj : eval fuel env obj = .ok (.list items))
    (hat : eval fuel env at_ = .ok (.int i)) :
    ((i < 0 ∨ (items.length : Int) ≤ i) →
      eval (fuel + 1) env (.access obj at_) = .error .valueError) ∧
    (∀ h2 : i.toNat < items.length, 0 ≤ i →
      eval (fuel + 1) env (.access obj at_) = .ok (items.get ⟨i.toNat, h2⟩)) := by
  rw [eval_access_step, hobj]
  show ((i < 0 ∨ (items.length : Int) ≤ i) →
      (do
        let av ← eval fuel env at_
        match av with
        | .int i =>
            if i < 0 ∨ items.length ≤ i then .error .valueError
            else .ok (items.getD i.toNat .hole)
        | _ => .error .typeError) = .error .valueError) ∧ _
  rw [hat]
  constructor
  · intro hbad
    show (if i < 0 ∨ (items.length : Int) ≤ i then Except.error EvalExc.valueError
      else .ok (items.getD i.toNat .hole)) = .error .valueError
    rw [if_pos hbad]
  · intro h2 h1
    show (if i < 0 ∨ (items.length : Int) ≤ i then Except.error EvalExc.valueError
      else .ok (items.getD i.toNat .hole)) = .ok (items.get ⟨i.toNat, h2⟩)
    have hnot : ¬ (i < 0 ∨ (items.length : Int) ≤ i) := by
      push_neg
      refine ⟨by omega, ?_⟩
      have := h2
      omega
    rw [if_neg hnot]
    rw [List.getD_eq_getElem items .hole h2]
    rw [List.get_eq_getElem]

theorem list_access_bounds_c10_witness :
    eval 3 [] (.access (.list [.int 7, .int 8]) (.int (-1))) =
        .error .valueError ∧
      eval 3 [] (.access (.list [.int 7, .int 8]) (.int 1)) = .ok (.int 8) := by
  constructor
  · exact (list_access_bounds_c10 2 [] (.list [.int 7, .int 8]) (.int (-1))
      [.int 7, .int 8] (-1) (by simp [eval, evalItems, bind, Except.bind])
      (by simp [eval])).1 (Or.inl (by decide))
  · exact (list_access_bounds_c10 2 [] (.list [.int 7, .int 8]) (.int 1)
      [.int 7, .int 8] 1 (by simp [eval, evalItems, bind, Except.bind])
      (by simp [eval])).2 (by decide) (by decide)

/-- C6: evaluating a `Function` (with `Var` argument, as the evaluator
requires) or a `MatchFunction` in `rho` yields a `Closure` over exactly the
restriction of `rho` to the names free in the function. -/
theorem closure_minimization_c6 (fuel : Nat) (env : EnvL) :
    (∀ (argname : String) (body : Object) (fv : Finset String),
      freeIn (.function (.var argname) body) = .ok fv →
      eval (fuel + 1) env (.function (.var argname) body) =
        .ok (.closure (env.filter (fun kv => decide (kv.1 ∈ fv)))
          (.function (.var argname) body))) ∧
    (∀ (cases : List Object) (fv : Finset String),
      freeIn (.matchFunction cases) = .ok fv →
      eval (fuel + 1) env (.matchFunction cases) =
        .ok (.closure (env.filter (fun kv => decide (kv.1 ∈ fv)))
          (.matchFunction cases))) := by
  constructor
  · intro argname body fv hfv
    rw [eval_function_step]
    show improveClosure env (.function (.var argname) body) = _
    rw [improveClosure, hfv]
    rfl
  · intro cases fv hfv
    rw [eval_matchFunction_step, improveClosure, hfv]
    rfl

theorem closure_minimization_c6_witness :
    eval 1 [("y", .int 9), ("z", .int 7)] (.function (.var "x") (.var "y")) =
      .ok (.closure [("y", .int 9)] (.function (.var "x") (.var "y"))) := by
  have h := (closure_minimization_c6 0
    [("y", .int 9), ("z", .int 7)]).1 "x" (.var "y") {"y"}
    (by simp [freeIn, bind, Except.bind])
  rw [h]
  simp [List.filter]

/-- C4 (corrected): the `Assign` rule returns an `EnvObject` carrying the
*whole ambient environment extended* with the new binding (`{**env, name:
value}`), not the single binding alone; as stated the claim is false. -/
theorem assign_single_binding_false_c4 :
    eval 2 [("a", .int 1)] (.assign "b" (.int 2)) =
        .ok (.envObject [("a", .int 1), ("b", .int 2)]) ∧
      Object.envObject [("a", .int 1), ("b", .int 2)] ≠
        .envObject [("b", .int 2)] := by
  constructor
  · simp [eval, dictInsert, bind, Except.bind]
  · simp

/-- C4 (amended): evaluating `Assign(Var name, e)` in `rho` evaluates `e` to
`v`, and returns `EnvObject({**rho, name → v})`; when `v` is a `Closure` the
self-binding is installed in its environment and the closure re-minimized
first (in this tree model the installed self-reference is one unfolding of
the cyclic object Python creates).  The ambient environment is passed by
value and never mutated — in the model `rho` is immutable by construction. -/
theorem assign_extends_env_c4 (fuel : Nat) (env : EnvL) (name : String)
    (e v : Object) (hv : eval fuel env e = .ok v) :
    ((∀ cenv f, v ≠ .closure cenv f) →
      eval (fuel + 1) env (.assign name e) =
        .ok (.envObject (dictInsert env name v))) ∧
    (∀ cenv f, v = .closure cenv f →
      ∀ v', improveClosure (dictInsert cenv name (.closure cenv f)) f = .ok v' →
        eval (fuel + 1) env (.assign name e) =
          .ok (.envObject (dictInsert env name v'))) := by
  rw [eval_assign_step, hv]
  constructor
  · intro hnc
    cases v with
    | closure cenv f => exact absurd rfl (hnc cenv f)
    | _ => rfl
  · rintro cenv f rfl v' hv'
    show (do
      let v' ← improveClosure (dictInsert cenv name (.closure cenv f)) f
      Except.ok (Object.envObject (dictInsert env name v'))) = _
    rw [hv']
    rfl

theorem assign_extends_env_c4_witness :
    eval 2 [("a", .int 1)] (.assign "b" (.int 2)) =
      .ok (.envObject [("a", .int 1), ("b", .int 2)]) := by
  have h := (assign_extends_env_c4 1 [("a", .int 1)] "b" (.int 2) (.int 2)
    (by simp [eval])).1 (fun cenv f h => by cases h)
  rw [h]
  rfl

/-- C5 (code bug): `BinopKind.to_str` has no entry for `FLOOR_DIV`, so
`to_str(FLOOR_DIV)` raises `KeyError` even though `from_str("//")` yields
`FLOOR_DIV` and the spec calls the enumeration closed with both mappings.
Every other kind and operator string round-trips. -/
theorem binop_to_str_floor_div_missing_c5 :
    toStr .floorDiv = none ∧ fromStr "//" = some .floorDiv ∧
    (∀ k : BinopKind, k ≠ .floorDiv →
      ∃ s, toStr k = some s ∧ fromStr s = some k) ∧
    (∀ s ∈ opStrings, s ≠ "//" → (fromStr s).bind toStr = some s) := by
  refine ⟨rfl, by decide, ?_, by decide⟩
  intro k hk
  cases k <;> first
    | exact absurd rfl hk
    | exact ⟨_, rfl, by decide⟩

theorem binop_to_str_floor_div_missing_c5_witness :
    (∃ s, toStr .add = some s ∧ fromStr s = some .add) ∧
      (fromStr "+").bind toStr = some "+" :=
  ⟨binop_to_str_floor_div_missing_c5.2.2.1 .add (by decide),
   binop_to_str_floor_div_missing_c5.2.2.2 "+" (by decide) (by decide)⟩

/-! ## Serializer / deserializer (§4.7)

Byte streams are `List Nat` with every element below 256.  Bit operations of
the source (`number & 0x7F`, `number >>= 7`, …) are written with `%` and `/`,
equal on the nonnegative integers involved. -/

/-- `zigzag_encode`. -/
def zigzagEncode (v : Int) : Nat :=
  if v < 0 then (-2 * v - 1).toNat else (2 * v).toNat

/-- `zigzag_decode`.  `-val // 2` is CPython floor division; on an odd
nonnegative `val` it equals `-((val + 1) / 2)` in natural division, and
`val // 2` equals `val / 2`. -/
def zigzagDecode (val : Nat) : Int :=
  if val % 2 = 1 then -(((val + 1) / 2 : Nat) : Int) else ((val / 2 : Nat) : Int)

theorem zigzag_roundtrip (v : Int) : zigzagDecode (zigzagEncode v) = v := by
  unfold zigzagEncode zigzagDecode
  by_cases hv : v < 0
  · rw [if_pos hv, if_pos (by omega)]
    omega
  · rw [if_neg hv, if_neg (by omega)]
    omega

/-- The varint loop of `Serializer._short` (7-bit groups, little endian,
high bit as continuation). -/
def encodeVarint (n : Nat) : List Nat :=
  if h : n / 128 = 0 then [n % 128]
  else (n % 128 + 128) :: encodeVarint (n / 128)
termination_by n
decreasing_by exact Nat.div_lt_self (by omega) (by omega)

/-- The varint loop of `Deserializer._short`. -/
def readVarint : List Nat → Except Unit (Nat × List Nat)
  | [] => .error ()
  | b :: rest =>
      if 128 ≤ b then
        match readVarint rest with
        | .error e => .error e
        | .ok (v, rest') => .ok (b % 128 + 128 * v, rest')
      else .ok (b % 128, rest)

theorem readVarint_encode (n : Nat) : ∀ (rest : List Nat),
    readVarint (encodeVarint n ++ rest) = .ok (n, rest) := by
  induction n using Nat.strong_induction_on with
  | _ n ih =>
      intro rest
      rw [encodeVarint]
      by_cases h : n / 128 = 0
      · rw [dif_pos h]
        show readVarint (n % 128 :: rest) = _
        simp only [readVarint]
        rw [if_neg (by omega)]
        have he : n % 128 % 128 = n := by omega
        rw [he]
      · rw [dif_neg h]
        show readVarint ((n % 128 + 128) :: (encodeVarint (n / 128) ++ rest)) = _
        simp only [readVarint]
        rw [if_pos (by omega), ih (n / 128) (Nat.div_lt_self (by omega) (by omega)) rest]
        show Except.ok ((n % 128 + 128) % 128 + 128 * (n / 128), rest) = _
        have he : (n % 128 + 128) % 128 + 128 * (n / 128) = n := by omega
        rw [he]

/-- `Serializer._short`: varint of the zigzag encoding. -/
def serShort (v : Int) : List Nat := encodeVarint (zigzagEncode v)

/-- `Deserializer._short`. -/
def deShort (input : List Nat) : Except Unit (Int × List Nat) :=
  match readVarint input with
  | .error e => .error e
  | .ok (v, rest) => .ok (zigzagDecode v, rest)

theorem deShort_serShort (v : Int) (rest : List Nat) :
    deShort (serShort v ++ rest) = .ok (v, rest) := by
  unfold serShort deShort
  rw [readVarint_encode]
  show Except.ok (zigzagDecode (zigzagEncode v), rest) = _
  rw [zigzag_roundtrip]

/-- `int.to_bytes(width, "little")`. -/
def leBytes : Nat → Nat → List Nat
  | 0, _ => []
  | w + 1, n => n % 256 :: leBytes w (n / 256)

/-- `int.from_bytes(self.read(width), "little")`: value of the first `width`
bytes (shorter input yields the value of what is there, as a short slice
does in Python), and the remaining stream. -/
def readLE (width : Nat) (input : List Nat) : Nat × List Nat :=
  ((input.take width).foldr (fun b acc => acc * 256 + b) 0, input.drop width)

theorem readLE_leBytes (width n : Nat) (hn : n < 256 ^ width)
    (rest : List Nat) : readLE width (leBytes width n ++ rest) = (n, rest) := by
  induction width generalizing n rest with
  | zero =>
      have : n = 0 := by simpa using hn
      subst this
      rfl
  | succ w ih =>
      show readLE (w + 1) (n % 256 :: (leBytes w (n / 256) ++ rest)) = _
      have hlt : n / 256 < 256 ^ w := by
        rw [Nat.div_lt_iff_lt_mul (by omega)]
        calc n < 256 ^ (w + 1) := hn
        _ = 256 ^ w * 256 := by ring
      have h := ih (n / 256) hlt rest
      unfold readLE at h ⊢
      simp only [List.take_succ_cons, List.drop_succ_cons, List.foldr_cons]
      have htake : ((leBytes w (n / 256) ++ rest).take w).foldr
          (fun b acc => acc * 256 + b) 0 = n / 256 := congrArg Prod.fst h
      have hdrop : (leBytes w (n / 256) ++ rest).drop w = rest :=
        congrArg Prod.snd h
      rw [htake, hdrop]
      have he : n / 256 * 256 + n % 256 = n := by omega
      rw [he]

/-- The digit loop of `Serializer._long`: base-`2^64` digits, least
significant first. -/
def longDigits (n : Nat) : List Nat :=
  if h : n = 0 then []
  else n % 2 ^ 64 :: longDigits (n / 2 ^ 64)
termination_by n
decreasing_by exact Nat.div_lt_self (by omega) (by norm_num)

/-- `Serializer._long`: varint digit count, then 8 little-endian bytes per
digit. -/
def serLong (v : Int) : List Nat :=
  serShort ((longDigits (zigzagEncode v)).length : Int) ++
    (longDigits (zigzagEncode v)).flatMap (leBytes 8)

/-- The digit-reading loop of `Deserializer._long`. -/
def readDigits : Nat → List Nat → List Nat × List Nat
  | 0, input => ([], input)
  | k + 1, input =>
      match readLE 8 input with
      | (d, rest) =>
          match readDigits k rest with
          | (ds, rest2) => (d :: ds, rest2)

/-- `Deserializer._long`: read the digit count (a negative count reads
nothing, as `range` does), reassemble most-significant digit first, zigzag
decode. -/
def deLong (input : List Nat) : Except Unit (Int × List Nat) :=
  match deShort input with
  | .error e => .error e
  | .ok (count, rest) =>
      match readDigits count.toNat rest with
      | (ds, rest2) =>
          .ok (zigzagDecode (ds.reverse.foldl (fun acc d => acc * 2 ^ 64 + d) 0),
            rest2)

theorem readDigits_append (ds : List Nat) (hds : ∀ d ∈ ds, d < 2 ^ 64)
    (rest : List Nat) :
    readDigits ds.length (ds.flatMap (leBytes 8) ++ rest) = (ds, rest) := by
  induction ds generalizing rest with
  | nil => rfl
  | cons d dtl ih =>
      have hd : d < 256 ^ 8 := by
        have := hds d (List.mem_cons_self _ _)
        norm_num at this ⊢
        omega
      have h1 : readLE 8 (leBytes 8 d ++ (dtl.flatMap (leBytes 8) ++ rest)) =
          (d, dtl.flatMap (leBytes 8) ++ rest) := readLE_leBytes 8 d hd _
      show readDigits (dtl.length + 1)
        (leBytes 8 d ++ (dtl.flatMap (leBytes 8) ++ rest)) = _
      simp only [readDigits, h1]
      rw [ih (fun x hx => hds x (List.mem_cons_of_mem _ hx)) rest]

theorem longDigits_lt (n : Nat) : ∀ d ∈ longDigits n, d < 2 ^ 64 := by
  induction n using Nat.strong_induction_on with
  | _ n ih =>
      intro d hd
      rw [longDigits] at hd
      by_cases h : n = 0
      · rw [dif_pos h] at hd; cases hd
      · rw [dif_neg h] at hd
        rcases List.mem_cons.mp hd with rfl | hmem
        · exact Nat.mod_lt _ (by positivity)
        · exact ih (n / 2 ^ 64) (Nat.div_lt_self (by omega) (by norm_num)) d hmem

theorem longDigits_foldl_acc (n : Nat) : ∀ (acc : Nat),
    (longDigits n).reverse.foldl (fun acc d => acc * 2 ^ 64 + d) acc =
      acc * (2 ^ 64) ^ (longDigits n).length + n := by
  induction n using Nat.strong_induction_on with
  | _ n ih =>
      intro acc
      rw [longDigits]
      by_cases h : n = 0
      · rw [dif_pos h]
        subst h
        simp
      · rw [dif_neg h]
        simp only [List.reverse_cons, List.foldl_append, List.foldl_cons,
          List.foldl_nil, List.length_cons]
        rw [ih (n / 2 ^ 64) (Nat.div_lt_self (by omega) (by norm_num)) acc]
        have hmod : n / 2 ^ 64 * 2 ^ 64 + n % 2 ^ 64 = n := by
          have := Nat.div_add_mod n (2 ^ 64)
          omega
        have hpow : ((2 : Nat) ^ 64) ^ ((longDigits (n / 2 ^ 64)).length + 1) =
            ((2 : Nat) ^ 64) ^ (longDigits (n / 2 ^ 64)).length * 2 ^ 64 := pow_succ _ _
        rw [hpow]
        ring_nf
        ring_nf at hmod
        omega

theorem deLong_serLong (v : Int) (rest : List Nat) :
    deLong (serLong v ++ rest) = .ok (v, rest) := by
  unfold serLong deLong
  rw [List.append_assoc, deShort_serShort]
  show (match readDigits ((longDigits (zigzagEncode v)).length : Int).toNat
      ((longDigits (zigzagEncode v)).flatMap (leBytes 8) ++ rest) with
    | (ds, rest2) =>
        Except.ok
          (zigzagDecode (ds.reverse.foldl (fun acc d => acc * 2 ^ 64 + d) 0),
            rest2)) = _
  have htn : ((longDigits (zigzagEncode v)).length : Int).toNat =
      (longDigits (zigzagEncode v)).length := by omega
  rw [htn, readDigits_append _ (longDigits_lt _) rest]
  show Except.ok (zigzagDecode ((longDigits (zigzagEncode v)).reverse.foldl
    (fun acc d => acc * 2 ^ 64 + d) 0), rest) = _
  have hf := longDigits_foldl_acc (zigzagEncode v) 0
  rw [hf]
  show Except.ok (zigzagDecode (0 * (2 ^ 64) ^ (longDigits (zigzagEncode v)).length
    + zigzagEncode v), rest) = _
  rw [Nat.zero_mul, Nat.zero_add, zigzag_roundtrip]

/-- UTF-8 encoding of one Unicode scalar value (`str.encode("utf-8")`,
one codepoint). -/
def utf8Char (n : Nat) : List Nat :=
  if n < 0x80 then [n]
  else if n < 0x800 then [0xC0 + n / 64, 0x80 + n % 64]
  else if n < 0x10000 then
    [0xE0 + n / 4096, 0x80 + n / 64 % 64, 0x80 + n % 64]
  else
    [0xF0 + n / 262144, 0x80 + n / 4096 % 64, 0x80 + n / 64 % 64,
      0x80 + n % 64]

/-- `str.encode("utf-8")` over the string's scalar values. -/
def utf8Encode (s : List Char) : List Nat := s.flatMap (fun c => utf8Char c.toNat)

/-- Decoding of one UTF-8-encoded scalar value from leading byte `b` and the
remaining stream: the scalar and the unconsumed bytes.  Strict, as CPython's
`str(bytes, "utf-8")`: bad leading or continuation bytes, overlong forms,
surrogates and values past `0x10FFFF` are rejected. -/
def decodeOneUtf8 (b : Nat) (rest : List Nat) : Option (Char × List Nat) :=
  if b < 0x80 then some (Char.ofNat b, rest)
  else if 0xC2 ≤ b ∧ b < 0xE0 then
    match rest with
    | b2 :: rest2 =>
        if 0x80 ≤ b2 ∧ b2 < 0xC0 then
          some (Char.ofNat ((b - 0xC0) * 64 + (b2 - 0x80)), rest2)
        else none
    | [] => none
  else if 0xE0 ≤ b ∧ b < 0xF0 then
    match rest with
    | b2 :: b3 :: rest3 =>
        if (0x80 ≤ b2 ∧ b2 < 0xC0) ∧ (0x80 ≤ b3 ∧ b3 < 0xC0) then
          if 0x800 ≤ (b - 0xE0) * 4096 + (b2 - 0x80) * 64 + (b3 - 0x80) ∧
              ((b - 0xE0) * 4096 + (b2 - 0x80) * 64 + (b3 - 0x80) < 0xD800 ∨
                0xDFFF < (b - 0xE0) * 4096 + (b2 - 0x80) * 64 + (b3 - 0x80)) then
            some (Char.ofNat
              ((b - 0xE0) * 4096 + (b2 - 0x80) * 64 + (b3 - 0x80)), rest3)
          else none
        else none
    | _ => none
  else if 0xF0 ≤ b ∧ b ≤ 0xF4 then
    match rest with
    | b2 :: b3 :: b4 :: rest4 =>
        if (0x80 ≤ b2 ∧ b2 < 0xC0) ∧ (0x80 ≤ b3 ∧ b3 < 0xC0) ∧
            (0x80 ≤ b4 ∧ b4 < 0xC0) then
          if 0x10000 ≤ (b - 0xF0) * 262144 + (b2 - 0x80) * 4096 +
                (b3 - 0x80) * 64 + (b4 - 0x80) ∧
              (b - 0xF0) * 262144 + (b2 - 0x80) * 4096 +
                (b3 - 0x80) * 64 + (b4 - 0x80) < 0x110000 then
            some (Char.ofNat ((b - 0xF0) * 262144 + (b2 - 0x80) * 4096 +
              (b3 - 0x80) * 64 + (b4 - 0x80)), rest4)
          else none
        else none
    | _ => none
  else none

/-- The decode loop, with the input length as explicit fuel; one scalar is
consumed per step, so fuel at least the input length never runs out (the
`0, _ :: _` arm is unreachable then). -/
def utf8DecodeF : Nat → List Nat → Option (List Char)
  | _, [] => some []
  | 0, _ :: _ => none
  | fuel + 1, b :: rest =>
      match decodeOneUtf8 b rest with
      | none => none
      | some (c, rest2) =>
          match utf8DecodeF fuel rest2 with
          | some cs => some (c :: cs)
          | none => none

/-- `str(bytes, "utf-8")`: decode scalar by scalar. -/
def utf8Decode (input : List Nat) : Option (List Char) :=
  utf8DecodeF input.length input

theorem utf8Char_ne_nil (n : Nat) : utf8Char n ≠ [] := by
  unfold utf8Char
  split_ifs <;> simp

/-- Decoding the encoding of one valid scalar consumes exactly its bytes. -/
theorem decodeOneUtf8_encode (c : Char) (rest : List Nat) :
    ∃ b tail, utf8Char c.toNat ++ rest = b :: tail ∧
      decodeOneUtf8 b tail = some (c, rest) := by
  have hval : c.toNat < 0xD800 ∨ (0xDFFF < c.toNat ∧ c.toNat < 0x110000) := by
    have h := c.valid
    unfold UInt32.isValidChar Nat.isValidChar at h
    rcases h with h | ⟨h1, h2⟩
    · left; exact_mod_cast h
    · right; constructor <;> exact_mod_cast by assumption
  by_cases h1 : c.toNat < 0x80
  · refine ⟨c.toNat, rest, by rw [utf8Char, if_pos h1]; rfl, ?_⟩
    unfold decodeOneUtf8
    rw [if_pos h1, Char.ofNat_toNat]
  · by_cases h2 : c.toNat < 0x800
    · refine ⟨0xC0 + c.toNat / 64, (0x80 + c.toNat % 64) :: rest,
        by rw [utf8Char, if_neg h1, if_pos h2]; rfl, ?_⟩
      unfold decodeOneUtf8
      rw [if_neg (by omega), if_pos (by constructor <;> omega)]
      show (if 0x80 ≤ 0x80 + c.toNat % 64 ∧ 0x80 + c.toNat % 64 < 0xC0 then
        some (Char.ofNat ((0xC0 + c.toNat / 64 - 0xC0) * 64 +
          (0x80 + c.toNat % 64 - 0x80)), rest) else none) = _
      rw [if_pos (by constructor <;> omega)]
      have he : (0xC0 + c.toNat / 64 - 0xC0) * 64 +
          (0x80 + c.toNat % 64 - 0x80) = c.toNat := by omega
      rw [he, Char.ofNat_toNat]
    · by_cases h3 : c.toNat < 0x10000
      · refine ⟨0xE0 + c.toNat / 4096,
          (0x80 + c.toNat / 64 % 64) :: (0x80 + c.toNat % 64) :: rest,
          by rw [utf8Char, if_neg h1, if_neg h2, if_pos h3]; rfl, ?_⟩
        unfold decodeOneUtf8
        rw [if_neg (by omega), if_neg (by omega), if_pos (by constructor <;> omega)]
        show (if (0x80 ≤ 0x80 + c.toNat / 64 % 64 ∧ 0x80 + c.toNat / 64 % 64 < 0xC0) ∧
            (0x80 ≤ 0x80 + c.toNat % 64 ∧ 0x80 + c.toNat % 64 < 0xC0) then
          if 0x800 ≤ (0xE0 + c.toNat / 4096 - 0xE0) * 4096 +
              (0x80 + c.toNat / 64 % 64 - 0x80) * 64 + (0x80 + c.toNat % 64 - 0x80) ∧
            ((0xE0 + c.toNat / 4096 - 0xE0) * 4096 +
              (0x80 + c.toNat / 64 % 64 - 0x80) * 64 + (0x80 + c.toNat % 64 - 0x80) < 0xD800 ∨
              0xDFFF < (0xE0 + c.toNat / 4096 - 0xE0) * 4096 +
                (0x80 + c.toNat / 64 % 64 - 0x80) * 64 + (0x80 + c.toNat % 64 - 0x80)) then
            some (Char.ofNat ((0xE0 + c.toNat / 4096 - 0xE0) * 4096 +
              (0x80 + c.toNat / 64 % 64 - 0x80) * 64 + (0x80 + c.toNat % 64 - 0x80)), rest)
          else none
        else none) = _
        have he : (0xE0 + c.toNat / 4096 - 0xE0) * 4096 +
            (0x80 + c.toNat / 64 % 64 - 0x80) * 64 +
            (0x80 + c.toNat % 64 - 0x80) = c.toNat := by omega
        rw [if_pos (by refine ⟨⟨?_, ?_⟩, ?_, ?_⟩ <;> omega),
          if_pos (by rw [he]; omega), he, Char.ofNat_toNat]
      · refine ⟨0xF0 + c.toNat / 262144,
          (0x80 + c.toNat / 4096 % 64) :: (0x80 + c.toNat / 64 % 64) ::
            (0x80 + c.toNat % 64) :: rest,
          by rw [utf8Char, if_neg h1, if_neg h2, if_neg h3]; rfl, ?_⟩
        unfold decodeOneUtf8
        have hup : c.toNat < 0x110000 := by omega
        rw [if_neg (by omega), if_neg (by omega), if_neg (by omega),
          if_pos (by constructor <;> omega)]
        show (if (0x80 ≤ 0x80 + c.toNat / 4096 % 64 ∧ 0x80 + c.toNat / 4096 % 64 < 0xC0) ∧
            (0x80 ≤ 0x80 + c.toNat / 64 % 64 ∧ 0x80 + c.toNat / 64 % 64 < 0xC0) ∧
            (0x80 ≤ 0x80 + c.toNat % 64 ∧ 0x80 + c.toNat % 64 < 0xC0) then
          if 0x10000 ≤ (0xF0 + c.toNat / 262144 - 0xF0) * 262144 +
                (0x80 + c.toNat / 4096 % 64 - 0x80) * 4096 +
                (0x80 + c.toNat / 64 % 64 - 0x80) * 64 + (0x80 + c.toNat % 64 - 0x80) ∧
              (0xF0 + c.toNat / 262144 - 0xF0) * 262144 +
                (0x80 + c.toNat / 4096 % 64 - 0x80) * 4096 +
                (0x80 + c.toNat / 64 % 64 - 0x80) * 64 + (0x80 + c.toNat % 64 - 0x80) < 0x110000 then
            some (Char.ofNat ((0xF0 + c.toNat / 262144 - 0xF0) * 262144 +
              (0x80 + c.toNat / 4096 % 64 - 0x80) * 4096 +
              (0x80 + c.toNat / 64 % 64 - 0x80) * 64 + (0x80 + c.toNat % 64 - 0x80)), rest)
          else none
        else none) = _
        have he : (0xF0 + c.toNat / 262144 - 0xF0) * 262144 +
            (0x80 + c.toNat / 4096 % 64 - 0x80) * 4096 +
            (0x80 + c.toNat / 64 % 64 - 0x80) * 64 +
            (0x80 + c.toNat % 64 - 0x80) = c.toNat := by omega
        rw [if_pos (by refine ⟨⟨?_, ?_⟩, ⟨?_, ?_⟩, ?_, ?_⟩ <;> omega),
          if_pos (by rw [he]; omega), he, Char.ofNat_toNat]

theorem utf8DecodeF_encode : ∀ (s : List Char) (fuel : Nat),
    (utf8Encode s).length ≤ fuel → utf8DecodeF fuel (utf8Encode s) = some s := by
  intro s
  induction s with
  | nil => intro fuel _; cases fuel <;> rfl
  | cons c cs ih =>
      intro fuel hfuel
      obtain ⟨b, tail, heq, hdec⟩ := decodeOneUtf8_encode c (utf8Encode cs)
      have hlen : (utf8Encode (c :: cs)).length =
          (utf8Char c.toNat).length + (utf8Encode cs).length := by
        show (utf8Char c.toNat ++ utf8Encode cs).length = _
        simp
      have hpos : 1 ≤ (utf8Char c.toNat).length := by
        cases hc : utf8Char c.toNat with
        | nil => exact absurd hc (utf8Char_ne_nil _)
        | cons x xs => simp
      cases fuel with
      | zero =>
          exfalso
          have : 1 ≤ (utf8Encode (c :: cs)).length := by omega
          omega
      | succ f =>
          show utf8DecodeF (f + 1) (utf8Char c.toNat ++ utf8Encode cs) = _
          rw [heq]
          show (match decodeOneUtf8 b tail with
            | none => none
            | some (c, rest2) =>
                match utf8DecodeF f rest2 with
                | some cs => some (c :: cs)
                | none => none) = _
          rw [hdec]
          show (match utf8DecodeF f (utf8Encode cs) with
            | some cs2 => some (c :: cs2)
            | none => none) = _
          have htl : (utf8Encode cs).length ≤ f := by
            have := hlen
            have h2 : (utf8Encode (c :: cs)).length ≤ f + 1 := hfuel
            omega
          rw [ih f htl]

theorem utf8_roundtrip (s : List Char) : utf8Decode (utf8Encode s) = some s :=
  utf8DecodeF_encode s (utf8Encode s).length (Nat.le_refl _)

/-- `Serializer._string`: varint byte length, then the UTF-8 bytes. -/
def serString (s : String) : List Nat :=
  serShort ((utf8Encode s.data).length : Int) ++ utf8Encode s.data

/-- `Deserializer._string`: read the length, take that many bytes, decode
(a `UnicodeDecodeError` is `none`). -/
def deString (input : List Nat) : Except Unit (String × List Nat) :=
  match deShort input with
  | .error e => .error e
  | .ok (len, rest) =>
      match utf8Decode (rest.take len.toNat) with
      | some cs => .ok (String.mk cs, rest.drop len.toNat)
      | none => .error ()

theorem deString_serString (s : String) (rest : List Nat) :
    deString (serString s ++ rest) = .ok (s, rest) := by
  unfold serString deString
  rw [List.append_assoc, deShort_serShort]
  show (match utf8Decode ((utf8Encode s.data ++ rest).take
      ((utf8Encode s.data).length : Int).toNat) with
    | some cs => Except.ok (String.mk cs,
        (utf8Encode s.data ++ rest).drop ((utf8Encode s.data).length : Int).toNat)
    | none => .error ()) = _
  have htn : (((utf8Encode s.data).length : Int)).toNat =
      (utf8Encode s.data).length := by omega
  rw [htn, List.take_left, List.drop_left, utf8_roundtrip]

/-! The one-byte type tags; a tag with the high bit (`FLAG_REF`) set
introduces a container registered in the ref table. -/

def tShort : Nat := 105
def tLong : Nat := 108
def tFloat : Nat := 100
def tString : Nat := 115
def tRef : Nat := 114
def tList : Nat := 91
def tRecord : Nat := 123
def tVariant : Nat := 35
def tVar : Nat := 118
def tFunction : Nat := 102
def tMatchFunction : Nat := 109
def tClosure : Nat := 99
def tBytes : Nat := 98
def tHole : Nat := 40
def tAssign : Nat := 61
def tBinop : Nat := 43
def tApply : Nat := 32
def tWhere : Nat := 46
def tAccess : Nat := 64
def tSpread : Nat := 83
def tNamedSpread : Nat := 82

/-- The exceptions `Serializer.serialize` can raise: `NotImplementedError`
for `Assert`, `EnvObject`, `NativeFunction` and a bare `MatchCase`;
`KeyError` from `BinopKind.to_str` on `FLOOR_DIV`; `AttributeError` if a
`MatchFunction` carries a non-`MatchCase` (impossible for well-typed
trees). -/
inductive SerExc where
  | notImplemented
  | keyError
  | attributeError
  deriving DecidableEq, Repr

/-- `Serializer.ref(obj)`: Python scans the ref table with `is` (object
identity).  Distinct nodes of an expression tree are distinct objects even
when structurally equal — parser and deserializer always allocate fresh
nodes — so on the alias-free trees this model ranges over, the scan always
misses.  (Serialized output for object graphs with interior aliasing, such
as a list containing itself, is outside the tree model.) -/
def serRefLookup (_refs : List Object) (_obj : Object) : Option Nat := none

/-- `Serializer._fits_in_nbits(obj, 64)`. -/
def fitsIn64 (v : Int) : Bool := -(2 ^ 63) ≤ v && v < 2 ^ 63

mutual

/-- `Serializer.serialize(obj)`: threads the ref table and returns the bytes
this call emits (appended to the output in Python).  `add_ref` emits the
flagged tag and registers the container before its children.  The `Assign`
name (always a `Var`) is serialized inline as a `Var` node. -/
def ser (obj : Object) (refs : List Object) :
    Except SerExc (List Object × List Nat) :=
  match serRefLookup refs obj with
  | some idx => .ok (refs, tRef :: serShort (idx : Int))
  | none =>
      match obj with
      | .int v =>
          if fitsIn64 v then .ok (refs, tShort :: serShort v)
          else .ok (refs, tLong :: serLong v)
      | .string s => .ok (refs, tString :: serString s)
      | .list items =>
          (match serItems items (refs ++ [Object.list items]) with
          | .error e => .error e
          | .ok (refs2, out) =>
              .ok (refs2, (tList + 128) :: serShort (items.length : Int) ++ out))
      | .variant tag v =>
          (match ser v refs with
          | .error e => .error e
          | .ok (refs2, out) => .ok (refs2, tVariant :: serString tag ++ out))
      | .record data =>
          (match serEntries data refs with
          | .error e => .error e
          | .ok (refs2, out) =>
              .ok (refs2, tRecord :: serShort (data.length : Int) ++ out))
      | .var n => .ok (refs, tVar :: serString n)
      | .function arg body =>
          (match ser arg refs with
          | .error e => .error e
          | .ok (refs2, o1) =>
              match ser body refs2 with
              | .error e => .error e
              | .ok (refs3, o2) => .ok (refs3, tFunction :: o1 ++ o2))
      | .matchFunction cases =>
          (match serCases cases refs with
          | .error e => .error e
          | .ok (refs2, out) =>
              .ok (refs2,
                tMatchFunction :: serShort (cases.length : Int) ++ out))
      | .closure env f =>
          (match ser f (refs ++ [Object.closure env f]) with
          | .error e => .error e
          | .ok (refs2, o1) =>
              match serEntries env refs2 with
              | .error e => .error e
              | .ok (refs3, o2) =>
                  .ok (refs3, (tClosure + 128) :: o1 ++
                    serShort (env.length : Int) ++ o2))
      | .bytes bs => .ok (refs, tBytes :: serShort (bs.length : Int) ++ bs)
      | .float bits => .ok (refs, tFloat :: leBytes 8 bits)
      | .hole => .ok (refs, [tHole])
      | .assign name v =>
          (match ser v refs with
          | .error e => .error e
          | .ok (refs2, o2) =>
              .ok (refs2, tAssign :: (tVar :: serString name) ++ o2))
      | .binop op l r =>
          (match toStr op with
          | none => .error .keyError
          | some s =>
              match ser l refs with
              | .error e => .error e
              | .ok (refs2, o1) =>
                  match ser r refs2 with
                  | .error e => .error e
                  | .ok (refs3, o2) =>
                      .ok (refs3, tBinop :: serString s ++ o1 ++ o2))
      | .apply f a =>
          (match ser f refs with
          | .error e => .error e
          | .ok (refs2, o1) =>
              match ser a refs2 with
              | .error e => .error e
              | .ok (refs3, o2) => .ok (refs3, tApply :: o1 ++ o2))
      | .whereExp body binding =>
          (match ser body refs with
          | .error e => .error e
          | .ok (refs2, o1) =>
              match ser binding refs2 with
              | .error e => .error e
              | .ok (refs3, o2) => .ok (refs3, tWhere :: o1 ++ o2))
      | .access o a =>
          (match ser o refs with
          | .error e => .error e
          | .ok (refs2, o1) =>
              match ser a refs2 with
              | .error e => .error e
              | .ok (refs3, o2) => .ok (refs3, tAccess :: o1 ++ o2))
      | .spread (some n) => .ok (refs, tNamedSpread :: serString n)
      | .spread none => .ok (refs, [tSpread])
      | .matchCase _ _ => .error .notImplemented
      | .assertExp _ _ => .error .notImplemented
      | .envObject _ => .error .notImplemented
      | .nativeFunction _ => .error .notImplemented

/-- The item loop of `serialize` for lists. -/
def serItems (items : List Object) (refs : List Object) :
    Except SerExc (List Object × List Nat) :=
  match items with
  | [] => .ok (refs, [])
  | it :: rest =>
      (match ser it refs with
      | .error e => .error e
      | .ok (refs2, o1) =>
          match serItems rest refs2 with
          | .error e => .error e
          | .ok (refs3, o2) => .ok (refs3, o1 ++ o2))

/-- The entry loop of `serialize` for records and closure environments:
each key as a string, then its value. -/
def serEntries (data : List (String × Object)) (refs : List Object) :
    Except SerExc (List Object × List Nat) :=
  match data with
  | [] => .ok (refs, [])
  | (k, v) :: rest =>
      (match ser v refs with
      | .error e => .error e
      | .ok (refs2, o1) =>
          match serEntries rest refs2 with
          | .error e => .error e
          | .ok (refs3, o2) => .ok (refs3, serString k ++ o1 ++ o2))

/-- The case loop of `serialize` for match functions: each case's pattern
then its body. -/
def serCases (cases : List Object) (refs : List Object) :
    Except SerExc (List Object × List Nat) :=
  match cases with
  | [] => .ok (refs, [])
  | c :: rest =>
      match c with
      | .matchCase p b =>
          (match ser p refs with
          | .error e => .error e
          | .ok (refs2, o1) =>
              match ser b refs2 with
              | .error e => .error e
              | .ok (refs3, o2) =>
                  match serCases rest refs3 with
                  | .error e => .error e
                  | .ok (refs4, o3) => .ok (refs4, o1 ++ o2 ++ o3))
      | _ => .error .attributeError

end

/-- The exceptions `Deserializer.parse` can raise: `IndexError` on a read
past the end (`truncated`) or a bad ref index (`refError`), `AssertionError`
on a ref-flag or node-kind assert, `UnicodeDecodeError` (`strError`),
`KeyError` from `BinopKind.from_str`, `NotImplementedError` on an unknown
tag, and `outOfFuel` for the model's recursion bound. -/
inductive DeExc where
  | truncated
  | refError
  | assertFail
  | strError
  | keyError
  | badTag
  | outOfFuel
  deriving DecidableEq, Repr

/-- `self.refs[idx]` with Python list indexing (negative indexes count from
the end; out of range is `IndexError`). -/
def refIndex (refs : List Object) (idx : Int) : Option Object :=
  if 0 ≤ idx then refs.get? idx.toNat
  else if -(refs.length : Int) ≤ idx then
    refs.get? ((refs.length : Int) + idx).toNat
  else none

mutual

/-- `Deserializer.parse()`: reads one object from the byte stream, threading
the ref table, with explicit fuel for the recursion.  Two divergences forced
by the pure tree model, both only observable through `TYPE_REF` back-
references (which the serializer of alias-free trees never emits): Python
registers the ref-table entry for a list or closure *before* its children
and mutates it as they arrive, while the model registers an empty
snapshot. -/
def de (fuel : Nat) (input : List Nat) (refs : List Object) :
    Except DeExc (Object × List Nat × List Object) :=
  match fuel with
  | 0 => .error .outOfFuel
  | fuel + 1 =>
      match input with
      | [] => .error .truncated
      | tag :: afterTag =>
          let ty := tag % 128
          let isRef := decide (128 ≤ tag)
          if ty = tRef then
            match deShort afterTag with
            | .error _ => .error .truncated
            | .ok (idx, rest) =>
                match refIndex refs idx with
                | some o => .ok (o, rest, refs)
                | none => .error .refError
          else if ty = tShort then
            if isRef then .error .assertFail
            else
              match deShort afterTag with
              | .error _ => .error .truncated
              | .ok (v, rest) => .ok (.int v, rest, refs)
          else if ty = tLong then
            if isRef then .error .assertFail
            else
              match deLong afterTag with
              | .error _ => .error .truncated
              | .ok (v, rest) => .ok (.int v, rest, refs)
          else if ty = tString then
            if isRef then .error .assertFail
            else
              match deString afterTag with
              | .error _ => .error .strError
              | .ok (s, rest) => .ok (.string s, rest, refs)
          else if ty = tList then
            match deShort afterTag with
            | .error _ => .error .truncated
            | .ok (len, rest) =>
                if isRef then
                  match deItems fuel len.toNat rest (refs ++ [Object.list []]) with
                  | .error e => .error e
                  | .ok (items, rest2, refs2) => .ok (.list items, rest2, refs2)
                else .error .assertFail
          else if ty = tRecord then
            if isRef then .error .assertFail
            else
              match deShort afterTag with
              | .error _ => .error .truncated
              | .ok (len, rest) =>
                  match deEntries fuel len.toNat rest refs with
                  | .error e => .error e
                  | .ok (pairs, rest2, refs2) =>
                      .ok (.record
                        (pairs.foldl (fun d kv => dictInsert d kv.1 kv.2) []),
                        rest2, refs2)
          else if ty = tVariant then
            if isRef then .error .assertFail
            else
              match deString afterTag with
              | .error _ => .error .strError
              | .ok (tagName, rest) =>
                  match de fuel rest refs with
                  | .error e => .error e
                  | .ok (v, rest2, refs2) =>
                      .ok (.variant tagName v, rest2, refs2)
          else if ty = tVar then
            if isRef then .error .assertFail
            else
              match deString afterTag with
              | .error _ => .error .strError
              | .ok (s, rest) => .ok (.var s, rest, refs)
          else if ty = tFunction then
            if isRef then .error .assertFail
            else
              match de fuel afterTag refs with
              | .error e => .error e
              | .ok (arg, rest, refs2) =>
                  match de fuel rest refs2 with
                  | .error e => .error e
                  | .ok (body, rest2, refs3) =>
                      .ok (.function arg body, rest2, refs3)
          else if ty = tMatchFunction then
            if isRef then .error .assertFail
            else
              match deShort afterTag with
              | .error _ => .error .truncated
              | .ok (len, rest) =>
                  match deCases fuel len.toNat rest refs with
                  | .error e => .error e
                  | .ok (cases, rest2, refs2) =>
                      .ok (.matchFunction cases, rest2, refs2)
          else if ty = tClosure then
            match de fuel afterTag refs with
            | .error e => .error e
            | .ok (func, rest, refs2) =>
                match deShort rest with
                | .error _ => .error .truncated
                | .ok (len, rest2) =>
                    match func with
                    | .function _ _ | .matchFunction _ =>
                        if isRef then
                          match deEntries fuel len.toNat rest2
                              (refs2 ++ [Object.closure [] func]) with
                          | .error e => .error e
                          | .ok (pairs, rest3, refs3) =>
                              .ok (.closure
                                (pairs.foldl
                                  (fun d kv => dictInsert d kv.1 kv.2) [])
                                func, rest3, refs3)
                        else .error .assertFail
                    | _ => .error .assertFail
          else if ty = tBytes then
            if isRef then .error .assertFail
            else
              match deShort afterTag with
              | .error _ => .error .truncated
              | .ok (len, rest) =>
                  .ok (.bytes (rest.take len.toNat), rest.drop len.toNat, refs)
          else if ty = tFloat then
            if isRef then .error .assertFail
            else
              match readLE 8 afterTag with
              | (bits, rest) => .ok (.float bits, rest, refs)
          else if ty = tHole then
            if isRef then .error .assertFail
            else .ok (.hole, afterTag, refs)
          else if ty = tAssign then
            if isRef then .error .assertFail
            else
              match de fuel afterTag refs with
              | .error e => .error e
              | .ok (name, rest, refs2) =>
                  match de fuel rest refs2 with
                  | .error e => .error e
                  | .ok (value, rest2, refs3) =>
                      match name with
                      | .var n => .ok (.assign n value, rest2, refs3)
                      | _ => .error .assertFail
          else if ty = tBinop then
            if isRef then .error .assertFail
            else
              match deString afterTag with
              | .error _ => .error .strError
              | .ok (s, rest) =>
                  match fromStr s with
                  | none => .error .keyError
                  | some op =>
                      match de fuel rest refs with
                      | .error e => .error e
                      | .ok (l, rest2, refs2) =>
                          match de fuel rest2 refs2 with
                          | .error e => .error e
                          | .ok (r, rest3, refs3) =>
                              .ok (.binop op l r, rest3, refs3)
          else if ty = tApply then
            if isRef then .error .assertFail
            else
              match de fuel afterTag refs with
              | .error e => .error e
              | .ok (f, rest, refs2) =>
                  match de fuel rest refs2 with
                  | .error e => .error e
                  | .ok (a, rest2, refs3) => .ok (.apply f a, rest2, refs3)
          else if ty = tWhere then
            if isRef then .error .assertFail
            else
              match de fuel afterTag refs with
              | .error e => .error e
              | .ok (body, rest, refs2) =>
                  match de fuel rest refs2 with
                  | .error e => .error e
                  | .ok (binding, rest2, refs3) =>
                      .ok (.whereExp body binding, rest2, refs3)
          else if ty = tAccess then
            if isRef then .error .assertFail
            else
              match de fuel afterTag refs with
              | .error e => .error e
              | .ok (o, rest, refs2) =>
                  match de fuel rest refs2 with
                  | .error e => .error e
                  | .ok (a, rest2, refs3) => .ok (.access o a, rest2, refs3)
          else if ty = tSpread then .ok (.spread none, afterTag, refs)
          else if ty = tNamedSpread then
            match deString afterTag with
            | .error _ => .error .strError
            | .ok (s, rest) => .ok (.spread (some s), rest, refs)
          else .error .badTag

/-- The item loop of `TYPE_LIST`. -/
def deItems (fuel count : Nat) (input : List Nat) (refs : List Object) :
    Except DeExc (List Object × List Nat × List Object) :=
  match count with
  | 0 => .ok ([], input, refs)
  | k + 1 =>
      match de fuel input refs with
      | .error e => .error e
      | .ok (v, rest, refs2) =>
          match deItems fuel k rest refs2 with
          | .error e => .error e
          | .ok (vs, rest2, refs3) => .ok (v :: vs, rest2, refs3)

/-- The entry loop of `TYPE_RECORD` and `TYPE_CLOSURE`: a key string then a
value, `count` times. -/
def deEntries (fuel count : Nat) (input : List Nat) (refs : List Object) :
    Except DeExc (List (String × Object) × List Nat × List Object) :=
  match count with
  | 0 => .ok ([], input, refs)
  | k + 1 =>
      match deString input with
      | .error _ => .error .strError
      | .ok (key, rest) =>
          match de fuel rest refs with
          | .error e => .error e
          | .ok (v, rest2, refs2) =>
              match deEntries fuel k rest2 refs2 with
              | .error e => .error e
              | .ok (pairs, rest3, refs3) =>
                  .ok ((key, v) :: pairs, rest3, refs3)

/-- The case loop of `TYPE_MATCH_FUNCTION`: a pattern then a body, `count`
times. -/
def deCases (fuel count : Nat) (input : List Nat) (refs : List Object) :
    Except DeExc (List Object × List Nat × List Object) :=
  match count with
  | 0 => .ok ([], input, refs)
  | k + 1 =>
      match de fuel input refs with
      | .error e => .error e
      | .ok (p, rest, refs2) =>
          match de fuel rest refs2 with
          | .error e => .error e
          | .ok (b, rest2, refs3) =>
              match deCases fuel k rest2 refs3 with
              | .error e => .error e
              | .ok (cases, rest3, refs4) =>
                  .ok (.matchCase p b :: cases, rest3, refs4)

end

mutual

/-- The expression trees the serializer accepts byte-faithfully: no
`Closure`, `EnvObject`, `NativeFunction` (the claim's exclusions), no
`Assert` or bare `MatchCase` (`serialize` has no case for them and raises
`NotImplementedError`), no `FLOOR_DIV` binop (`to_str` raises `KeyError`),
and the built-in Python invariants of the node payloads: float patterns are
64-bit, byte values are bytes, record keys are unique (`dict` keys). -/
def wfSer : Object → Bool
  | .int _ => true
  | .float bits => decide (bits < 2 ^ 64)
  | .string _ => true
  | .bytes bs => bs.all (fun b => decide (b < 256))
  | .var _ => true
  | .hole => true
  | .spread _ => true
  | .variant _ v => wfSer v
  | .binop op l r => (toStr op).isSome && wfSer l && wfSer r
  | .list items => wfSerItems items
  | .record data => decide ((data.map Prod.fst).Nodup) && wfSerEntries data
  | .assign _ v => wfSer v
  | .function a b => wfSer a && wfSer b
  | .matchFunction cases => wfSerCases cases
  | .apply f a => wfSer f && wfSer a
  | .whereExp b bi => wfSer b && wfSer bi
  | .access o a => wfSer o && wfSer a
  | .matchCase _ _ => false
  | .assertExp _ _ => false
  | .closure _ _ => false
  | .nativeFunction _ => false
  | .envObject _ => false

def wfSerItems : List Object → Bool
  | [] => true
  | it :: rest => wfSer it && wfSerItems rest

def wfSerEntries : List (String × Object) → Bool
  | [] => true
  | (_, v) :: rest => wfSer v && wfSerEntries rest

def wfSerCases : List Object → Bool
  | [] => true
  | .matchCase p b :: rest => wfSer p && wfSer b && wfSerCases rest
  | _ :: _ => false

end

/-- `BinopKind.from_str` undoes `BinopKind.to_str` wherever the latter is
defined. -/
theorem fromStr_toStr (op : BinopKind) (s : String) (h : toStr op = some s) :
    fromStr s = some op := by
  cases op <;> (cases h <;> decide)

/-- Rebuilding a dict from its own entry list (as the deserializer does for
records and closure environments) returns the same entries when the keys are
unique. -/
theorem dict_foldl_insert (pairs : List (String × Object))
    (h : (pairs.map Prod.fst).Nodup) :
    pairs.foldl (fun d kv => dictInsert d kv.1 kv.2) [] = pairs := by
  suffices hgen : ∀ (acc : List (String × Object)),
      ((acc ++ pairs).map Prod.fst).Nodup →
      pairs.foldl (fun d kv => dictInsert d kv.1 kv.2) acc = acc ++ pairs by
    have := hgen [] (by simpa using h)
    simpa using this
  clear h
  induction pairs with
  | nil => intro acc _; simp
  | cons kv rest ih =>
      intro acc hacc
      obtain ⟨k, v⟩ := kv
      have hins : dictInsert acc k v = acc ++ [(k, v)] := by
        have hk : k ∉ acc.map Prod.fst := by
          intro hmem
          have h2 : (acc.map Prod.fst ++
              (k :: rest.map Prod.fst)).Nodup := by simpa using hacc
          rw [List.nodup_append] at h2
          exact (h2.2.2 hmem) (List.mem_cons_self _ _)
        clear hacc ih
        induction acc with
        | nil => rfl
        | cons a rest2 ih2 =>
            rw [dictInsert]
            rw [if_neg (by
              intro he
              exact hk (by simp [← he]))]
            rw [ih2 (by intro hm; exact hk (by simp [hm]))]
            rfl
      show List.foldl _ (dictInsert acc k v) rest = _
      rw [hins, ih (acc ++ [(k, v)]) (by simpa using hacc)]
      simp

/-- Every expression node has positive size. -/
theorem obj_sizeOf_pos (e : Object) : 0 < sizeOf e := by
  cases e <;> simp_arith

theorem ser_step_int (v : Int) (refs : List Object) :
    ser (.int v) refs =
      (if fitsIn64 v then .ok (refs, tShort :: serShort v)
       else .ok (refs, tLong :: serLong v)) := by
  rw [ser.eq_def]; simp only [serRefLookup]

theorem ser_step_string (s : String) (refs : List Object) :
    ser (.string s) refs = .ok (refs, tString :: serString s) := by
  rw [ser.eq_def]; simp only [serRefLookup]

theorem ser_step_list (items : List Object) (refs : List Object) :
    ser (.list items) refs =
      (match serItems items (refs ++ [Object.list items]) with
      | .error e => .error e
      | .ok (refs2, out) =>
          .ok (refs2, (tList + 128) :: serShort (items.length : Int) ++ out)) := by
  rw [ser.eq_def]; simp only [serRefLookup]

theorem ser_step_variant (tag : String) (v : Object) (refs : List Object) :
    ser (.variant tag v) refs =
      (match ser v refs with
      | .error e => .error e
      | .ok (refs2, out) => .ok (refs2, tVariant :: serString tag ++ out)) := by
  rw [ser.eq_def]; simp only [serRefLookup]

theorem ser_step_record (data : List (String × Object)) (refs : List Object) :
    ser (.record data) refs =
      (match serEntries data refs with
      | .error e => .error e
      | .ok (refs2, out) =>
          .ok (refs2, tRecord :: serShort (data.length : Int) ++ out)) := by
  rw [ser.eq_def]; simp only [serRefLookup]

theorem ser_step_var (n : String) (refs : List Object) :
    ser (.var n) refs = .ok (refs, tVar :: serString n) := by
  rw [ser.eq_def]; simp only [serRefLookup]

theorem ser_step_function (arg body : Object) (refs : List Object) :
    ser (.function arg body) refs =
      (match ser arg refs with
      | .error e => .error e
      | .ok (refs2, o1) =>
          match ser body refs2 with
          | .error e => .error e
          | .ok (refs3, o2) => .ok (refs3, tFunction :: o1 ++ o2)) := by
  rw [ser.eq_def]; simp only [serRefLookup]

theorem ser_step_matchFunction (cases : List Object) (refs : List Object) :
    ser (.matchFunction cases) refs =
      (match serCases cases refs with
      | .error e => .error e
      | .ok (refs2, out) =>
          .ok (refs2, tMatchFunction :: serShort (cases.length : Int) ++ out)) := by
  rw [ser.eq_def]; simp only [serRefLookup]

theorem ser_step_bytes (bs : List Nat) (refs : List Object) :
    ser (.bytes bs) refs =
      .ok (refs, tBytes :: serShort (bs.length : Int) ++ bs) := by
  rw [ser.eq_def]; simp only [serRefLookup]

theorem ser_step_float (bits : Nat) (refs : List Object) :
    ser (.float bits) refs = .ok (refs, tFloat :: leBytes 8 bits) := by
  rw [ser.eq_def]; simp only [serRefLookup]

theorem ser_step_hole (refs : List Object) :
    ser .hole refs = .ok (refs, [tHole]) := by
  rw [ser.eq_def]; simp only [serRefLookup]

theorem ser_step_assign (name : String) (v : Object) (refs : List Object) :
    ser (.assign name v) refs =
      (match ser v refs with
      | .error e => .error e
      | .ok (refs2, o2) =>
          .ok (refs2, tAssign :: (tVar :: serString name) ++ o2)) := by
  rw [ser.eq_def]; simp only [serRefLookup]

theorem ser_step_binop (op : BinopKind) (l r : Object) (refs : List Object) :
    ser (.binop op l r) refs =
      (match toStr op with
      | none => .error .keyError
      | some s =>
          match ser l refs with
          | .error e => .error e
          | .ok (refs2, o1) =>
              match ser r refs2 with
              | .error e => .error e
              | .ok (refs3, o2) =>
                  .ok (refs3, tBinop :: serString s ++ o1 ++ o2)) := by
  rw [ser.eq_def]; simp only [serRefLookup]

theorem ser_step_apply (f a : Object) (refs : List Object) :
    ser (.apply f a) refs =
      (match ser f refs with
      | .error e => .error e
      | .ok (refs2, o1) =>
          match ser a refs2 with
          | .error e => .error e
          | .ok (refs3, o2) => .ok (refs3, tApply :: o1 ++ o2)) := by
  rw [ser.eq_def]; simp only [serRefLookup]

theorem ser_step_where (body binding : Object) (refs : List Object) :
    ser (.whereExp body binding) refs =
      (match ser body refs with
      | .error e => .error e
      | .ok (refs2, o1) =>
          match ser binding refs2 with
          | .error e => .error e
          | .ok (refs3, o2) => .ok (refs3, tWhere :: o1 ++ o2)) := by
  rw [ser.eq_def]; simp only [serRefLookup]

theorem ser_step_access (o a : Object) (refs : List Object) :
    ser (.access o a) refs =
      (match ser o refs with
      | .error e => .error e
      | .ok (refs2, o1) =>
          match ser a refs2 with
          | .error e => .error e
          | .ok (refs3, o2) => .ok (refs3, tAccess :: o1 ++ o2)) := by
  rw [ser.eq_def]; simp only [serRefLookup]

theorem ser_step_spread_named (n : String) (refs : List Object) :
    ser (.spread (some n)) refs = .ok (refs, tNamedSpread :: serString n) := by
  rw [ser.eq_def]; simp only [serRefLookup]

theorem ser_step_spread (refs : List Object) :
    ser (.spread none) refs = .ok (refs, [tSpread]) := by
  rw [ser.eq_def]; simp only [serRefLookup]

theorem de_step_short (fuel : Nat) (afterTag : List Nat) (refs : List Object) :
    de (fuel + 1) (tShort :: afterTag) refs =
      (match deShort afterTag with
      | .error _ => .error .truncated
      | .ok (v, rest) => .ok (.int v, rest, refs)) := by
  rw [de.eq_def]; norm_num [tShort, tRef]

theorem de_step_long (fuel : Nat) (afterTag : List Nat) (refs : List Object) :
    de (fuel + 1) (tLong :: afterTag) refs =
      (match deLong afterTag with
      | .error _ => .error .truncated
      | .ok (v, rest) => .ok (.int v, rest, refs)) := by
  rw [de.eq_def]; norm_num [tShort, tLong, tRef]

theorem de_step_string (fuel : Nat) (afterTag : List Nat) (refs : List Object) :
    de (fuel + 1) (tString :: afterTag) refs =
      (match deString afterTag with
      | .error _ => .error .strError
      | .ok (s, rest) => .ok (.string s, rest, refs)) := by
  rw [de.eq_def]; norm_num [tShort, tLong, tString, tRef]

theorem de_step_list (fuel : Nat) (afterTag : List Nat) (refs : List Object) :
    de (fuel + 1) ((tList + 128) :: afterTag) refs =
      (match deShort afterTag with
      | .error _ => .error .truncated
      | .ok (len, rest) =>
          match deItems fuel len.toNat rest (refs ++ [Object.list []]) with
          | .error e => .error e
          | .ok (items, rest2, refs2) => .ok (.list items, rest2, refs2)) := by
  rw [de.eq_def]; norm_num [tShort, tLong, tString, tList, tRef]

theorem de_step_record (fuel : Nat) (afterTag : List Nat) (refs : List Object) :
    de (fuel + 1) (tRecord :: afterTag) refs =
      (match deShort afterTag with
      | .error _ => .error .truncated
      | .ok (len, rest) =>
          match deEntries fuel len.toNat rest refs with
          | .error e => .error e
          | .ok (pairs, rest2, refs2) =>
              .ok (.record (pairs.foldl (fun d kv => dictInsert d kv.1 kv.2) []),
                rest2, refs2)) := by
  rw [de.eq_def]; norm_num [tShort, tLong, tString, tList, tRecord, tRef]

theorem de_step_variant (fuel : Nat) (afterTag : List Nat) (refs : List Object) :
    de (fuel + 1) (tVariant :: afterTag) refs =
      (match deString afterTag with
      | .error _ => .error .strError
      | .ok (tagName, rest) =>
          match de fuel rest refs with
          | .error e => .error e
          | .ok (v, rest2, refs2) => .ok (.variant tagName v, rest2, refs2)) := by
  rw [de.eq_def]; norm_num [tShort, tLong, tString, tList, tRecord, tVariant, tRef]

theorem de_step_var (fuel : Nat) (afterTag : List Nat) (refs : List Object) :
    de (fuel + 1) (tVar :: afterTag) refs =
      (match deString afterTag with
      | .error _ => .error .strError
      | .ok (s, rest) => .ok (.var s, rest, refs)) := by
  rw [de.eq_def]
  norm_num [tShort, tLong, tString, tList, tRecord, tVariant, tVar, tRef]

theorem de_step_function (fuel : Nat) (afterTag : List Nat) (refs : List Object) :
    de (fuel + 1) (tFunction :: afterTag) refs =
      (match de fuel afterTag refs with
      | .error e => .error e
      | .ok (arg, rest, refs2) =>
          match de fuel rest refs2 with
          | .error e => .error e
          | .ok (body, rest2, refs3) => .ok (.function arg body, rest2, refs3)) := by
  rw [de.eq_def]
  norm_num [tShort, tLong, tString, tList, tRecord, tVariant, tVar, tFunction,
    tRef]

theorem de_step_matchFunction (fuel : Nat) (afterTag : List Nat)
    (refs : List Object) :
    de (fuel + 1) (tMatchFunction :: afterTag) refs =
      (match deShort afterTag with
      | .error _ => .error .truncated
      | .ok (len, rest) =>
          match deCases fuel len.toNat rest refs with
          | .error e => .error e
          | .ok (cases, rest2, refs2) =>
              .ok (.matchFunction cases, rest2, refs2)) := by
  rw [de.eq_def]
  norm_num [tShort, tLong, tString, tList, tRecord, tVariant, tVar, tFunction,
    tMatchFunction, tRef]

theorem de_step_bytes (fuel : Nat) (afterTag : List Nat) (refs : List Object) :
    de (fuel + 1) (tBytes :: afterTag) refs =
      (match deShort afterTag with
      | .error _ => .error .truncated
      | .ok (len, rest) =>
          .ok (.bytes (rest.take len.toNat), rest.drop len.toNat, refs)) := by
  rw [de.eq_def]
  norm_num [tShort, tLong, tString, tList, tRecord, tVariant, tVar, tFunction,
    tMatchFunction, tClosure, tBytes, tRef]

theorem de_step_float (fuel : Nat) (afterTag : List Nat) (refs : List Object) :
    de (fuel + 1) (tFloat :: afterTag) refs =
      (match readLE 8 afterTag with
      | (bits, rest) => .ok (.float bits, rest, refs)) := by
  rw [de.eq_def]
  norm_num [tShort, tLong, tString, tList, tRecord, tVariant, tVar, tFunction,
    tMatchFunction, tClosure, tBytes, tFloat, tRef]

theorem de_step_hole (fuel : Nat) (afterTag : List Nat) (refs : List Object) :
    de (fuel + 1) (tHole :: afterTag) refs = .ok (.hole, afterTag, refs) := by
  rw [de.eq_def]
  norm_num [tShort, tLong, tString, tList, tRecord, tVariant, tVar, tFunction,
    tMatchFunction, tClosure, tBytes, tFloat, tHole, tRef]

theorem de_step_assign (fuel : Nat) (afterTag : List Nat) (refs : List Object) :
    de (fuel + 1) (tAssign :: afterTag) refs =
      (match de fuel afterTag refs with
      | .error e => .error e
      | .ok (name, rest, refs2) =>
          match de fuel rest refs2 with
          | .error e => .error e
          | .ok (value, rest2, refs3) =>
              match name with
              | .var n => .ok (.assign n value, rest2, refs3)
              | _ => .error .assertFail) := by
  rw [de.eq_def]
  norm_num [tShort, tLong, tString, tList, tRecord, tVariant, tVar, tFunction,
    tMatchFunction, tClosure, tBytes, tFloat, tHole, tAssign, tRef]

theorem de_step_binop (fuel : Nat) (afterTag : List Nat) (refs : List Object) :
    de (fuel + 1) (tBinop :: afterTag) refs =
      (match deString afterTag with
      | .error _ => .error .strError
      | .ok (s, rest) =>
          match fromStr s with
          | none => .error .keyError
          | some op =>
              match de fuel rest refs with
              | .error e => .error e
              | .ok (l, rest2, refs2) =>
                  match de fuel rest2 refs2 with
                  | .error e => .error e
                  | .ok (r, rest3, refs3) =>
                      .ok (.binop op l r, rest3, refs3)) := by
  rw [de.eq_def]
  norm_num [tShort, tLong, tString, tList, tRecord, tVariant, tVar, tFunction,
    tMatchFunction, tClosure, tBytes, tFloat, tHole, tAssign, tBinop, tRef]

theorem de_step_apply (fuel : Nat) (afterTag : List Nat) (refs : List Object) :
    de (fuel + 1) (tApply :: afterTag) refs =
      (match de fuel afterTag refs with
      | .error e => .error e
      | .ok (f, rest, refs2) =>
          match de fuel rest refs2 with
          | .error e => .error e
          | .ok (a, rest2, refs3) => .ok (.apply f a, rest2, refs3)) := by
  rw [de.eq_def]
  norm_num [tShort, tLong, tString, tList, tRecord, tVariant, tVar, tFunction,
    tMatchFunction, tClosure, tBytes, tFloat, tHole, tAssign, tBinop, tApply,
    tRef]

theorem de_step_where (fuel : Nat) (afterTag : List Nat) (refs : List Object) :
    de (fuel + 1) (tWhere :: afterTag) refs =
      (match de fuel afterTag refs with
      | .error e => .error e
      | .ok (body, rest, refs2) =>
          match de fuel rest refs2 with
          | .error e => .error e
          | .ok (binding, rest2, refs3) =>
              .ok (.whereExp body binding, rest2, refs3)) := by
  rw [de.eq_def]
  norm_num [tShort, tLong, tString, tList, tRecord, tVariant, tVar, tFunction,
    tMatchFunction, tClosure, tBytes, tFloat, tHole, tAssign, tBinop, tApply,
    tWhere, tRef]

theorem de_step_access (fuel : Nat) (afterTag : List Nat) (refs : List Object) :
    de (fuel + 1) (tAccess :: afterTag) refs =
      (match de fuel afterTag refs with
      | .error e => .error e
      | .ok (o, rest, refs2) =>
          match de fuel rest refs2 with
          | .error e => .error e
          | .ok (a, rest2, refs3) => .ok (.access o a, rest2, refs3)) := by
  rw [de.eq_def]
  norm_num [tShort, tLong, tString, tList, tRecord, tVariant, tVar, tFunction,
    tMatchFunction, tClosure, tBytes, tFloat, tHole, tAssign, tBinop, tApply,
    tWhere, tAccess, tRef]

theorem de_step_spread (fuel : Nat) (afterTag : List Nat) (refs : List Object) :
    de (fuel + 1) (tSpread :: afterTag) refs =
      .ok (.spread none, afterTag, refs) := by
  rw [de.eq_def]
  norm_num [tShort, tLong, tString, tList, tRecord, tVariant, tVar, tFunction,
    tMatchFunction, tClosure, tBytes, tFloat, tHole, tAssign, tBinop, tApply,
    tWhere, tAccess, tSpread, tRef]

theorem de_step_namedSpread (fuel : Nat) (afterTag : List Nat)
    (refs : List Object) :
    de (fuel + 1) (tNamedSpread :: afterTag) refs =
      (match deString afterTag with
      | .error _ => .error .strError
      | .ok (s, rest) => .ok (.spread (some s), rest, refs)) := by
  rw [de.eq_def]
  norm_num [tShort, tLong, tString, tList, tRecord, tVariant, tVar, tFunction,
    tMatchFunction, tClosure, tBytes, tFloat, tHole, tAssign, tBinop, tApply,
    tWhere, tAccess, tSpread, tNamedSpread, tRef]

theorem serItems_nil (refs : List Object) : serItems [] refs = .ok (refs, []) := by
  rw [serItems.eq_def]

theorem serItems_cons (it : Object) (more : List Object) (refs : List Object) :
    serItems (it :: more) refs =
      (match ser it refs with
      | .error e => .error e
      | .ok (refs2, o1) =>
          match serItems more refs2 with
          | .error e => .error e
          | .ok (refs3, o2) => .ok (refs3, o1 ++ o2)) := by
  rw [serItems.eq_def]

theorem serEntries_nil (refs : List Object) :
    serEntries [] refs = .ok (refs, []) := by
  rw [serEntries.eq_def]

theorem serEntries_cons (k : String) (v : Object)
    (more : List (String × Object)) (refs : List Object) :
    serEntries ((k, v) :: more) refs =
      (match ser v refs with
      | .error e => .error e
      | .ok (refs2, o1) =>
          match serEntries more refs2 with
          | .error e => .error e
          | .ok (refs3, o2) => .ok (refs3, serString k ++ o1 ++ o2)) := by
  rw [serEntries.eq_def]

theorem serCases_nil (refs : List Object) : serCases [] refs = .ok (refs, []) := by
  rw [serCases.eq_def]

theorem serCases_cons (p b : Object) (more : List Object) (refs : List Object) :
    serCases (.matchCase p b :: more) refs =
      (match ser p refs with
      | .error e => .error e
      | .ok (refs2, o1) =>
          match ser b refs2 with
          | .error e => .error e
          | .ok (refs3, o2) =>
              match serCases more refs3 with
              | .error e => .error e
              | .ok (refs4, o3) => .ok (refs4, o1 ++ o2 ++ o3)) := by
  rw [serCases.eq_def]

theorem deItems_zero (fuel : Nat) (input : List Nat) (refs : List Object) :
    deItems fuel 0 input refs = .ok ([], input, refs) := by
  rw [deItems.eq_def]

theorem deItems_succ (fuel k : Nat) (input : List Nat) (refs : List Object) :
    deItems fuel (k + 1) input refs =
      (match de fuel input refs with
      | .error e => .error e
      | .ok (v, rest, refs2) =>
          match deItems fuel k rest refs2 with
          | .error e => .error e
          | .ok (vs, rest2, refs3) => .ok (v :: vs, rest2, refs3)) := by
  rw [deItems.eq_def]

theorem deEntries_zero (fuel : Nat) (input : List Nat) (refs : List Object) :
    deEntries fuel 0 input refs = .ok ([], input, refs) := by
  rw [deEntries.eq_def]

theorem deEntries_succ (fuel k : Nat) (input : List Nat) (refs : List Object) :
    deEntries fuel (k + 1) input refs =
      (match deString input with
      | .error _ => .error .strError
      | .ok (key, rest) =>
          match de fuel rest refs with
          | .error e => .error e
          | .ok (v, rest2, refs2) =>
              match deEntries fuel k rest2 refs2 with
              | .error e => .error e
              | .ok (pairs, rest3, refs3) =>
                  .ok ((key, v) :: pairs, rest3, refs3)) := by
  rw [deEntries.eq_def]

theorem deCases_zero (fuel : Nat) (input : List Nat) (refs : List Object) :
    deCases fuel 0 input refs = .ok ([], input, refs) := by
  rw [deCases.eq_def]

theorem deCases_succ (fuel k : Nat) (input : List Nat) (refs : List Object) :
    deCases fuel (k + 1) input refs =
      (match de fuel input refs with
      | .error e => .error e
      | .ok (p, rest, refs2) =>
          match de fuel rest refs2 with
          | .error e => .error e
          | .ok (b, rest2, refs3) =>
              match deCases fuel k rest2 refs3 with
              | .error e => .error e
              | .ok (cases2, rest3, refs4) =>
                  .ok (.matchCase p b :: cases2, rest3, refs4)) := by
  rw [deCases.eq_def]

/-- Deserializing the serialized form of a `Var` node (as the `Assign`
branch of the deserializer does for the binding name). -/
theorem de_var_bytes (fuel : Nat) (hf : 0 < fuel) (n : String)
    (rest : List Nat) (refs : List Object) :
    de fuel (tVar :: (serString n ++ rest)) refs = .ok (.var n, rest, refs) := by
  obtain ⟨f, rfl⟩ : ∃ f, fuel = f + 1 := ⟨fuel - 1, by omega⟩
  rw [de_step_var, deString_serString]

set_option maxHeartbeats 1000000 in
mutual

/-- Deserializing the bytes the serializer emitted for a well-formed tree
returns exactly that tree, consuming exactly those bytes, for any fuel above
the tree size and any incoming deserializer ref table. -/
theorem de_ser : ∀ (e : Object) (refs refs2 : List Object) (out : List Nat),
    wfSer e = true → ser e refs = Except.ok (refs2, out) →
    ∀ (fuel : Nat), sizeOf e < fuel →
    ∀ (rest : List Nat) (drefs : List Object),
    ∃ drefs2, de fuel (out ++ rest) drefs = Except.ok (e, rest, drefs2)
  | .int v, refs, refs2, out, hwf, hser, fuel, hfuel, rest, drefs => by
      rw [ser_step_int] at hser
      obtain ⟨f, rfl⟩ : ∃ f, fuel = f + 1 := ⟨fuel - 1, by omega⟩
      by_cases hv : fitsIn64 v = true
      · rw [if_pos hv] at hser
        simp only [Except.ok.injEq, Prod.mk.injEq] at hser
        obtain ⟨rfl, rfl⟩ := hser
        refine ⟨drefs, ?_⟩
        have hshape : (tShort :: serShort v) ++ rest =
            tShort :: (serShort v ++ rest) := by simp
        rw [hshape, de_step_short]
        simp only [deShort_serShort]
      · rw [if_neg hv] at hser
        simp only [Except.ok.injEq, Prod.mk.injEq] at hser
        obtain ⟨rfl, rfl⟩ := hser
        refine ⟨drefs, ?_⟩
        have hshape : (tLong :: serLong v) ++ rest =
            tLong :: (serLong v ++ rest) := by simp
        rw [hshape, de_step_long]
        simp only [deLong_serLong]
  | .float bits, refs, refs2, out, hwf, hser, fuel, hfuel, rest, drefs => by
      simp only [wfSer, decide_eq_true_eq] at hwf
      simp only [ser_step_float, Except.ok.injEq, Prod.mk.injEq] at hser
      obtain ⟨rfl, rfl⟩ := hser
      obtain ⟨f, rfl⟩ : ∃ f, fuel = f + 1 := ⟨fuel - 1, by omega⟩
      refine ⟨drefs, ?_⟩
      have hshape : (tFloat :: leBytes 8 bits) ++ rest =
          tFloat :: (leBytes 8 bits ++ rest) := by simp
      have h64 : bits < 256 ^ 8 := by
        have h : (256 : Nat) ^ 8 = 2 ^ 64 := by norm_num
        omega
      rw [hshape, de_step_float, readLE_leBytes 8 bits h64 rest]
  | .string s, refs, refs2, out, hwf, hser, fuel, hfuel, rest, drefs => by
      simp only [ser_step_string, Except.ok.injEq, Prod.mk.injEq] at hser
      obtain ⟨rfl, rfl⟩ := hser
      obtain ⟨f, rfl⟩ : ∃ f, fuel = f + 1 := ⟨fuel - 1, by omega⟩
      refine ⟨drefs, ?_⟩
      have hshape : (tString :: serString s) ++ rest =
          tString :: (serString s ++ rest) := by simp
      rw [hshape, de_step_string]
      simp only [deString_serString]
  | .bytes bs, refs, refs2, out, hwf, hser, fuel, hfuel, rest, drefs => by
      simp only [ser_step_bytes, Except.ok.injEq, Prod.mk.injEq] at hser
      obtain ⟨rfl, rfl⟩ := hser
      obtain ⟨f, rfl⟩ : ∃ f, fuel = f + 1 := ⟨fuel - 1, by omega⟩
      refine ⟨drefs, ?_⟩
      have hshape : (tBytes :: serShort (bs.length : Int) ++ bs) ++ rest =
          tBytes :: (serShort (bs.length : Int) ++ (bs ++ rest)) := by simp
      rw [hshape, de_step_bytes]
      simp only [deShort_serShort, Int.toNat_natCast, List.take_left,
        List.drop_left]
  | .var n, refs, refs2, out, hwf, hser, fuel, hfuel, rest, drefs => by
      simp only [ser_step_var, Except.ok.injEq, Prod.mk.injEq] at hser
      obtain ⟨rfl, rfl⟩ := hser
      obtain ⟨f, rfl⟩ : ∃ f, fuel = f + 1 := ⟨fuel - 1, by omega⟩
      refine ⟨drefs, ?_⟩
      have hshape : (tVar :: serString n) ++ rest =
          tVar :: (serString n ++ rest) := by simp
      rw [hshape, de_step_var]
      simp only [deString_serString]
  | .hole, refs, refs2, out, hwf, hser, fuel, hfuel, rest, drefs => by
      simp only [ser_step_hole, Except.ok.injEq, Prod.mk.injEq] at hser
      obtain ⟨rfl, rfl⟩ := hser
      obtain ⟨f, rfl⟩ : ∃ f, fuel = f + 1 := ⟨fuel - 1, by omega⟩
      refine ⟨drefs, ?_⟩
      have hshape : [tHole] ++ rest = tHole :: rest := by simp
      rw [hshape, de_step_hole]
  | .spread none, refs, refs2, out, hwf, hser, fuel, hfuel, rest, drefs => by
      simp only [ser_step_spread, Except.ok.injEq, Prod.mk.injEq] at hser
      obtain ⟨rfl, rfl⟩ := hser
      obtain ⟨f, rfl⟩ : ∃ f, fuel = f + 1 := ⟨fuel - 1, by omega⟩
      refine ⟨drefs, ?_⟩
      have hshape : [tSpread] ++ rest = tSpread :: rest := by simp
      rw [hshape, de_step_spread]
  | .spread (some n), refs, refs2, out, hwf, hser, fuel, hfuel, rest, drefs => by
      simp only [ser_step_spread_named, Except.ok.injEq, Prod.mk.injEq] at hser
      obtain ⟨rfl, rfl⟩ := hser
      obtain ⟨f, rfl⟩ : ∃ f, fuel = f + 1 := ⟨fuel - 1, by omega⟩
      refine ⟨drefs, ?_⟩
      have hshape : (tNamedSpread :: serString n) ++ rest =
          tNamedSpread :: (serString n ++ rest) := by simp
      rw [hshape, de_step_namedSpread]
      simp only [deString_serString]
  | .variant tag v, refs, refs2, out, hwf, hser, fuel, hfuel, rest, drefs => by
      simp only [wfSer] at hwf
      cases h1 : ser v refs with
      | error err => simp [ser_step_variant, h1] at hser
      | ok p1 =>
        obtain ⟨refsA, o1⟩ := p1
        simp only [ser_step_variant, h1, Except.ok.injEq, Prod.mk.injEq] at hser
        obtain ⟨rfl, rfl⟩ := hser
        obtain ⟨f, rfl⟩ : ∃ f, fuel = f + 1 := ⟨fuel - 1, by omega⟩
        simp at hfuel
        obtain ⟨dr1, hd1⟩ := de_ser v refs refsA o1 hwf h1 f (by omega) rest drefs
        refine ⟨dr1, ?_⟩
        have hshape : (tVariant :: serString tag ++ o1) ++ rest =
            tVariant :: (serString tag ++ (o1 ++ rest)) := by simp
        rw [hshape, de_step_variant]
        simp only [deString_serString, hd1]
  | .binop op l r, refs, refs2, out, hwf, hser, fuel, hfuel, rest, drefs => by
      simp only [wfSer, Bool.and_eq_true] at hwf
      obtain ⟨⟨hop, hwl⟩, hwr⟩ := hwf
      obtain ⟨s, hs⟩ := Option.isSome_iff_exists.mp hop
      cases h1 : ser l refs with
      | error err => simp [ser_step_binop, hs, h1] at hser
      | ok p1 =>
        obtain ⟨refsA, o1⟩ := p1
        cases h2 : ser r refsA with
        | error err => simp [ser_step_binop, hs, h1, h2] at hser
        | ok p2 =>
          obtain ⟨refsB, o2⟩ := p2
          simp only [ser_step_binop, hs, h1, h2, Except.ok.injEq,
            Prod.mk.injEq] at hser
          obtain ⟨rfl, rfl⟩ := hser
          obtain ⟨f, rfl⟩ : ∃ f, fuel = f + 1 := ⟨fuel - 1, by omega⟩
          simp at hfuel
          obtain ⟨dr1, hd1⟩ := de_ser l refs refsA o1 hwl h1 f (by omega)
            (o2 ++ rest) drefs
          obtain ⟨dr2, hd2⟩ := de_ser r refsA refsB o2 hwr h2 f (by omega)
            rest dr1
          refine ⟨dr2, ?_⟩
          have hshape : (tBinop :: serString s ++ o1 ++ o2) ++ rest =
              tBinop :: (serString s ++ (o1 ++ (o2 ++ rest))) := by simp
          rw [hshape, de_step_binop]
          simp only [deString_serString, fromStr_toStr op s hs, hd1, hd2]
  | .list items, refs, refs2, out, hwf, hser, fuel, hfuel, rest, drefs => by
      simp only [wfSer] at hwf
      cases h1 : serItems items (refs ++ [Object.list items]) with
      | error err => simp [ser_step_list, h1] at hser
      | ok p1 =>
        obtain ⟨refsA, o1⟩ := p1
        simp only [ser_step_list, h1, Except.ok.injEq, Prod.mk.injEq] at hser
        obtain ⟨rfl, rfl⟩ := hser
        obtain ⟨f, rfl⟩ : ∃ f, fuel = f + 1 := ⟨fuel - 1, by omega⟩
        simp at hfuel
        obtain ⟨dr1, hd1⟩ := deItems_serItems items (refs ++ [Object.list items])
          refsA o1 hwf h1 f (by omega) rest (drefs ++ [Object.list []])
        refine ⟨dr1, ?_⟩
        have hshape : ((tList + 128) :: serShort (items.length : Int) ++ o1) ++
            rest = (tList + 128) ::
              (serShort (items.length : Int) ++ (o1 ++ rest)) := by simp
        rw [hshape, de_step_list]
        simp only [deShort_serShort, Int.toNat_natCast, hd1]
  | .record data, refs, refs2, out, hwf, hser, fuel, hfuel, rest, drefs => by
      simp only [wfSer, Bool.and_eq_true, decide_eq_true_eq] at hwf
      obtain ⟨hnd, hwfe⟩ := hwf
      cases h1 : serEntries data refs with
      | error err => simp [ser_step_record, h1] at hser
      | ok p1 =>
        obtain ⟨refsA, o1⟩ := p1
        simp only [ser_step_record, h1, Except.ok.injEq, Prod.mk.injEq] at hser
        obtain ⟨rfl, rfl⟩ := hser
        obtain ⟨f, rfl⟩ : ∃ f, fuel = f + 1 := ⟨fuel - 1, by omega⟩
        simp at hfuel
        obtain ⟨dr1, hd1⟩ := deEntries_serEntries data refs refsA o1 hwfe h1 f
          (by omega) rest drefs
        refine ⟨dr1, ?_⟩
        have hshape : (tRecord :: serShort (data.length : Int) ++ o1) ++ rest =
            tRecord :: (serShort (data.length : Int) ++ (o1 ++ rest)) := by simp
        rw [hshape, de_step_record]
        simp only [deShort_serShort, Int.toNat_natCast, hd1,
          dict_foldl_insert data hnd]
  | .assign name v, refs, refs2, out, hwf, hser, fuel, hfuel, rest, drefs => by
      simp only [wfSer] at hwf
      cases h1 : ser v refs with
      | error err => simp [ser_step_assign, h1] at hser
      | ok p1 =>
        obtain ⟨refsA, o2⟩ := p1
        simp only [ser_step_assign, h1, Except.ok.injEq, Prod.mk.injEq] at hser
        obtain ⟨rfl, rfl⟩ := hser
        obtain ⟨f, rfl⟩ : ∃ f, fuel = f + 1 := ⟨fuel - 1, by omega⟩
        simp at hfuel
        obtain ⟨dr1, hd1⟩ := de_ser v refs refsA o2 hwf h1 f (by omega) rest drefs
        have hv := de_var_bytes f (by omega) name (o2 ++ rest) drefs
        refine ⟨dr1, ?_⟩
        have hshape : (tAssign :: (tVar :: serString name) ++ o2) ++ rest =
            tAssign :: (tVar :: (serString name ++ (o2 ++ rest))) := by simp
        rw [hshape, de_step_assign]
        simp only [hv, hd1]
  | .function arg body, refs, refs2, out, hwf, hser, fuel, hfuel, rest, drefs => by
      simp only [wfSer, Bool.and_eq_true] at hwf
      obtain ⟨hwa, hwb⟩ := hwf
      cases h1 : ser arg refs with
      | error err => simp [ser_step_function, h1] at hser
      | ok p1 =>
        obtain ⟨refsA, o1⟩ := p1
        cases h2 : ser body refsA with
        | error err => simp [ser_step_function, h1, h2] at hser
        | ok p2 =>
          obtain ⟨refsB, o2⟩ := p2
          simp only [ser_step_function, h1, h2, Except.ok.injEq,
            Prod.mk.injEq] at hser
          obtain ⟨rfl, rfl⟩ := hser
          obtain ⟨f, rfl⟩ : ∃ f, fuel = f + 1 := ⟨fuel - 1, by omega⟩
          simp at hfuel
          obtain ⟨dr1, hd1⟩ := de_ser arg refs refsA o1 hwa h1 f (by omega)
            (o2 ++ rest) drefs
          obtain ⟨dr2, hd2⟩ := de_ser body refsA refsB o2 hwb h2 f (by omega)
            rest dr1
          refine ⟨dr2, ?_⟩
          have hshape : (tFunction :: o1 ++ o2) ++ rest =
              tFunction :: (o1 ++ (o2 ++ rest)) := by simp
          rw [hshape, de_step_function]
          simp only [hd1, hd2]
  | .matchFunction cs, refs, refs2, out, hwf, hser, fuel, hfuel, rest, drefs => by
      simp only [wfSer] at hwf
      cases h1 : serCases cs refs with
      | error err => simp [ser_step_matchFunction, h1] at hser
      | ok p1 =>
        obtain ⟨refsA, o1⟩ := p1
        simp only [ser_step_matchFunction, h1, Except.ok.injEq,
          Prod.mk.injEq] at hser
        obtain ⟨rfl, rfl⟩ := hser
        obtain ⟨f, rfl⟩ : ∃ f, fuel = f + 1 := ⟨fuel - 1, by omega⟩
        simp at hfuel
        obtain ⟨dr1, hd1⟩ := deCases_serCases cs refs refsA o1 hwf h1 f
          (by omega) rest drefs
        refine ⟨dr1, ?_⟩
        have hshape : (tMatchFunction :: serShort (cs.length : Int) ++ o1) ++
            rest = tMatchFunction ::
              (serShort (cs.length : Int) ++ (o1 ++ rest)) := by simp
        rw [hshape, de_step_matchFunction]
        simp only [deShort_serShort, Int.toNat_natCast, hd1]
  | .apply fn av, refs, refs2, out, hwf, hser, fuel, hfuel, rest, drefs => by
      simp only [wfSer, Bool.and_eq_true] at hwf
      obtain ⟨hwa, hwb⟩ := hwf
      cases h1 : ser fn refs with
      | error err => simp [ser_step_apply, h1] at hser
      | ok p1 =>
        obtain ⟨refsA, o1⟩ := p1
        cases h2 : ser av refsA with
        | error err => simp [ser_step_apply, h1, h2] at hser
        | ok p2 =>
          obtain ⟨refsB, o2⟩ := p2
          simp only [ser_step_apply, h1, h2, Except.ok.injEq,
            Prod.mk.injEq] at hser
          obtain ⟨rfl, rfl⟩ := hser
          obtain ⟨f, rfl⟩ : ∃ f, fuel = f + 1 := ⟨fuel - 1, by omega⟩
          simp at hfuel
          obtain ⟨dr1, hd1⟩ := de_ser fn refs refsA o1 hwa h1 f (by omega)
            (o2 ++ rest) drefs
          obtain ⟨dr2, hd2⟩ := de_ser av refsA refsB o2 hwb h2 f (by omega)
            rest dr1
          refine ⟨dr2, ?_⟩
          have hshape : (tApply :: o1 ++ o2) ++ rest =
              tApply :: (o1 ++ (o2 ++ rest)) := by simp
          rw [hshape, de_step_apply]
          simp only [hd1, hd2]
  | .whereExp body binding, refs, refs2, out, hwf, hser, fuel, hfuel, rest,
      drefs => by
      simp only [wfSer, Bool.and_eq_true] at hwf
      obtain ⟨hwa, hwb⟩ := hwf
      cases h1 : ser body refs with
      | error err => simp [ser_step_where, h1] at hser
      | ok p1 =>
        obtain ⟨refsA, o1⟩ := p1
        cases h2 : ser binding refsA with
        | error err => simp [ser_step_where, h1, h2] at hser
        | ok p2 =>
          obtain ⟨refsB, o2⟩ := p2
          simp only [ser_step_where, h1, h2, Except.ok.injEq,
            Prod.mk.injEq] at hser
          obtain ⟨rfl, rfl⟩ := hser
          obtain ⟨f, rfl⟩ : ∃ f, fuel = f + 1 := ⟨fuel - 1, by omega⟩
          simp at hfuel
          obtain ⟨dr1, hd1⟩ := de_ser body refs refsA o1 hwa h1 f (by omega)
            (o2 ++ rest) drefs
          obtain ⟨dr2, hd2⟩ := de_ser binding refsA refsB o2 hwb h2 f
            (by omega) rest dr1
          refine ⟨dr2, ?_⟩
          have hshape : (tWhere :: o1 ++ o2) ++ rest =
              tWhere :: (o1 ++ (o2 ++ rest)) := by simp
          rw [hshape, de_step_where]
          simp only [hd1, hd2]
  | .access ob av, refs, refs2, out, hwf, hser, fuel, hfuel, rest, drefs => by
      simp only [wfSer, Bool.and_eq_true] at hwf
      obtain ⟨hwa, hwb⟩ := hwf
      cases h1 : ser ob refs with
      | error err => simp [ser_step_access, h1] at hser
      | ok p1 =>
        obtain ⟨refsA, o1⟩ := p1
        cases h2 : ser av refsA with
        | error err => simp [ser_step_access, h1, h2] at hser
        | ok p2 =>
          obtain ⟨refsB, o2⟩ := p2
          simp only [ser_step_access, h1, h2, Except.ok.injEq,
            Prod.mk.injEq] at hser
          obtain ⟨rfl, rfl⟩ := hser
          obtain ⟨f, rfl⟩ : ∃ f, fuel = f + 1 := ⟨fuel - 1, by omega⟩
          simp at hfuel
          obtain ⟨dr1, hd1⟩ := de_ser ob refs refsA o1 hwa h1 f (by omega)
            (o2 ++ rest) drefs
          obtain ⟨dr2, hd2⟩ := de_ser av refsA refsB o2 hwb h2 f (by omega)
            rest dr1
          refine ⟨dr2, ?_⟩
          have hshape : (tAccess :: o1 ++ o2) ++ rest =
              tAccess :: (o1 ++ (o2 ++ rest)) := by simp
          rw [hshape, de_step_access]
          simp only [hd1, hd2]
  | .matchCase p b, refs, refs2, out, hwf, hser, fuel, hfuel, rest, drefs => by
      simp [wfSer] at hwf
  | .assertExp v c, refs, refs2, out, hwf, hser, fuel, hfuel, rest, drefs => by
      simp [wfSer] at hwf
  | .closure env fn, refs, refs2, out, hwf, hser, fuel, hfuel, rest, drefs => by
      simp [wfSer] at hwf
  | .nativeFunction n, refs, refs2, out, hwf, hser, fuel, hfuel, rest, drefs => by
      simp [wfSer] at hwf
  | .envObject env, refs, refs2, out, hwf, hser, fuel, hfuel, rest, drefs => by
      simp [wfSer] at hwf

/-- The list loop: `deItems` undoes `serItems` on well-formed items. -/
theorem deItems_serItems : ∀ (items : List Object) (refs refs2 : List Object)
    (out : List Nat), wfSerItems items = true →
    serItems items refs = Except.ok (refs2, out) →
    ∀ (fuel : Nat), sizeOf items ≤ fuel →
    ∀ (rest : List Nat) (drefs : List Object),
    ∃ drefs2, deItems fuel items.length (out ++ rest) drefs =
      Except.ok (items, rest, drefs2)
  | [], refs, refs2, out, hwf, hser, fuel, hfuel, rest, drefs => by
      rw [serItems_nil] at hser
      simp only [Except.ok.injEq, Prod.mk.injEq] at hser
      obtain ⟨rfl, rfl⟩ := hser
      refine ⟨drefs, ?_⟩
      simp only [List.length_nil, List.nil_append, deItems_zero]
  | it :: more, refs, refs2, out, hwf, hser, fuel, hfuel, rest, drefs => by
      simp only [wfSerItems, Bool.and_eq_true] at hwf
      obtain ⟨hw1, hw2⟩ := hwf
      cases h1 : ser it refs with
      | error err => simp [serItems_cons, h1] at hser
      | ok p1 =>
        obtain ⟨refsA, o1⟩ := p1
        cases h2 : serItems more refsA with
        | error err => simp [serItems_cons, h1, h2] at hser
        | ok p2 =>
          obtain ⟨refsB, o2⟩ := p2
          simp only [serItems_cons, h1, h2, Except.ok.injEq,
            Prod.mk.injEq] at hser
          obtain ⟨rfl, rfl⟩ := hser
          simp at hfuel
          obtain ⟨dr1, hd1⟩ := de_ser it refs refsA o1 hw1 h1 fuel (by omega)
            (o2 ++ rest) drefs
          obtain ⟨dr2, hd2⟩ := deItems_serItems more refsA refsB o2 hw2 h2 fuel
            (by omega) rest dr1
          refine ⟨dr2, ?_⟩
          have hshape : (o1 ++ o2) ++ rest = o1 ++ (o2 ++ rest) := by simp
          rw [List.length_cons, hshape, deItems_succ]
          simp only [hd1, hd2]

/-- The entry loop: `deEntries` undoes `serEntries` on well-formed entries. -/
theorem deEntries_serEntries : ∀ (data : List (String × Object))
    (refs refs2 : List Object) (out : List Nat), wfSerEntries data = true →
    serEntries data refs = Except.ok (refs2, out) →
    ∀ (fuel : Nat), sizeOf data ≤ fuel →
    ∀ (rest : List Nat) (drefs : List Object),
    ∃ drefs2, deEntries fuel data.length (out ++ rest) drefs =
      Except.ok (data, rest, drefs2)
  | [], refs, refs2, out, hwf, hser, fuel, hfuel, rest, drefs => by
      rw [serEntries_nil] at hser
      simp only [Except.ok.injEq, Prod.mk.injEq] at hser
      obtain ⟨rfl, rfl⟩ := hser
      refine ⟨drefs, ?_⟩
      simp only [List.length_nil, List.nil_append, deEntries_zero]
  | (k, v) :: more, refs, refs2, out, hwf, hser, fuel, hfuel, rest, drefs => by
      simp only [wfSerEntries, Bool.and_eq_true] at hwf
      obtain ⟨hw1, hw2⟩ := hwf
      cases h1 : ser v refs with
      | error err => simp [serEntries_cons, h1] at hser
      | ok p1 =>
        obtain ⟨refsA, o1⟩ := p1
        cases h2 : serEntries more refsA with
        | error err => simp [serEntries_cons, h1, h2] at hser
        | ok p2 =>
          obtain ⟨refsB, o2⟩ := p2
          simp only [serEntries_cons, h1, h2, Except.ok.injEq,
            Prod.mk.injEq] at hser
          obtain ⟨rfl, rfl⟩ := hser
          simp at hfuel
          obtain ⟨dr1, hd1⟩ := de_ser v refs refsA o1 hw1 h1 fuel (by omega)
            (o2 ++ rest) drefs
          obtain ⟨dr2, hd2⟩ := deEntries_serEntries more refsA refsB o2 hw2 h2
            fuel (by omega) rest dr1
          refine ⟨dr2, ?_⟩
          have hshape : ((serString k ++ o1) ++ o2) ++ rest =
              serString k ++ (o1 ++ (o2 ++ rest)) := by simp
          rw [List.length_cons, hshape, deEntries_succ]
          simp only [deString_serString, hd1, hd2]

/-- The case loop: `deCases` undoes `serCases` on well-formed match cases. -/
theorem deCases_serCases : ∀ (cs : List Object) (refs refs2 : List Object)
    (out : List Nat), wfSerCases cs = true →
    serCases cs refs = Except.ok (refs2, out) →
    ∀ (fuel : Nat), sizeOf cs ≤ fuel →
    ∀ (rest : List Nat) (drefs : List Object),
    ∃ drefs2, deCases fuel cs.length (out ++ rest) drefs =
      Except.ok (cs, rest, drefs2)
  | [], refs, refs2, out, hwf, hser, fuel, hfuel, rest, drefs => by
      rw [serCases_nil] at hser
      simp only [Except.ok.injEq, Prod.mk.injEq] at hser
      obtain ⟨rfl, rfl⟩ := hser
      refine ⟨drefs, ?_⟩
      simp only [List.length_nil, List.nil_append, deCases_zero]
  | c :: more, refs, refs2, out, hwf, hser, fuel, hfuel, rest, drefs => by
      cases c
      case matchCase p b =>
        simp only [wfSerCases, Bool.and_eq_true] at hwf
        obtain ⟨⟨hwp, hwb⟩, hwm⟩ := hwf
        cases h1 : ser p refs with
        | error err => simp [serCases_cons, h1] at hser
        | ok p1 =>
          obtain ⟨refsA, o1⟩ := p1
          cases h2 : ser b refsA with
          | error err => simp [serCases_cons, h1, h2] at hser
          | ok p2 =>
            obtain ⟨refsB, o2⟩ := p2
            cases h3 : serCases more refsB with
            | error err => simp [serCases_cons, h1, h2, h3] at hser
            | ok p3 =>
              obtain ⟨refsC, o3⟩ := p3
              simp only [serCases_cons, h1, h2, h3, Except.ok.injEq,
                Prod.mk.injEq] at hser
              obtain ⟨rfl, rfl⟩ := hser
              simp at hfuel
              obtain ⟨dr1, hd1⟩ := de_ser p refs refsA o1 hwp h1 fuel
                (by omega) (o2 ++ (o3 ++ rest)) drefs
              obtain ⟨dr2, hd2⟩ := de_ser b refsA refsB o2 hwb h2 fuel
                (by omega) (o3 ++ rest) dr1
              obtain ⟨dr3, hd3⟩ := deCases_serCases more refsB refsC o3 hwm h3
                fuel (by omega) rest dr2
              refine ⟨dr3, ?_⟩
              have hshape : ((o1 ++ o2) ++ o3) ++ rest =
                  o1 ++ (o2 ++ (o3 ++ rest)) := by simp
              rw [List.length_cons, hshape, deCases_succ]
              simp only [hd1, hd2, hd3]
      all_goals simp [wfSerCases] at hwf

end

mutual

/-- On well-formed trees the serializer never raises. -/
theorem ser_total : ∀ (e : Object), wfSer e = true → ∀ (refs : List Object),
    ∃ refs2 out, ser e refs = Except.ok (refs2, out)
  | .int v, hwf, refs => by
      rw [ser_step_int]
      by_cases hv : fitsIn64 v = true
      · rw [if_pos hv]; exact ⟨_, _, rfl⟩
      · rw [if_neg hv]; exact ⟨_, _, rfl⟩
  | .float bits, hwf, refs => ⟨_, _, by rw [ser_step_float]⟩
  | .string s, hwf, refs => ⟨_, _, by rw [ser_step_string]⟩
  | .bytes bs, hwf, refs => ⟨_, _, by rw [ser_step_bytes]⟩
  | .var n, hwf, refs => ⟨_, _, by rw [ser_step_var]⟩
  | .hole, hwf, refs => ⟨_, _, by rw [ser_step_hole]⟩
  | .spread none, hwf, refs => ⟨_, _, by rw [ser_step_spread]⟩
  | .spread (some n), hwf, refs => ⟨_, _, by rw [ser_step_spread_named]⟩
  | .variant tag v, hwf, refs => by
      simp only [wfSer] at hwf
      obtain ⟨refsA, o1, h1⟩ := ser_total v hwf refs
      refine ⟨refsA, tVariant :: serString tag ++ o1, ?_⟩
      rw [ser_step_variant]
      simp only [h1]
  | .binop op l r, hwf, refs => by
      simp only [wfSer, Bool.and_eq_true] at hwf
      obtain ⟨⟨hop, hwl⟩, hwr⟩ := hwf
      obtain ⟨s, hs⟩ := Option.isSome_iff_exists.mp hop
      obtain ⟨refsA, o1, h1⟩ := ser_total l hwl refs
      obtain ⟨refsB, o2, h2⟩ := ser_total r hwr refsA
      refine ⟨refsB, tBinop :: serString s ++ o1 ++ o2, ?_⟩
      rw [ser_step_binop]
      simp only [hs, h1, h2]
  | .list items, hwf, refs => by
      simp only [wfSer] at hwf
      obtain ⟨refsA, o1, h1⟩ := serItems_total items hwf
        (refs ++ [Object.list items])
      refine ⟨refsA, (tList + 128) :: serShort (items.length : Int) ++ o1, ?_⟩
      rw [ser_step_list]
      simp only [h1]
  | .record data, hwf, refs => by
      simp only [wfSer, Bool.and_eq_true, decide_eq_true_eq] at hwf
      obtain ⟨refsA, o1, h1⟩ := serEntries_total data hwf.2 refs
      refine ⟨refsA, tRecord :: serShort (data.length : Int) ++ o1, ?_⟩
      rw [ser_step_record]
      simp only [h1]
  | .assign name v, hwf, refs => by
      simp only [wfSer] at hwf
      obtain ⟨refsA, o2, h1⟩ := ser_total v hwf refs
      refine ⟨refsA, tAssign :: (tVar :: serString name) ++ o2, ?_⟩
      rw [ser_step_assign]
      simp only [h1]
  | .function arg body, hwf, refs => by
      simp only [wfSer, Bool.and_eq_true] at hwf
      obtain ⟨refsA, o1, h1⟩ := ser_total arg hwf.1 refs
      obtain ⟨refsB, o2, h2⟩ := ser_total body hwf.2 refsA
      refine ⟨refsB, tFunction :: o1 ++ o2, ?_⟩
      rw [ser_step_function]
      simp only [h1, h2]
  | .matchFunction cs, hwf, refs => by
      simp only [wfSer] at hwf
      obtain ⟨refsA, o1, h1⟩ := serCases_total cs hwf refs
      refine ⟨refsA, tMatchFunction :: serShort (cs.length : Int) ++ o1, ?_⟩
      rw [ser_step_matchFunction]
      simp only [h1]
  | .apply fn av, hwf, refs => by
      simp only [wfSer, Bool.and_eq_true] at hwf
      obtain ⟨refsA, o1, h1⟩ := ser_total fn hwf.1 refs
      obtain ⟨refsB, o2, h2⟩ := ser_total av hwf.2 refsA
      refine ⟨refsB, tApply :: o1 ++ o2, ?_⟩
      rw [ser_step_apply]
      simp only [h1, h2]
  | .whereExp body binding, hwf, refs => by
      simp only [wfSer, Bool.and_eq_true] at hwf
      obtain ⟨refsA, o1, h1⟩ := ser_total body hwf.1 refs
      obtain ⟨refsB, o2, h2⟩ := ser_total binding hwf.2 refsA
      refine ⟨refsB, tWhere :: o1 ++ o2, ?_⟩
      rw [ser_step_where]
      simp only [h1, h2]
  | .access ob av, hwf, refs => by
      simp only [wfSer, Bool.and_eq_true] at hwf
      obtain ⟨refsA, o1, h1⟩ := ser_total ob hwf.1 refs
      obtain ⟨refsB, o2, h2⟩ := ser_total av hwf.2 refsA
      refine ⟨refsB, tAccess :: o1 ++ o2, ?_⟩
      rw [ser_step_access]
      simp only [h1, h2]
  | .matchCase p b, hwf, refs => by simp [wfSer] at hwf
  | .assertExp v c, hwf, refs => by simp [wfSer] at hwf
  | .closure env fn, hwf, refs => by simp [wfSer] at hwf
  | .nativeFunction n, hwf, refs => by simp [wfSer] at hwf
  | .envObject env, hwf, refs => by simp [wfSer] at hwf

theorem serItems_total : ∀ (items : List Object), wfSerItems items = true →
    ∀ (refs : List Object),
    ∃ refs2 out, serItems items refs = Except.ok (refs2, out)
  | [], _, refs => ⟨refs, [], by rw [serItems_nil]⟩
  | it :: more, hwf, refs => by
      simp only [wfSerItems, Bool.and_eq_true] at hwf
      obtain ⟨refsA, o1, h1⟩ := ser_total it hwf.1 refs
      obtain ⟨refsB, o2, h2⟩ := serItems_total more hwf.2 refsA
      refine ⟨refsB, o1 ++ o2, ?_⟩
      rw [serItems_cons]
      simp only [h1, h2]

theorem serEntries_total : ∀ (data : List (String × Object)),
    wfSerEntries data = true → ∀ (refs : List Object),
    ∃ refs2 out, serEntries data refs = Except.ok (refs2, out)
  | [], _, refs => ⟨refs, [], by rw [serEntries_nil]⟩
  | (k, v) :: more, hwf, refs => by
      simp only [wfSerEntries, Bool.and_eq_true] at hwf
      obtain ⟨refsA, o1, h1⟩ := ser_total v hwf.1 refs
      obtain ⟨refsB, o2, h2⟩ := serEntries_total more hwf.2 refsA
      refine ⟨refsB, serString k ++ o1 ++ o2, ?_⟩
      rw [serEntries_cons]
      simp only [h1, h2]

theorem serCases_total : ∀ (cs : List Object), wfSerCases cs = true →
    ∀ (refs : List Object),
    ∃ refs2 out, serCases cs refs = Except.ok (refs2, out)
  | [], _, refs => ⟨refs, [], by rw [serCases_nil]⟩
  | c :: more, hwf, refs => by
      cases c
      case matchCase p b =>
        simp only [wfSerCases, Bool.and_eq_true] at hwf
        obtain ⟨refsA, o1, h1⟩ := ser_total p hwf.1.1 refs
        obtain ⟨refsB, o2, h2⟩ := ser_total b hwf.1.2 refsA
        obtain ⟨refsC, o3, h3⟩ := serCases_total more hwf.2 refsB
        refine ⟨refsC, o1 ++ o2 ++ o3, ?_⟩
        rw [serCases_cons]
        simp only [h1, h2, h3]
      all_goals simp [wfSerCases] at hwf

end

mutual

/-- The original claim's precondition, written from the spec's words: the
tree contains no `Closure`, `EnvObject`, or `NativeFunction` node. -/
def claimFree : Object → Bool
  | .closure _ _ => false
  | .envObject _ => false
  | .nativeFunction _ => false
  | .int _ => true
  | .float _ => true
  | .string _ => true
  | .bytes _ => true
  | .var _ => true
  | .hole => true
  | .spread _ => true
  | .variant _ v => claimFree v
  | .binop _ l r => claimFree l && claimFree r
  | .list items => claimFreeItems items
  | .record data => claimFreeEntries data
  | .assign _ v => claimFree v
  | .function a b => claimFree a && claimFree b
  | .matchCase p b => claimFree p && claimFree b
  | .matchFunction cs => claimFreeItems cs
  | .apply f a => claimFree f && claimFree a
  | .whereExp b bi => claimFree b && claimFree bi
  | .assertExp v c => claimFree v && claimFree c
  | .access o a => claimFree o && claimFree a

def claimFreeItems : List Object → Bool
  | [] => true
  | it :: rest => claimFree it && claimFreeItems rest

def claimFreeEntries : List (String × Object) → Bool
  | [] => true
  | (_, v) :: rest => claimFree v && claimFreeEntries rest

end

/-- C1: counterexample to the claim as stated.  `Assert(Int 1, Int 2)`
contains no `Closure`, `EnvObject`, or `NativeFunction` node, yet
`Serializer.serialize` has no `Assert` case and raises
`NotImplementedError`, so `deserialize(serialize(e)) = e` fails for it. -/
theorem serialize_assert_raises_c1 :
    claimFree (.assertExp (.int 1) (.int 2)) = true ∧
    ser (.assertExp (.int 1) (.int 2)) [] = .error .notImplemented := by
  constructor
  · simp [claimFree]
  · rw [ser.eq_def]
    simp only [serRefLookup]

/-- C1 (amended): for every expression tree the serializer accepts
(`wfSer`: no `Closure`/`EnvObject`/`NativeFunction` — and also no `Assert`,
no standalone `MatchCase`, and no `FLOOR_DIV` binop, on which `serialize`
raises — with the Python-typing payload invariants), serialization succeeds
and deserializing the resulting bytes returns exactly the original tree
with no bytes left over, for any fuel above the tree size. -/
theorem serialize_roundtrip_c1 (e : Object) (hwf : wfSer e = true) :
    ∃ refs2 out, ser e [] = Except.ok (refs2, out) ∧
      ∀ fuel, sizeOf e < fuel →
        ∃ drefs2, de fuel out [] = Except.ok (e, [], drefs2) := by
  obtain ⟨refs2, out, h1⟩ := ser_total e hwf []
  refine ⟨refs2, out, h1, ?_⟩
  intro fuel hf
  obtain ⟨d2, hd⟩ := de_ser e [] refs2 out hwf h1 fuel hf [] []
  rw [List.append_nil] at hd
  exact ⟨d2, hd⟩

theorem serialize_roundtrip_c1_witness :
    wfSer (Object.apply (Object.var "f") (Object.int 1)) = true ∧
    (∃ refs2 out, ser (Object.apply (Object.var "f") (Object.int 1)) [] =
        Except.ok (refs2, out) ∧
      ∀ fuel, sizeOf (Object.apply (Object.var "f") (Object.int 1)) < fuel →
        ∃ drefs2, de fuel out [] =
          Except.ok (Object.apply (Object.var "f") (Object.int 1), [],
            drefs2)) :=
  ⟨by simp [wfSer], serialize_roundtrip_c1 _ (by simp [wfSer])⟩

/-! ## The parser (`parse_unary` / `parse_binary`, scrapscript.py:532-704)

Tokens model the lexer's output kinds used by the parser; `BytesLit` (whose
branch only base64-decodes a payload) and `EOF` (never enqueued by
`tokenize`) are outside the scope of this model.  Python precedences are
floats built from `lp n = (n, n-0.1)`, `rp n = (n, n+0.1)`, `np n = (n, n)`,
`xp n = (n, 0)` with halves `5.5`, `4.5`; here every precedence is scaled by
10 so all of them are integers and every comparison is preserved
(`lp n = (10n, 10n-1)`, `rp n = (10n, 10n+1)`, Python's `HIGHEST_PREC + 1`
becomes `HIGHEST_PREC + 10`).  The `Peekable` token stream is the explicit
`List Token`; `gensym.counter` (initially `-1`) is threaded as `g`;
`StopIteration` escaping to `parse` is `unexpectedEOF`.  The parser's
mutually recursive functions are one fuel-indexed function `parseGo` over a
call descriptor so that runs compute definitionally; each descriptor is one
source function or `while` loop. -/

inductive Token where
  | intLit (v : Int)
  | floatLit (bits : Nat)
  | stringLit (s : String)
  | name (s : String)
  | operator (s : String)
  | lparen
  | rparen
  | lbracket
  | rbracket
  | lbrace
  | rbrace
  | hash
  deriving DecidableEq, Repr

/-- The exceptions of the parsing layer. -/
inductive ParseErr where
  | unexpectedToken
  | unexpectedEOF
  | parseError
  | keyError
  | assertionError
  | outOfFuel
  deriving DecidableEq, Repr

/-- The `PS` precedence table (a Python dict, here an association list),
scaled by 10 (see the section comment).  A missed lookup is Python's
`KeyError`. -/
def PS_TABLE : List (String × Int × Int) :=
  [("::", 20000, 19999),
   ("@", 10010, 10011),
   ("", 10000, 10001),
   (">>", 140, 139),
   ("<<", 140, 139),
   ("^", 130, 131),
   ("*", 120, 121),
   ("/", 120, 121),
   ("//", 120, 119),
   ("%", 120, 119),
   ("+", 110, 109),
   ("-", 110, 109),
   (">*", 100, 101),
   ("++", 100, 101),
   (">+", 100, 99),
   ("+<", 100, 101),
   ("==", 90, 90),
   ("/=", 90, 90),
   ("<", 90, 90),
   (">", 90, 90),
   ("<=", 90, 90),
   (">=", 90, 90),
   ("&&", 80, 81),
   ("||", 70, 71),
   ("|>", 60, 61),
   ("<|", 60, 59),
   ("#", 55, 54),
   ("->", 50, 49),
   ("|", 45, 46),
   (":", 45, 44),
   ("=", 40, 41),
   ("!", 30, 29),
   (".", 30, 31),
   ("?", 30, 31),
   (",", 10, 0),
   ("...", 0, 0)]

/-- Dict lookup for the precedence table. -/
def psLookup : List (String × Int × Int) → String → Option (Int × Int)
  | [], _ => none
  | (k, v) :: rest, s => if s = k then some v else psLookup rest s

/-- `PS[op]`. -/
def PS (op : String) : Option (Int × Int) := psLookup PS_TABLE op

/-- `HIGHEST_PREC = max(max(p.pl, p.pr) for p in PS.values())`, scaled. -/
def HIGHEST_PREC : Int := 20000

/-- IEEE-754 bit-pattern test for Python's `x >= 0` on a float (NaN
compares false; `-0.0 >= 0` is true). -/
def floatNonnegBits (bits : Nat) : Bool :=
  let sign := bits / 2 ^ 63
  let expo := bits / 2 ^ 52 % 2 ^ 11
  let mant := bits % 2 ^ 52
  if expo = 2 ^ 11 - 1 && mant != 0 then false
  else if sign = 0 then true
  else expo = 0 && mant = 0

/-- Python float negation on the bit pattern: flip the sign bit. -/
def floatNegBits (bits : Nat) : Nat :=
  if bits < 2 ^ 63 then bits + 2 ^ 63 else bits - 2 ^ 63

/-- `l.items[-1]` / `assign.value` spread checks use this. -/
def lastIsSpread (items : List Object) : Bool :=
  match items.getLast? with
  | some (.spread _) => true
  | _ => false

/-- One call frame of the parser: each constructor is one source function
or `while` loop (all of which return an `Object`, the rest of the stream,
and the gensym counter). -/
inductive PCall where
  | unaryC (tokens : List Token) (p : Int) (g : Int)
  | binaryC (tokens : List Token) (p : Int) (g : Int)
  | binLoop (l : Object) (tokens : List Token) (p : Int) (g : Int)
  | listLoop (acc : List Object) (tokens : List Token) (g : Int)
  | recordLoop (acc : EnvL) (lastVal : Object) (tokens : List Token) (g : Int)
  | casesLoop (acc : List Object) (tokens : List Token) (g : Int)
  | assignC (tokens : List Token) (p : Int) (g : Int)

/-- The parser: `.unaryC` is `parse_unary`, `.binaryC` is `parse_binary`
(unary then the operator loop `.binLoop`), `.listLoop`/`.recordLoop` are the
`LeftBracket`/`LeftBrace` loops (returning the built `List`/`Record`),
`.casesLoop` is the match-function loop (returning the `MatchFunction`), and
`.assignC` is `parse_assign` (returning the `Assign` node). -/
def parseGo : Nat → PCall → Except ParseErr (Object × List Token × Int)
  | 0, _ => .error .outOfFuel
  | fuel + 1, call =>
    match call with
    | .unaryC tokens _p g =>
      match tokens with
      | [] => .error .unexpectedEOF
      | t :: rest =>
        match t with
        | .intLit v => .ok (.int v, rest, g)
        | .floatLit bits => .ok (.float bits, rest, g)
        | .name s => .ok (.var s, rest, g)
        | .hash =>
            (match rest with
            | .name v :: rest2 =>
                (match parseGo fuel (.binaryC rest2 10011 g) with
                | .error e => .error e
                | .ok (val, rest3, g2) => .ok (.variant v val, rest3, g2))
            | _ :: _ => .error .unexpectedToken
            | [] => .error .unexpectedEOF)
        | .stringLit s => .ok (.string s, rest, g)
        | .operator s =>
            if s = "..." then
              match rest with
              | .name n :: rest2 => .ok (.spread (some n), rest2, g)
              | _ => .ok (.spread none, rest, g)
            else if s = "|" then
              match parseGo fuel (.binaryC rest 46 g) with
              | .error e => .error e
              | .ok (expr, rest2, g2) =>
                  match expr with
                  | .function arg body =>
                      parseGo fuel
                        (.casesLoop [Object.matchCase arg body] rest2 g2)
                  | _ => .error .parseError
            else if s = "-" then
              match parseGo fuel (.binaryC rest (HIGHEST_PREC + 10) g) with
              | .error e => .error e
              | .ok (r, rest2, g2) =>
                  match r with
                  | .int v =>
                      if 0 ≤ v then .ok (.int (-v), rest2, g2)
                      else .error .assertionError
                  | .float bits =>
                      if floatNonnegBits bits then
                        .ok (.float (floatNegBits bits), rest2, g2)
                      else .error .assertionError
                  | _ => .ok (.binop .sub (.int 0) r, rest2, g2)
            else .error .unexpectedToken
        | .lparen =>
            (match rest with
            | .rparen :: rest2 => .ok (.hole, rest2, g)
            | _ =>
                match parseGo fuel (.binaryC rest 0 g) with
                | .error e => .error e
                | .ok (l, rest2, g2) =>
                    match rest2 with
                    | _ :: rest3 => .ok (l, rest3, g2)
                    | [] => .error .unexpectedEOF)
        | .lbracket =>
            (match rest with
            | .rbracket :: rest2 => .ok (.list [], rest2, g)
            | _ =>
                match parseGo fuel (.binaryC rest 20 g) with
                | .error e => .error e
                | .ok (item, rest2, g2) =>
                    parseGo fuel (.listLoop [item] rest2 g2))
        | .lbrace =>
            (match rest with
            | .rbrace :: rest2 => .ok (.record [], rest2, g)
            | _ =>
                match parseGo fuel (.assignC rest 20 g) with
                | .error e => .error e
                | .ok (a, rest2, g2) =>
                    match a with
                    | .assign name v =>
                        parseGo fuel
                          (.recordLoop (dictInsert [] name v) v rest2 g2)
                    | _ => .error .parseError)
        | .rparen => .error .unexpectedToken
        | .rbracket => .error .unexpectedToken
        | .rbrace => .error .unexpectedToken
    | .binaryC tokens p g =>
        (match parseGo fuel (.unaryC tokens p g) with
        | .error e => .error e
        | .ok (l, rest, g2) => parseGo fuel (.binLoop l rest p g2))
    | .binLoop l tokens p g =>
        (match tokens with
        | [] => .ok (l, [], g)
        | op :: rest =>
            match op with
            | .rparen => .ok (l, tokens, g)
            | .rbracket => .ok (l, tokens, g)
            | .rbrace => .ok (l, tokens, g)
            | .operator s =>
                (match PS s with
                | none => .error .keyError
                | some (pl, pr) =>
                    if pl < p then .ok (l, tokens, g)
                    else if s = "=" then
                      match l with
                      | .var name =>
                          (match parseGo fuel (.binaryC rest pr g) with
                          | .error e => .error e
                          | .ok (r, rest2, g2) =>
                              parseGo fuel
                                (.binLoop (.assign name r) rest2 p g2))
                      | _ => .error .parseError
                    else if s = "->" then
                      match parseGo fuel (.binaryC rest pr g) with
                      | .error e => .error e
                      | .ok (r, rest2, g2) =>
                          parseGo fuel (.binLoop (.function l r) rest2 p g2)
                    else if s = "|>" then
                      match parseGo fuel (.binaryC rest pr g) with
                      | .error e => .error e
                      | .ok (r, rest2, g2) =>
                          parseGo fuel (.binLoop (.apply r l) rest2 p g2)
                    else if s = "<|" then
                      match parseGo fuel (.binaryC rest pr g) with
                      | .error e => .error e
                      | .ok (r, rest2, g2) =>
                          parseGo fuel (.binLoop (.apply l r) rest2 p g2)
                    else if s = ">>" then
                      match parseGo fuel (.binaryC rest pr g) with
                      | .error e => .error e
                      | .ok (r, rest2, g2) =>
                          parseGo fuel (.binLoop
                            (.function (.var ("$v" ++ toString (g2 + 1)))
                              (.apply r (.apply l
                                (.var ("$v" ++ toString (g2 + 1))))))
                            rest2 p (g2 + 1))
                    else if s = "<<" then
                      match parseGo fuel (.binaryC rest pr g) with
                      | .error e => .error e
                      | .ok (r, rest2, g2) =>
                          parseGo fuel (.binLoop
                            (.function (.var ("$v" ++ toString (g2 + 1)))
                              (.apply l (.apply r
                                (.var ("$v" ++ toString (g2 + 1))))))
                            rest2 p (g2 + 1))
                    else if s = "." then
                      match parseGo fuel (.binaryC rest pr g) with
                      | .error e => .error e
                      | .ok (r, rest2, g2) =>
                          parseGo fuel (.binLoop (.whereExp l r) rest2 p g2)
                    else if s = "?" then
                      match parseGo fuel (.binaryC rest pr g) with
                      | .error e => .error e
                      | .ok (r, rest2, g2) =>
                          parseGo fuel (.binLoop (.assertExp l r) rest2 p g2)
                    else if s = "@" then
                      match parseGo fuel (.binaryC rest pr g) with
                      | .error e => .error e
                      | .ok (r, rest2, g2) =>
                          parseGo fuel (.binLoop (.access l r) rest2 p g2)
                    else
                      match fromStr s with
                      | none => .error .keyError
                      | some k =>
                          match parseGo fuel (.binaryC rest pr g) with
                          | .error e => .error e
                          | .ok (r, rest2, g2) =>
                              parseGo fuel
                                (.binLoop (.binop k l r) rest2 p g2))
            | _ =>
                (match PS "" with
                | none => .error .keyError
                | some (pl, pr) =>
                    if pl < p then .ok (l, tokens, g)
                    else
                      match parseGo fuel (.binaryC tokens pr g) with
                      | .error e => .error e
                      | .ok (r, rest2, g2) =>
                          parseGo fuel (.binLoop (.apply l r) rest2 p g2)))
    | .listLoop acc tokens g =>
        (match tokens with
        | [] => .error .unexpectedEOF
        | .rbracket :: rest => .ok (.list acc, rest, g)
        | _ :: rest =>
            if lastIsSpread acc then .error .parseError
            else
              match parseGo fuel (.binaryC rest 20 g) with
              | .error e => .error e
              | .ok (item, rest2, g2) =>
                  parseGo fuel (.listLoop (acc ++ [item]) rest2 g2))
    | .recordLoop acc lastVal tokens g =>
        (match tokens with
        | [] => .error .unexpectedEOF
        | .rbrace :: rest => .ok (.record acc, rest, g)
        | _ :: rest =>
            if lastVal.isSpread then .error .parseError
            else
              match parseGo fuel (.assignC rest 20 g) with
              | .error e => .error e
              | .ok (a, rest2, g2) =>
                  match a with
                  | .assign name v =>
                      parseGo fuel
                        (.recordLoop (dictInsert acc name v) v rest2 g2)
                  | _ => .error .parseError)
    | .casesLoop acc tokens g =>
        (match tokens with
        | [] => .ok (.matchFunction acc, [], g)
        | t :: rest =>
            if t = .operator "|" then
              match parseGo fuel (.binaryC rest 46 g) with
              | .error e => .error e
              | .ok (expr, rest2, g2) =>
                  match expr with
                  | .function arg body =>
                      parseGo fuel
                        (.casesLoop (acc ++ [Object.matchCase arg body])
                          rest2 g2)
                  | _ => .error .parseError
            else .ok (.matchFunction acc, tokens, g))
    | .assignC tokens p g =>
        (match parseGo fuel (.binaryC tokens p g) with
        | .error e => .error e
        | .ok (a, rest, g2) =>
            match a with
            | .spread n => .ok (.assign "..." (.spread n), rest, g2)
            | .assign name v => .ok (.assign name v, rest, g2)
            | _ => .error .parseError)

/-- `parse_unary(tokens, p)`. -/
def parseUnary (fuel : Nat) (tokens : List Token) (p g : Int) :
    Except ParseErr (Object × List Token × Int) :=
  parseGo fuel (.unaryC tokens p g)

/-- `parse_binary(tokens, p)`. -/
def parseBinary (fuel : Nat) (tokens : List Token) (p g : Int) :
    Except ParseErr (Object × List Token × Int) :=
  parseGo fuel (.binaryC tokens p g)

/-- `parse(tokens)` (gensym counter freshly reset: `g = -1`). -/
def parseToks (fuel : Nat) (tokens : List Token) :
    Except ParseErr (Object × List Token × Int) :=
  parseGo fuel (.binaryC tokens 0 (-1))

/-- Every left precedence a table lookup can return is bounded by the
table's bound. -/
theorem psLookup_bound (B : Int) (l : List (String × Int × Int)) (s : String)
    (pl pr : Int) (hl : ∀ kv ∈ l, kv.2.1 < B)
    (h : psLookup l s = some (pl, pr)) : pl < B := by
  induction l with
  | nil => simp [psLookup] at h
  | cons kv rest ih =>
      obtain ⟨k, v⟩ := kv
      rw [psLookup] at h
      by_cases he : s = k
      · rw [if_pos he] at h
        injection h with h2
        subst h2
        simpa using hl (k, pl, pr) (List.mem_cons_self _ _)
      · rw [if_neg he] at h
        exact ih (fun kv2 hm => hl kv2 (List.mem_cons_of_mem _ hm)) h

/-- `isinstance(r, Int) or isinstance(r, Float)`: the operand results the
unary-minus branch folds at parse time. -/
def isLiteralNum : Object → Bool
  | .int _ => true
  | .float _ => true
  | _ => false

/-- C9: unary minus folds literal operands at parse time (`-` before an
integer literal `n` gives `Int (-n)`, before a float literal the sign-bit
flipped `Float`), yields `Binop(SUB, Int 0, e)` on every other operand, and
parses its operand at `HIGHEST_PREC + 1`, above every entry of the
precedence table (including application), so `-x + y` is `(-x) + y` and
`-x y` is `(-x) y`. -/
theorem parse_unary_minus_c9 :
    (∀ (v : Int) (g : Int) (fuel : Nat), 0 ≤ v →
      parseBinary (fuel + 4) [.operator "-", .intLit v] 0 g =
        .ok (.int (-v), [], g)) ∧
    (∀ (bits : Nat) (g : Int) (fuel : Nat), floatNonnegBits bits = true →
      parseBinary (fuel + 4) [.operator "-", .floatLit bits] 0 g =
        .ok (.float (floatNegBits bits), [], g)) ∧
    (∀ (fuel : Nat) (p g : Int) (rest : List Token) (r : Object)
        (rest2 : List Token) (g2 : Int),
      parseBinary fuel rest (HIGHEST_PREC + 10) g = .ok (r, rest2, g2) →
      isLiteralNum r = false →
      parseUnary (fuel + 1) (.operator "-" :: rest) p g =
        .ok (.binop .sub (.int 0) r, rest2, g2)) ∧
    (parseBinary 10 [.operator "-", .name "x", .operator "+", .name "y"] 0 0 =
      .ok (.binop .add (.binop .sub (.int 0) (.var "x")) (.var "y"), [], 0)) ∧
    (parseBinary 10 [.operator "-", .name "x", .name "y"] 0 0 =
      .ok (.apply (.binop .sub (.int 0) (.var "x")) (.var "y"), [], 0)) ∧
    (∀ (s : String) (pl pr : Int), PS s = some (pl, pr) →
      pl < HIGHEST_PREC + 10) := by
  refine ⟨?_, ?_, ?_, rfl, rfl, ?_⟩
  · intro v g fuel h
    show (match parseUnary (fuel + 3) [Token.operator "-", Token.intLit v] 0 g
          with
          | Except.error e => Except.error e
          | Except.ok (l, rest, g2) =>
              parseGo (fuel + 3) (PCall.binLoop l rest 0 g2)) =
        Except.ok (Object.int (-v), [], g)
    have e1 : parseUnary (fuel + 3) [Token.operator "-", Token.intLit v] 0 g =
        (if 0 ≤ v then
          (Except.ok (Object.int (-v), [], g) :
            Except ParseErr (Object × List Token × Int))
         else Except.error ParseErr.assertionError) := rfl
    rw [e1, if_pos h]
    rfl
  · intro bits g fuel h
    show (match parseUnary (fuel + 3)
            [Token.operator "-", Token.floatLit bits] 0 g with
          | Except.error e => Except.error e
          | Except.ok (l, rest, g2) =>
              parseGo (fuel + 3) (PCall.binLoop l rest 0 g2)) =
        Except.ok (Object.float (floatNegBits bits), [], g)
    have e1 : parseUnary (fuel + 3)
          [Token.operator "-", Token.floatLit bits] 0 g =
        (if floatNonnegBits bits then
          (Except.ok (Object.float (floatNegBits bits), [], g) :
            Except ParseErr (Object × List Token × Int))
         else Except.error ParseErr.assertionError) := rfl
    rw [e1, if_pos h]
    rfl
  · intro fuel p g rest r rest2 g2 hparse hlit
    show (match parseBinary fuel rest (HIGHEST_PREC + 10) g with
          | Except.error e => Except.error e
          | Except.ok (r, rest2, g2) =>
              match r with
              | Object.int v =>
                  if 0 ≤ v then Except.ok (Object.int (-v), rest2, g2)
                  else Except.error ParseErr.assertionError
              | Object.float bits =>
                  if floatNonnegBits bits then
                    Except.ok (Object.float (floatNegBits bits), rest2, g2)
                  else Except.error ParseErr.assertionError
              | _ => Except.ok (Object.binop .sub (Object.int 0) r,
                  rest2, g2)) =
        Except.ok (Object.binop .sub (Object.int 0) r, rest2, g2)
    rw [hparse]
    cases r <;> first
      | rfl
      | (simp [isLiteralNum] at hlit)
  · intro s pl pr h
    simp only [HIGHEST_PREC]
    simp only [PS] at h
    have := psLookup_bound 20010 PS_TABLE s pl pr (by decide) h
    omega

theorem parse_unary_minus_c9_witness :
    ((0 : Int) ≤ 5 ∧
      parseBinary 9 [.operator "-", .intLit 5] 0 0 = .ok (.int (-5), [], 0)) :=
  ⟨by decide, parse_unary_minus_c9.1 5 0 5 (by decide)⟩

/-! ## The type checker's unifier (`unify_type`, scrapscript.py:4576-4656)

`MonoType`s: `TyVar` carries a model object id (Python object identity) and
its name; the mutable `forwarded` fields live in an explicit forwarding map
`σ : List (Nat × Ty)` keyed by id (absent id = `forwarded is None`).
`fresh_var_counter` is threaded as `ctr`; a fresh var's model id is the
counter value (Python allocates a new object, distinct from all existing
ones; callers of the model must keep input ids below the counter, as the
theorems here do).  Python's `find` `while` loop diverges on a forwarding
cycle; the model's `tyFind` stops after `σ.length + 1` hops, enough for
every acyclic map.  Python dataclass `==` (used by `occurs_in`) compares
`(forwarded, name)` fields recursively and is `False` across classes; dict
`==` is key-set plus per-key value equality.  `unify_type`'s mutual
recursion is one fuel-indexed `uniGo` over a call descriptor (`.uni` is
`unify_type`, `.uniArgs` the `TyCon` argument loop, `.uniRow` the sorted
row-field loop followed by the rest-unification endgame). -/

inductive Ty where
  | tvar (id : Nat) (name : String)
  | tcon (name : String) (args : List Ty)
  | temptyrow
  | trow (fields : List (String × Ty)) (rest : Ty)

/-- The `InferenceError`s of the unifier (plus the model's fuel). -/
inductive InferErr where
  | occursCheck
  | unifyFail
  | expectedRecord
  | rowVsEmpty
  | cannotUnify
  | assertionError
  | outOfFuel
  deriving DecidableEq, Repr

/-- `tyvar.forwarded` (`none` = unbound). -/
def lookupFwd (σ : List (Nat × Ty)) (id : Nat) : Option Ty :=
  match σ with
  | [] => none
  | (i, t) :: rest => if id = i then some t else lookupFwd rest id

/-- `chain_end.forwarded = other` (the id is unbound, so this appends). -/
def fwdInsert (σ : List (Nat × Ty)) (id : Nat) (t : Ty) : List (Nat × Ty) :=
  match σ with
  | [] => [(id, t)]
  | (i, t0) :: rest =>
      if i = id then (i, t) :: rest else (i, t0) :: fwdInsert rest id t

/-- `MonoType.find`: follow the forwarding chain while the result is a
bound `TyVar`. -/
def tyFind (fuel : Nat) (σ : List (Nat × Ty)) (t : Ty) : Ty :=
  match fuel with
  | 0 => t
  | fuel + 1 =>
    match t with
    | .tvar i n =>
        (match lookupFwd σ i with
        | none => .tvar i n
        | some t2 => tyFind fuel σ t2)
    | _ => t

/-- `fields.get(key)` on a row dict. -/
def tyDictGet (d : List (String × Ty)) (k : String) : Option Ty :=
  match d with
  | [] => none
  | (k2, v) :: rest => if k = k2 then some v else tyDictGet rest k

/-- `d[k] = v` on a row dict: overwrite in place, else append. -/
def tyDictInsert (d : List (String × Ty)) (k : String) (v : Ty) :
    List (String × Ty) :=
  match d with
  | [] => [(k, v)]
  | (k2, v2) :: rest =>
      if k2 = k then (k2, v) :: rest else (k2, v2) :: tyDictInsert rest k v

/-- `d.update(pairs)`. -/
def tyDictUpdate (d : List (String × Ty)) (pairs : List (String × Ty)) :
    List (String × Ty) :=
  pairs.foldl (fun acc kv => tyDictInsert acc kv.1 kv.2) d

/-- Row dicts compare as Python dicts: same key count, and every key of the
first maps to an equal value in the second; pairs of values to compare are
collected for the equality worklist. -/
def alignRows (f1 f2 : List (String × Ty)) : Option (List (Ty × Ty)) :=
  if f1.length = f2.length then
    f1.foldr
      (fun kv acc =>
        match acc, tyDictGet f2 kv.1 with
        | some l, some v2 => some ((kv.2, v2) :: l)
        | _, _ => none)
      (some [])
  else none

/-- Python dataclass `==` on `MonoType`s, as a worklist over pairs:
`TyVar`s compare `(forwarded, name)` (following the forwarding map, not
object identity), `TyCon`s name and argument lists, `TyRow`s their dicts
and rests; different classes compare `False`.  Conjunction over the
worklist; fuel bounds the forwarded-chain recursion (Python recurses). -/
def tyEqAll (fuel : Nat) (σ : List (Nat × Ty)) (work : List (Ty × Ty)) :
    Bool :=
  match fuel with
  | 0 => false
  | fuel + 1 =>
    match work with
    | [] => true
    | (t1, t2) :: rest =>
      match t1, t2 with
      | .tvar i1 n1, .tvar i2 n2 =>
          decide (n1 = n2) &&
            (match lookupFwd σ i1, lookupFwd σ i2 with
            | none, none => tyEqAll fuel σ rest
            | some a, some b => tyEqAll fuel σ ((a, b) :: rest)
            | _, _ => false)
      | .tcon n1 a1, .tcon n2 a2 =>
          decide (n1 = n2) && decide (a1.length = a2.length) &&
            tyEqAll fuel σ (a1.zip a2 ++ rest)
      | .temptyrow, .temptyrow => tyEqAll fuel σ rest
      | .trow f1 r1, .trow f2 r2 =>
          (match alignRows f1 f2 with
          | some pairs => tyEqAll fuel σ (pairs ++ ((r1, r2) :: rest))
          | none => false)
      | _, _ => false

/-- `occurs_in(tyvar, ty)` as a worklist over the sub-types of `ty`: the
`TyVar` case is dataclass `==` against the (unbound) variable, `TyCon`
recurses into the arguments, `TyRow` into the field values and the rest. -/
def occursIn (fuel : Nat) (σ : List (Nat × Ty)) (i : Nat) (n : String)
    (work : List Ty) : Bool :=
  match fuel with
  | 0 => false
  | fuel + 1 =>
    match work with
    | [] => false
    | t :: rest =>
      match t with
      | .tvar i2 n2 =>
          tyEqAll fuel σ [(.tvar i n, .tvar i2 n2)] ||
            occursIn fuel σ i n rest
      | .tcon _ args => occursIn fuel σ i n (args ++ rest)
      | .temptyrow => occursIn fuel σ i n rest
      | .trow fields r =>
          occursIn fuel σ i n (fields.map Prod.snd ++ (r :: rest))

/-- `row_flatten(rec)`: find a `TyVar`, stop on an unbound one; merge a
`TyRow`'s fields over its flattened rest; anything but a row form is an
`InferenceError`. -/
def rowFlatten (fuel : Nat) (σ : List (Nat × Ty)) (t : Ty) :
    Except InferErr (List (String × Ty) × Ty) :=
  match fuel with
  | 0 => .error .outOfFuel
  | fuel + 1 =>
    match (match t with
           | .tvar i n => tyFind (σ.length + 1) σ (.tvar i n)
           | _ => t) with
    | .tvar i n => .ok ([], .tvar i n)
    | .trow fields rest =>
        (match rowFlatten fuel σ rest with
        | .error e => .error e
        | .ok (flat, r) => .ok (tyDictUpdate flat fields, r))
    | .temptyrow => .ok ([], .temptyrow)
    | .tcon _ _ => .error .expectedRecord

/-- Insertion into a sorted key list (`sorted(...)`). -/
def insertSorted (k : String) : List String → List String
  | [] => [k]
  | x :: xs => if k ≤ x then k :: x :: xs else x :: insertSorted k xs

/-- `sorted(keys)`. -/
def sortKeys (l : List String) : List String := l.foldr insertSorted []

/-- `sorted(set(f1.keys()) | set(f2.keys()))`. -/
def keyUnion (f1 f2 : List (String × Ty)) : List String :=
  sortKeys ((f1.map Prod.fst ++ f2.map Prod.fst).dedup)

/-- One call frame of `unify_type`: `.uni` is a `unify_type(t1, t2)` call,
`.uniArgs` the `TyCon` argument loop, `.uniRow` the sorted-key field loop
carrying the two flattened field dicts, the two missing-field accumulators,
and the two rests (followed by the endgame of the four
missing-field cases). -/
inductive UCall where
  | uni (t1 t2 : Ty)
  | uniArgs (pairs : List (Ty × Ty))
  | uniRow (keys : List String) (f1 f2 m1 m2 : List (String × Ty))
      (r1 r2 : Ty)

/-- `unify_type`, threading the forwarding map and `fresh_var_counter`. -/
def uniGo (fuel : Nat) (σ : List (Nat × Ty)) (ctr : Nat) (call : UCall) :
    Except InferErr (List (Nat × Ty) × Nat) :=
  match fuel with
  | 0 => .error .outOfFuel
  | fuel + 1 =>
    match call with
    | .uni t1 t2 =>
      match tyFind (σ.length + 1) σ t1 with
      | .tvar i n =>
          if occursIn fuel σ i n [tyFind (σ.length + 1) σ t2] then
            .error .occursCheck
          else .ok (fwdInsert σ i (tyFind (σ.length + 1) σ t2), ctr)
      | ty1 =>
        match tyFind (σ.length + 1) σ t2 with
        | .tvar i2 n2 => uniGo fuel σ ctr (.uni (.tvar i2 n2) ty1)
        | ty2 =>
          match ty1, ty2 with
          | .tcon n1 a1, .tcon n2 a2 =>
              if n1 ≠ n2 then .error .unifyFail
              else if a1.length ≠ a2.length then .error .unifyFail
              else uniGo fuel σ ctr (.uniArgs (a1.zip a2))
          | .temptyrow, .temptyrow => .ok (σ, ctr)
          | .trow fs1 rr1, .trow fs2 rr2 =>
              (match rowFlatten fuel σ (.trow fs1 rr1),
                  rowFlatten fuel σ (.trow fs2 rr2) with
                | .error e, _ => .error e
                | .ok _, .error e => .error e
                | .ok (f1, r1), .ok (f2, r2) =>
                    uniGo fuel σ ctr
                      (.uniRow (keyUnion f1 f2) f1 f2 [] [] r1 r2))
          | .trow _ _, .temptyrow => .error .rowVsEmpty
          | .temptyrow, .trow _ _ => .error .rowVsEmpty
          | _, _ => .error .cannotUnify
    | .uniArgs [] => .ok (σ, ctr)
    | .uniArgs ((l, r) :: rest) =>
        (match uniGo fuel σ ctr (.uni l r) with
        | .error e => .error e
        | .ok (σ2, c2) => uniGo fuel σ2 c2 (.uniArgs rest))
    | .uniRow [] _f1 _f2 m1 m2 r1 r2 =>
        if m1.isEmpty && m2.isEmpty then uniGo fuel σ ctr (.uni r1 r2)
        else if m1.isEmpty then
          uniGo fuel σ ctr (.uni r2 (.trow m2 r1))
        else if m2.isEmpty then
          uniGo fuel σ ctr (.uni r1 (.trow m1 r2))
        else
          match uniGo fuel σ (ctr + 1)
              (.uni r1 (.trow m1 (.tvar ctr ("t" ++ toString ctr)))) with
          | .error e => .error e
          | .ok (σ2, c2) =>
              uniGo fuel σ2 c2
                (.uni r2 (.trow m2 (.tvar ctr ("t" ++ toString ctr))))
    | .uniRow (k :: keys) f1 f2 m1 m2 r1 r2 =>
        match tyDictGet f1 k, tyDictGet f2 k with
        | some v1, some v2 =>
            (match uniGo fuel σ ctr (.uni v1 v2) with
            | .error e => .error e
            | .ok (σ2, c2) =>
                uniGo fuel σ2 c2 (.uniRow keys f1 f2 m1 m2 r1 r2))
        | none, some v2 =>
            uniGo fuel σ ctr
              (.uniRow keys f1 f2 (m1 ++ [(k, v2)]) m2 r1 r2)
        | some v1, none =>
            uniGo fuel σ ctr
              (.uniRow keys f1 f2 m1 (m2 ++ [(k, v1)]) r1 r2)
        | none, none => .error .assertionError

mutual

/-- The claim's scope after amendment: no type variables, and rows are in
the flat form the checker's dicts keep them in (a field dict with unique
keys over an explicit empty rest). -/
def groundTy : Ty → Bool
  | .tvar _ _ => false
  | .tcon _ args => groundTyList args
  | .temptyrow => true
  | .trow fields .temptyrow =>
      decide ((fields.map Prod.fst).Nodup) && groundTyFields fields
  | .trow _ _ => false

def groundTyList : List Ty → Bool
  | [] => true
  | a :: rest => groundTy a && groundTyList rest

def groundTyFields : List (String × Ty) → Bool
  | [] => true
  | (_, v) :: rest => groundTy v && groundTyFields rest

end

theorem tyDictGet_size (d : List (String × Ty)) (k : String) (v : Ty)
    (h : tyDictGet d k = some v) : sizeOf v < sizeOf d := by
  induction d with
  | nil => simp [tyDictGet] at h
  | cons kv rest ih =>
      obtain ⟨k2, v2⟩ := kv
      rw [tyDictGet] at h
      by_cases he : k = k2
      · rw [if_pos he] at h
        injection h with h2
        subst h2
        simp_arith
      · rw [if_neg he] at h
        have := ih h
        simp_arith
        omega

/-- Every `Ty` node has positive size. -/
theorem ty_sizeOf_pos (t : Ty) : 0 < sizeOf t := by
  cases t <;> simp_arith

mutual

/-- Fuel sufficient for `uniGo` to unify a ground type with itself: one
step per node; per flat row, two steps of flattening plus one step per
sorted key (with the fuel its value needs) and the endgame. -/
def uniBound : Ty → Nat
  | .tvar _ _ => 2
  | .tcon _ args => 1 + argsBound args
  | .temptyrow => 1
  | .trow fields _ =>
      (keyUnion fields fields).length + fieldsBound fields + 5

def argsBound : List Ty → Nat
  | [] => 1
  | a :: rest => 1 + uniBound a + argsBound rest

def fieldsBound : List (String × Ty) → Nat
  | [] => 0
  | (_, v) :: rest => uniBound v + fieldsBound rest

end

/-- A row value's own fuel bound is at most the whole dict's. -/
theorem fieldsBound_get (d : List (String × Ty)) (k : String) (v : Ty)
    (h : tyDictGet d k = some v) : uniBound v ≤ fieldsBound d := by
  induction d with
  | nil => simp [tyDictGet] at h
  | cons kv rest ih =>
      obtain ⟨k2, v2⟩ := kv
      rw [tyDictGet] at h
      by_cases he : k = k2
      · rw [if_pos he] at h
        injection h with h2
        subst h2
        simp only [fieldsBound]
        omega
      · rw [if_neg he] at h
        have := ih h
        simp only [fieldsBound]
        omega

theorem tyDictGet_mem (d : List (String × Ty)) (k : String)
    (h : k ∈ d.map Prod.fst) : ∃ v, tyDictGet d k = some v := by
  induction d with
  | nil => simp at h
  | cons kv rest ih =>
      obtain ⟨k2, v2⟩ := kv
      rw [tyDictGet]
      by_cases he : k = k2
      · rw [if_pos he]; exact ⟨v2, rfl⟩
      · rw [if_neg he]
        refine ih ?_
        simp at h
        rcases h with h | h
        · exact absurd h he
        · simpa using h

theorem groundTyFields_value (d : List (String × Ty)) (k : String) (v : Ty)
    (hg : groundTyFields d = true) (h : tyDictGet d k = some v) :
    groundTy v = true := by
  induction d with
  | nil => simp [tyDictGet] at h
  | cons kv rest ih =>
      obtain ⟨k2, v2⟩ := kv
      simp only [groundTyFields, Bool.and_eq_true] at hg
      rw [tyDictGet] at h
      by_cases he : k = k2
      · rw [if_pos he] at h
        injection h with h2
        subst h2
        exact hg.1
      · rw [if_neg he] at h
        exact ih hg.2 h

theorem mem_insertSorted (a k : String) (l : List String)
    (h : a ∈ insertSorted k l) : a = k ∨ a ∈ l := by
  induction l with
  | nil => simpa [insertSorted] using h
  | cons x xs ih =>
      rw [insertSorted] at h
      by_cases hle : k ≤ x
      · rw [if_pos hle] at h
        simpa using h
      · rw [if_neg hle] at h
        simp at h
        rcases h with h | h
        · exact Or.inr (by simp [h])
        · rcases ih h with h2 | h2
          · exact Or.inl h2
          · exact Or.inr (by simp [h2])

theorem mem_sortKeys (a : String) (l : List String) (h : a ∈ sortKeys l) :
    a ∈ l := by
  induction l with
  | nil => simp [sortKeys] at h
  | cons x xs ih =>
      have h2 := mem_insertSorted a x (sortKeys xs) h
      rcases h2 with h2 | h2
      · simp [h2]
      · simp [ih h2]

theorem keyUnion_mem (d : List (String × Ty)) (k : String)
    (h : k ∈ keyUnion d d) : k ∈ d.map Prod.fst := by
  have h2 := mem_sortKeys k _ h
  rw [List.mem_dedup] at h2
  simpa using h2

/-- Rebuilding a row dict from its own entries into an empty dict returns
the entries when the keys are unique. -/
theorem tyDictUpdate_nil (pairs : List (String × Ty))
    (h : (pairs.map Prod.fst).Nodup) : tyDictUpdate [] pairs = pairs := by
  suffices hgen : ∀ (acc : List (String × Ty)),
      ((acc ++ pairs).map Prod.fst).Nodup →
      pairs.foldl (fun d kv => tyDictInsert d kv.1 kv.2) acc = acc ++ pairs by
    have := hgen [] (by simpa using h)
    simpa [tyDictUpdate] using this
  clear h
  induction pairs with
  | nil => intro acc _; simp
  | cons kv rest ih =>
      intro acc hacc
      obtain ⟨k, v⟩ := kv
      have hins : tyDictInsert acc k v = acc ++ [(k, v)] := by
        have hk : k ∉ acc.map Prod.fst := by
          intro hmem
          have h2 : (acc.map Prod.fst ++
              (k :: rest.map Prod.fst)).Nodup := by simpa using hacc
          rw [List.nodup_append] at h2
          exact (h2.2.2 hmem) (List.mem_cons_self _ _)
        clear hacc ih
        induction acc with
        | nil => rfl
        | cons a rest2 ih2 =>
            rw [tyDictInsert]
            rw [if_neg (by
              intro he
              exact hk (by simp [← he]))]
            rw [ih2 (by intro hm; exact hk (by simp [hm]))]
            rfl
      show List.foldl _ (tyDictInsert acc k v) rest = _
      rw [hins, ih (acc ++ [(k, v)]) (by simpa using hacc)]
      simp

mutual

/-- `unify_type(t, t)` on a ground type returns without touching the
forwarding map or the fresh counter. -/
theorem uni_refl : ∀ (t : Ty), groundTy t = true →
    ∀ (σ : List (Nat × Ty)) (ctr fuel : Nat), uniBound t ≤ fuel →
    uniGo fuel σ ctr (.uni t t) = .ok (σ, ctr)
  | .tvar i n, h, σ, ctr, fuel, hf => by
      simp [groundTy] at h
  | .tcon n args, h, σ, ctr, fuel, hf => by
      simp only [groundTy] at h
      simp only [uniBound] at hf
      obtain ⟨f, rfl⟩ : ∃ f, fuel = f + 1 := ⟨fuel - 1, by omega⟩
      show (if n ≠ n then (.error .unifyFail :
              Except InferErr (List (Nat × Ty) × Nat))
            else if args.length ≠ args.length then .error .unifyFail
            else uniGo f σ ctr (.uniArgs (args.zip args))) = .ok (σ, ctr)
      rw [if_neg (by simp), if_neg (by simp)]
      exact uniArgs_refl args h σ ctr f (by omega)
  | .temptyrow, h, σ, ctr, fuel, hf => by
      simp only [uniBound] at hf
      obtain ⟨f, rfl⟩ : ∃ f, fuel = f + 1 := ⟨fuel - 1, by omega⟩
      rfl
  | .trow fields rest, h, σ, ctr, fuel, hf => by
      cases rest with
      | temptyrow =>
          simp only [groundTy, Bool.and_eq_true, decide_eq_true_eq] at h
          obtain ⟨hnd, hgf⟩ := h
          simp only [uniBound] at hf
          obtain ⟨f, rfl⟩ : ∃ f, fuel = f + 1 := ⟨fuel - 1, by omega⟩
          have hflat : rowFlatten f σ (.trow fields .temptyrow) =
              .ok (tyDictUpdate [] fields, .temptyrow) := by
            obtain ⟨f2, rfl⟩ : ∃ f2, f = f2 + 1 := ⟨f - 1, by omega⟩
            obtain ⟨f3, rfl⟩ : ∃ f3, f2 = f3 + 1 := ⟨f2 - 1, by omega⟩
            rfl
          show (match rowFlatten f σ (.trow fields .temptyrow),
                  rowFlatten f σ (.trow fields .temptyrow) with
                | .error e, _ => (.error e :
                    Except InferErr (List (Nat × Ty) × Nat))
                | .ok _, .error e => .error e
                | .ok (f1, r1), .ok (f2, r2) =>
                    uniGo f σ ctr
                      (.uniRow (keyUnion f1 f2) f1 f2 [] [] r1 r2)) =
            .ok (σ, ctr)
          rw [hflat, tyDictUpdate_nil fields hnd]
          show uniGo f σ ctr (.uniRow (keyUnion fields fields) fields fields
            [] [] .temptyrow .temptyrow) = .ok (σ, ctr)
          exact uniRow_refl (keyUnion fields fields) fields
            (fun k hk => keyUnion_mem fields k hk) hgf σ ctr f (by omega)
      | tvar i n => simp [groundTy] at h
      | tcon n2 args2 => simp [groundTy] at h
      | trow f2 r2 => simp [groundTy] at h
termination_by t _ _ _ _ _ => (sizeOf t, 0)
decreasing_by
  · exact Prod.Lex.left _ _ (by simp_arith)
  · exact Prod.Lex.left _ _ (by simp_arith)

/-- The `TyCon` argument loop of `unify_type` on identical ground
argument lists. -/
theorem uniArgs_refl : ∀ (args : List Ty), groundTyList args = true →
    ∀ (σ : List (Nat × Ty)) (ctr fuel : Nat), argsBound args ≤ fuel →
    uniGo fuel σ ctr (.uniArgs (args.zip args)) = .ok (σ, ctr)
  | [], _, σ, ctr, fuel, hf => by
      simp only [argsBound] at hf
      obtain ⟨f, rfl⟩ : ∃ f, fuel = f + 1 := ⟨fuel - 1, by omega⟩
      rfl
  | a :: rest, h, σ, ctr, fuel, hf => by
      simp only [groundTyList, Bool.and_eq_true] at h
      simp only [argsBound] at hf
      obtain ⟨f, rfl⟩ : ∃ f, fuel = f + 1 := ⟨fuel - 1, by omega⟩
      show (match uniGo f σ ctr (.uni a a) with
            | .error e => (.error e :
                Except InferErr (List (Nat × Ty) × Nat))
            | .ok (σ2, c2) => uniGo f σ2 c2 (.uniArgs (rest.zip rest))) =
          .ok (σ, ctr)
      rw [uni_refl a h.1 σ ctr f (by omega)]
      exact uniArgs_refl rest h.2 σ ctr f (by omega)
termination_by args _ _ _ _ _ => (sizeOf args, 0)
decreasing_by
  · exact Prod.Lex.left _ _ (by simp_arith)
  · exact Prod.Lex.left _ _ (by simp_arith)

/-- The sorted-key row loop of `unify_type` over one flat dict against
itself: every key resolves on both sides to the same ground value, no
fields are missing, and the endgame unifies the two empty rests. -/
theorem uniRow_refl : ∀ (keys : List String) (flat : List (String × Ty)),
    (∀ k ∈ keys, k ∈ flat.map Prod.fst) → groundTyFields flat = true →
    ∀ (σ : List (Nat × Ty)) (ctr fuel : Nat),
    keys.length + fieldsBound flat + 2 ≤ fuel →
    uniGo fuel σ ctr (.uniRow keys flat flat [] [] .temptyrow .temptyrow) =
      .ok (σ, ctr)
  | [], flat, hmem, hg, σ, ctr, fuel, hb => by
      simp only [List.length_nil] at hb
      obtain ⟨f, rfl⟩ : ∃ f, fuel = f + 1 := ⟨fuel - 1, by omega⟩
      obtain ⟨f2, rfl⟩ : ∃ f2, f = f2 + 1 := ⟨f - 1, by omega⟩
      rfl
  | k :: keys, flat, hmem, hg, σ, ctr, fuel, hb => by
      obtain ⟨v, hv⟩ := tyDictGet_mem flat k (hmem k (List.mem_cons_self _ _))
      have hbv := fieldsBound_get flat k v hv
      have hgv := groundTyFields_value flat k v hg hv
      simp only [List.length_cons] at hb
      obtain ⟨f, rfl⟩ : ∃ f, fuel = f + 1 := ⟨fuel - 1, by omega⟩
      show (match tyDictGet flat k, tyDictGet flat k with
            | some v1, some v2 =>
                (match uniGo f σ ctr (.uni v1 v2) with
                | .error e => (.error e :
                    Except InferErr (List (Nat × Ty) × Nat))
                | .ok (σ2, c2) =>
                    uniGo f σ2 c2
                      (.uniRow keys flat flat [] [] .temptyrow .temptyrow))
            | none, some v2 =>
                uniGo f σ ctr (.uniRow keys flat flat ([] ++ [(k, v2)]) []
                  .temptyrow .temptyrow)
            | some v1, none =>
                uniGo f σ ctr (.uniRow keys flat flat [] ([] ++ [(k, v1)])
                  .temptyrow .temptyrow)
            | none, none => .error .assertionError) = .ok (σ, ctr)
      rw [hv]
      show (match uniGo f σ ctr (.uni v v) with
            | .error e => (.error e :
                Except InferErr (List (Nat × Ty) × Nat))
            | .ok (σ2, c2) =>
                uniGo f σ2 c2
                  (.uniRow keys flat flat [] [] .temptyrow .temptyrow)) =
          .ok (σ, ctr)
      rw [uni_refl v hgv σ ctr f (by omega)]
      exact uniRow_refl keys flat
        (fun k2 hk2 => hmem k2 (List.mem_cons_of_mem _ hk2)) hg σ ctr f
        (by omega)
termination_by keys flat _ _ _ _ _ _ => (sizeOf flat, keys.length)
decreasing_by
  · exact Prod.Lex.left _ _ (tyDictGet_size flat k v hv)
  · exact Prod.Lex.right _ (by simp only [List.length_cons]; omega)

end


/-- C3: counterexample to the claim as stated.  For `t` an unbound type
variable, `unify_type(t, t)` raises `InferenceError`: after `find`, `ty1`
is the variable itself and `occurs_in(ty1, ty2)` compares the two sides
with dataclass `==` (same name, both unbound), so the occurs check fires
on `unify(t, t)` instead of succeeding. -/
theorem unify_same_tyvar_raises_c3 :
    uniGo 5 [] 0 (.uni (.tvar 0 "a") (.tvar 0 "a")) =
      .error .occursCheck := rfl

/-- C3 (amended): for every ground type (no type variables, rows kept in
the checker's flat dict form), `unify_type(t, t)` succeeds and returns
with the forwarding state and fresh counter untouched — so `t.find()` is
literally unchanged; with type variables the occurs check of the
unamended claim fires (see the counterexample). -/
theorem unify_ground_refl_c3 (t : Ty) (h : groundTy t = true)
    (σ : List (Nat × Ty)) (ctr fuel : Nat) (hf : uniBound t ≤ fuel) :
    uniGo fuel σ ctr (.uni t t) = .ok (σ, ctr) :=
  uni_refl t h σ ctr fuel hf

theorem unify_ground_refl_c3_witness :
    (groundTy (Ty.tcon "->" [Ty.tcon "int" [], Ty.tcon "int" []]) = true ∧
      uniBound (Ty.tcon "->" [Ty.tcon "int" [], Ty.tcon "int" []]) ≤ 9) ∧
    uniGo 9 [] 0
      (.uni (Ty.tcon "->" [Ty.tcon "int" [], Ty.tcon "int" []])
        (Ty.tcon "->" [Ty.tcon "int" [], Ty.tcon "int" []])) =
      .ok ([], 0) :=
  ⟨⟨by simp [groundTy, groundTyList], by simp [uniBound, argsBound]⟩,
    unify_ground_refl_c3 _ (by simp [groundTy, groundTyList]) [] 0 9
      (by simp [uniBound, argsBound])⟩

end Scrapscript
